import Mathlib

/-!
# Tiled picture renderer: tile grid planner and render pass

A shallow embedding of `SkiaCode/tools/PictureRenderer.cpp` (namespace `sk_tools`).
The definitions of the renderer are followed by those of the two-point radial gradient
(namespace `skia`) and of the sampler stress test (namespace `skiagm`), each with its own
conventions; the theorems of the three parts come after all definitions.

Conventions of the embedding.

* C++ `int` values are integers (`Int`).  The planner loops exist twice: `setupTilesRow`,
  `setupTilesRows`, `setupTiles` and `roundedValue` add the counters as integers and are
  the code of the source for the runs in which no counter leaves the range of a 32-bit
  `int`; `setupTilesRow32`, `setupTilesRows32`, `setupTiles32` and `roundedValue32` are
  the same code with every sum reduced modulo `2 ^ 32`.  The two agree when the counters
  stay in the range (`counterInRange`), and the statements about every picture size are
  made on the 32-bit definitions under that condition.
* The tile size taken from a percentage goes through the roundings of the source: the
  product and the quotient are rounded to `double`, the quotient is converted to `float`
  (IEEE 754, round to nearest, ties to even) and rounded up to an integer.
* A method of `TiledPictureRenderer` becomes a function on the record of its fields.
  A method that dereferences a null `fPicture`, divides by zero, or does not leave a
  loop yields `none`; a normal return yields `some` of the new state.
* Loops carry an explicit iteration budget (`fuel`); a loop that has not left after `fuel`
  tests of its condition yields `none`.  Every theorem about a result states that the
  result is reached as soon as the budget is large enough.  Loops over the indices of
  `fTiles` run over the list of the indexed tiles and need no budget.
* `SkASSERT` depends on the build: a failed assertion ends a debug build and is compiled
  out of a release build; the methods that assert take the build as a parameter.
* A render pass works on the pixels of the tile surfaces and of the base canvas and
  records the calls issued by the thread that runs `render`.  The playback of a picture,
  the result of starting a worker thread and the pixel transfer of `drawBitmap` belong to
  code outside the sources at hand and are parameters.  Worker threads write only the
  surface of their own tile, so the pixels a started worker produces are accounted for
  when it is joined.
-/

namespace sk_tools

/-! ## Collaborators -/

/-- The picture as the renderer sees it: `SkPicture::width()` and `SkPicture::height()`. -/
structure SkPicture where
  width : Int
  height : Int
deriving DecidableEq

/-- Modelled from the spec: the rectangle type `SkRect` (declared outside the sources at
hand), with the edges `fLeft`, `fTop`, `fRight`, `fBottom`. -/
structure SkRect where
  fLeft : Int
  fTop : Int
  fRight : Int
  fBottom : Int
deriving DecidableEq

/-- Modelled from the spec: the rectangle `SkRect::MakeWH(w, h)`, from the origin to
`(w, h)`: the bounding rectangle of a picture of that size. -/
def SkRect.MakeWH (w h : Int) : SkRect := ⟨0, 0, w, h⟩

/-- Modelled from the spec: the rectangle moved by `(dx, dy)`, as a translation maps it. -/
def SkRect.offset (r : SkRect) (dx dy : Int) : SkRect :=
  ⟨r.fLeft + dx, r.fTop + dy, r.fRight + dx, r.fBottom + dy⟩

/-- Modelled from the spec: the intersection of two rectangles (edge-wise maximum and
minimum), as a clip restricts a clip. -/
def SkRect.intersect (a b : SkRect) : SkRect :=
  ⟨max a.fLeft b.fLeft, max a.fTop b.fTop, min a.fRight b.fRight, min a.fBottom b.fBottom⟩

/-- Modelled from the spec: the drawable surface (`SkCanvas`, declared outside the
sources at hand).  It is allocated with a width and a height, carries a transform, here
the translation of its total matrix, and a clip, kept in the surface's own pixel
coordinates. -/
structure SkCanvas where
  width : Int
  height : Int
  translateX : Int
  translateY : Int
  clip : SkRect
deriving DecidableEq

/-- Modelled from the spec: `SkCanvas::translate(dx, dy)` adds to the translation of the
surface's transform. -/
def SkCanvas.translate (c : SkCanvas) (dx dy : Int) : SkCanvas :=
  { c with translateX := c.translateX + dx, translateY := c.translateY + dy }

/-- Modelled from the spec: `SkCanvas::clipRect(rect)` restricts drawing to `rect`, which
is given in the surface's current (translated) coordinate space; the translation carries
it to pixel coordinates, where it is intersected with the clip so far. -/
def SkCanvas.clipRect (c : SkCanvas) (rect : SkRect) : SkCanvas :=
  { c with clip := c.clip.intersect (rect.offset c.translateX c.translateY) }

/-- Modelled from the spec: the value of `SkCanvas::getTotalMatrix().getTranslateX()`,
the surface reporting its current transform. -/
def SkCanvas.getTranslateX (c : SkCanvas) : Int := c.translateX

/-- Modelled from the spec: the value of `SkCanvas::getTotalMatrix().getTranslateY()`. -/
def SkCanvas.getTranslateY (c : SkCanvas) : Int := c.translateY

/-- Modelled from the spec: `ceil(log2(W))`, the value of
`SkScalarCeilToInt(SkScalarLog2(SkIntToScalar(W)))`; the three scalar helpers are declared
outside the sources at hand.  The logarithm of a number below one is not defined; the
embedding gives `0` there. -/
def ceilLog2 (w : Int) : Nat := Nat.clog 2 w.toNat

/-! ## The renderer -/

/-- The enum constant `kDefaultTileWidth`. -/
def kDefaultTileWidth : Int := 256

/-- The enum constant `kDefaultTileHeight`. -/
def kDefaultTileHeight : Int := 256

/-- The fields of `TiledPictureRenderer` (with those of its base `PictureRenderer`).
`fPicture` and `fCanvas` are pointers, `none` when null.  The two percentages are
floating-point numbers in the source and rationals here. -/
structure TiledPictureRenderer where
  fPicture : Option SkPicture
  fCanvas : Option SkCanvas
  fTiles : List SkCanvas
  fMultiThreaded : Bool
  fUsePipe : Bool
  fTileWidth : Int
  fTileHeight : Int
  fTileMinPowerOf2Width : Int
  fTileHeightPercentage : ℚ
  fTileWidthPercentage : ℚ
deriving DecidableEq

/-- The constructor `TiledPictureRenderer::TiledPictureRenderer()`. -/
def TiledPictureRenderer.create : TiledPictureRenderer :=
  { fPicture := none
    fCanvas := none
    fTiles := []
    fMultiThreaded := false
    fUsePipe := false
    fTileWidth := kDefaultTileWidth
    fTileHeight := kDefaultTileHeight
    fTileMinPowerOf2Width := 0
    fTileHeightPercentage := 0
    fTileWidthPercentage := 0 }

/-- The method `PictureRenderer::setupCanvas(int width, int height)` for the bitmap device:
a fresh surface of `width` by `height` pixels, identity transform, clip equal to the
whole surface. -/
def setupCanvas (width height : Int) : SkCanvas :=
  { width := width
    height := height
    translateX := 0
    translateY := 0
    clip := SkRect.MakeWH width height }

/-- The method `TiledPictureRenderer::clipTile`: clips the tile to the picture's rectangle
`MakeWH(fPicture->width(), fPicture->height())`. -/
def clipTile (r : TiledPictureRenderer) (tile : SkCanvas) : Option SkCanvas :=
  match r.fPicture with
  | none => none
  | some pict => some (tile.clipRect (SkRect.MakeWH pict.width pict.height))

/-- The method `TiledPictureRenderer::addTile`: a surface of `width` by `height`,
translated by `(-tile_x_start, -tile_y_start)`, clipped by `clipTile`, pushed at the end
of `fTiles`. -/
def addTile (r : TiledPictureRenderer) (tile_x_start tile_y_start width height : Int) :
    Option TiledPictureRenderer :=
  match clipTile r ((setupCanvas width height).translate (-tile_x_start) (-tile_y_start)) with
  | none => none
  | some tile => some { r with fTiles := r.fTiles ++ [tile] }

/-- The inner loop of `TiledPictureRenderer::setupTiles`, entered with the current value
of `tile_x_start`:
`for (; tile_x_start < fPicture->width(); tile_x_start += fTileWidth) addTile(...)`.
The counter is added as an integer: this is the loop of the source as long as the sum
stays a 32-bit `int`; `setupTilesRow32` is the loop with the sum reduced modulo
`2 ^ 32`. -/
def setupTilesRow : Nat → TiledPictureRenderer → Int → Int → Option TiledPictureRenderer
  | 0, _, _, _ => none
  | fuel + 1, r, tile_y_start, tile_x_start =>
    match r.fPicture with
    | none => none
    | some pict =>
      if tile_x_start < pict.width then
        match addTile r tile_x_start tile_y_start r.fTileWidth r.fTileHeight with
        | none => none
        | some r1 => setupTilesRow fuel r1 tile_y_start (tile_x_start + r1.fTileWidth)
      else some r

/-- The outer loop of `TiledPictureRenderer::setupTiles`, entered with the current value
of `tile_y_start`; `rowFuel` is the budget handed to each run of the inner loop.  The
counter is added as an integer: this is the loop of the source as long as the sum stays a
32-bit `int`; `setupTilesRows32` is the loop with the sum reduced modulo `2 ^ 32`. -/
def setupTilesRows (rowFuel : Nat) :
    Nat → TiledPictureRenderer → Int → Option TiledPictureRenderer
  | 0, _, _ => none
  | fuel + 1, r, tile_y_start =>
    match r.fPicture with
    | none => none
    | some pict =>
      if tile_y_start < pict.height then
        match setupTilesRow rowFuel r tile_y_start 0 with
        | none => none
        | some r1 => setupTilesRows rowFuel fuel r1 (tile_y_start + r1.fTileHeight)
      else some r

/-- The method `TiledPictureRenderer::setupTiles`. -/
def setupTiles (fuel : Nat) (r : TiledPictureRenderer) : Option TiledPictureRenderer :=
  setupTilesRows fuel fuel r 0

/-- The `while (current_width >= fTileMinPowerOf2Width)` loop of
`TiledPictureRenderer::setupPowerOf2Tiles`, entered with the current values of
`tile_x_start` and `current_width`.  `Int.land` is the bitwise AND `&` and
`Int.shiftRight _ 1` the arithmetic shift `>>= 1`. -/
def setupPowerOf2TilesRow :
    Nat → TiledPictureRenderer → Int → Int → Int → Int → Option TiledPictureRenderer
  | 0, _, _, _, _, _ => none
  | fuel + 1, r, rounded_value, tile_y_start, tile_x_start, current_width =>
    if current_width ≥ r.fTileMinPowerOf2Width then
      if Int.land current_width rounded_value ≠ 0 then
        match addTile r tile_x_start tile_y_start current_width r.fTileHeight with
        | none => none
        | some r1 =>
          setupPowerOf2TilesRow fuel r1 rounded_value tile_y_start
            (tile_x_start + current_width) (Int.shiftRight current_width 1)
      else
        setupPowerOf2TilesRow fuel r rounded_value tile_y_start tile_x_start
          (Int.shiftRight current_width 1)
    else some r

/-- The `for` loop over the rows of `TiledPictureRenderer::setupPowerOf2Tiles`, entered
with the current value of `tile_y_start`. -/
def setupPowerOf2TilesRows (rowFuel : Nat) (rounded_value largest_possible_tile_size : Int) :
    Nat → TiledPictureRenderer → Int → Option TiledPictureRenderer
  | 0, _, _ => none
  | fuel + 1, r, tile_y_start =>
    match r.fPicture with
    | none => none
    | some pict =>
      if tile_y_start < pict.height then
        match setupPowerOf2TilesRow rowFuel r rounded_value tile_y_start 0
            largest_possible_tile_size with
        | none => none
        | some r1 =>
          setupPowerOf2TilesRows rowFuel rounded_value largest_possible_tile_size fuel r1
            (tile_y_start + r1.fTileHeight)
      else some r

/-- The value of `rounded_value` after the first statements of `setupPowerOf2Tiles`:
the width, or `width - width % m + m` when `width % m != 0` (`%` truncates as in C++).
The sum is the sum of integers: this is the value of the source as long as it stays a
32-bit `int`; `roundedValue32` is the value with the sum reduced modulo `2 ^ 32`. -/
def roundedValue (width m : Int) : Int :=
  if width.tmod m ≠ 0 then width - width.tmod m + m else width

/-- The method `TiledPictureRenderer::setupPowerOf2Tiles`.  With a minimum width of zero
the first `%` divides by zero: no normal return.  `1 << num_bits` is `2 ^ num_bits`. -/
def setupPowerOf2Tiles (fuel : Nat) (r : TiledPictureRenderer) : Option TiledPictureRenderer :=
  match r.fPicture with
  | none => none
  | some pict =>
    if r.fTileMinPowerOf2Width = 0 then none
    else
      let rounded_value := roundedValue pict.width r.fTileMinPowerOf2Width
      let num_bits := ceilLog2 pict.width
      let largest_possible_tile_size : Int := 2 ^ num_bits
      setupPowerOf2TilesRows fuel rounded_value largest_possible_tile_size fuel r 0

/-! ## Tile rectangles -/

/-- The x offset of a tile in the picture, recovered from the tile's transform as
`copyTilesToCanvas` does (`-tile_x_start`). -/
def SkCanvas.tileX (t : SkCanvas) : Int := -t.getTranslateX

/-- The y offset of a tile in the picture, recovered from the tile's transform. -/
def SkCanvas.tileY (t : SkCanvas) : Int := -t.getTranslateY

/-- The pixel `(px, py)` of the picture lies in the tile rectangle
`[x, x + width) x [y, y + height)`. -/
def SkCanvas.coversPixel (t : SkCanvas) (px py : Int) : Prop :=
  t.tileX ≤ px ∧ px < t.tileX + t.width ∧ t.tileY ≤ py ∧ py < t.tileY + t.height

instance (t : SkCanvas) (px py : Int) : Decidable (t.coversPixel px py) := by
  unfold SkCanvas.coversPixel; infer_instance

/-- The renderer as `init` leaves it before planning: picture `W` by `H`, no tile yet,
tile size `tw` by `th`, minimum power-of-two width `m`. -/
def planningState (W H tw th m : Int) : TiledPictureRenderer :=
  { TiledPictureRenderer.create with
    fPicture := some ⟨W, H⟩
    fCanvas := some (setupCanvas W H)
    fTileWidth := tw
    fTileHeight := th
    fTileMinPowerOf2Width := m }

/-! ## Initialisation -/

/-- The integer nearest to `q`; a value halfway between two integers goes to the even
one. -/
def roundHalfEven (q : ℚ) : Int :=
  if q - (⌊q⌋ : ℚ) < 1 / 2 then ⌊q⌋
  else if 1 / 2 < q - (⌊q⌋ : ℚ) then ⌊q⌋ + 1
  else if ⌊q⌋ % 2 = 0 then ⌊q⌋ else ⌊q⌋ + 1

/-- The value nearest to `x` in the binary floating-point format with `p` significant
bits and least exponent `emin`, as IEEE 754 rounds to nearest with ties to even: around
`x` the values of the format are the multiples of
`2 ^ (max (floor (log2 |x|)) emin - p + 1)`.  The largest exponent of the format is not
part of the definition: a value beyond the finite range stays finite, far outside the
range of `int`. -/
def roundBinary (p : Nat) (emin : Int) (x : ℚ) : ℚ :=
  if x = 0 then 0
  else
    (roundHalfEven (x / (2 : ℚ) ^ (max (Int.log 2 |x|) emin - (p : Int) + 1)) : ℚ) *
      (2 : ℚ) ^ (max (Int.log 2 |x|) emin - (p : Int) + 1)

/-- The rounding of a result to the type `double`: 53 significant bits, least exponent
`-1022`. -/
def toDouble (x : ℚ) : ℚ := roundBinary 53 (-1022) x

/-- The conversion `float(x)`: 24 significant bits, least exponent `-126`. -/
def toFloat (x : ℚ) : ℚ := roundBinary 24 (-126) x

/-- Modelled from the spec: `sk_float_ceil2int`, the argument rounded up to an integer
(the helper is declared outside the sources at hand).  The result is the `int` of the
source when it lies in the range of `int`. -/
def sk_float_ceil2int (x : ℚ) : Int := ⌈x⌉

/-- Modelled from the spec: the outcome of a failed `SkASSERT`, an assertion-style fatal
check.  In a debug build (`debug = true`) the program stops, there is no normal return;
in a release build the assertion is compiled out and the guard that follows it returns
with the state `r` untouched. -/
def failedAssert (debug : Bool) (r : TiledPictureRenderer) : Option TiledPictureRenderer :=
  if debug then none else some r

/-- The method `PictureRenderer::init`: refuses a renderer that already has a picture or
a canvas, refuses a null picture, and otherwise stores the picture and creates the base
canvas with `setupCanvas()`, of the size of the picture. -/
def PictureRenderer.init (debug : Bool) (r : TiledPictureRenderer) (pict : Option SkPicture) :
    Option TiledPictureRenderer :=
  if r.fPicture ≠ none ∨ r.fCanvas ≠ none then failedAssert debug r
  else
    match pict with
    | none => failedAssert debug r
    | some p => some { r with fPicture := some p, fCanvas := some (setupCanvas p.width p.height) }

/-- The statement `if (fTileWidthPercentage > 0) fTileWidth = sk_float_ceil2int(float(
fTileWidthPercentage * fPicture->width() / 100))` of `TiledPictureRenderer::init`: the
product and the quotient are rounded to `double`, the quotient is converted to `float`
and rounded up. -/
def applyTileWidthPercentage (r : TiledPictureRenderer) : Option TiledPictureRenderer :=
  if r.fTileWidthPercentage > 0 then
    match r.fPicture with
    | none => none
    | some pict =>
      some { r with fTileWidth :=
        sk_float_ceil2int (toFloat (toDouble
          (toDouble (r.fTileWidthPercentage * (pict.width : ℚ)) / 100))) }
  else some r

/-- The statement `if (fTileHeightPercentage > 0) fTileHeight = sk_float_ceil2int(float(
fTileHeightPercentage * fPicture->height() / 100))` of `TiledPictureRenderer::init`, with
the same roundings. -/
def applyTileHeightPercentage (r : TiledPictureRenderer) : Option TiledPictureRenderer :=
  if r.fTileHeightPercentage > 0 then
    match r.fPicture with
    | none => none
    | some pict =>
      some { r with fTileHeight :=
        sk_float_ceil2int (toFloat (toDouble
          (toDouble (r.fTileHeightPercentage * (pict.height : ℚ)) / 100))) }
  else some r

/-- The last statement of `TiledPictureRenderer::init`:
`if (fTileMinPowerOf2Width > 0) setupPowerOf2Tiles(); else setupTiles();`. -/
def planTiles (fuel : Nat) (r : TiledPictureRenderer) : Option TiledPictureRenderer :=
  if r.fTileMinPowerOf2Width > 0 then setupPowerOf2Tiles fuel r else setupTiles fuel r

/-- The method `TiledPictureRenderer::init`: guard on a null picture and on tiles already
present, `INHERITED::init`, tile size from the percentages, then the planner chosen by
`fTileMinPowerOf2Width > 0`. -/
def init (debug : Bool) (fuel : Nat) (r : TiledPictureRenderer) (pict : Option SkPicture) :
    Option TiledPictureRenderer :=
  if pict = none ∨ r.fTiles.length ≠ 0 then failedAssert debug r
  else
    match PictureRenderer.init debug r pict with
    | none => none
    | some r1 =>
      match applyTileWidthPercentage r1 with
      | none => none
      | some r2 =>
        match applyTileHeightPercentage r2 with
        | none => none
        | some r3 => planTiles fuel r3

/-! ## Pixels, workers and the render pass -/

/-- Modelled from the spec: a pixel value; `0` is the value of a zero-initialised
(transparent black) pixel. -/
abbrev SkPMColor := Nat

/-- Modelled from the spec: the pixels of a surface, by pixel coordinates `(u, v)` of the
surface (`SkBitmap`, declared outside the sources at hand). -/
abbrev SkBitmap := Int → Int → SkPMColor

/-- Modelled from the spec: the pixels of a zero-initialised surface. -/
def blankPixels : SkBitmap := fun _ _ => 0

/-- Modelled from the spec: `SkPicture::clone(outArray, count)` gives `count` independent
deep copies; copy `i` is a picture that replays as the original does. -/
def SkPicture.clone (pict : SkPicture) (_count _i : Nat) : SkPicture := pict

/-- The pixel `(u, v)` of the surface lies inside the clip of the surface. -/
def SkCanvas.inClip (c : SkCanvas) (u v : Int) : Prop :=
  (c.clip.fLeft ≤ u ∧ u < c.clip.fRight) ∧ (c.clip.fTop ≤ v ∧ v < c.clip.fBottom)

instance (c : SkCanvas) (u v : Int) : Decidable (c.inClip u v) := by
  unfold SkCanvas.inClip; infer_instance

/-- Modelled from the spec: the collaborators of the render pass, taken as parameters.
`drawPicture pict tile pixels` are the pixels of the surface `tile` after
`SkCanvas::drawPicture(pict)` and `flush`; `pipePlayback pict tile pixels` those after
`ThreadSafePipeController::playback(tile)` of the stream recorded from `pict`;
`threadStart i` is the result of `SkThread::start()` for the worker of index `i`;
`transfer src dst` is the pixel that `SkCanvas::drawBitmap` leaves where it draws the
source pixel `src` over the destination pixel `dst`. -/
structure Collaborators where
  drawPicture : SkPicture → SkCanvas → SkBitmap → SkBitmap
  pipePlayback : SkPicture → SkCanvas → SkBitmap → SkBitmap
  threadStart : Nat → Bool
  transfer : SkPMColor → SkPMColor → SkPMColor

/-- The calls that the thread running `render` issues, in the order it issues them.
`newWorker i tile clone` is `SkNEW_ARGS(TileData, (fTiles[tile], &controller))`, or
`SkNEW_ARGS(CloneData, (fTiles[tile], &clones[k]))` when `clone = some k`, stored in slot
`i`; `start i ok` is `fThread.start()` of slot `i` with its result. -/
inductive RenderEvent where
  | recordPipe
  | clonePicture (count : Nat)
  | newWorker (i tile : Nat) (clone : Option Nat)
  | start (i : Nat) (ok : Bool)
  | join (i : Nat)
  | deleteWorker (i : Nat)
  | drawPicture (tile : Nat)
  | flush (tile : Nat)
  | drawBitmap (tile : Nat) (left top : Int)
  | flushCanvas
deriving DecidableEq

/-- The part of the state that a render pass changes: the pixels of each tile surface
(by index in `fTiles`), the pixels of the base canvas, and the calls issued so far. -/
structure RenderState where
  tilePixels : Nat → SkBitmap
  canvasPixels : SkBitmap
  trace : List RenderEvent

/-- Modelled from the spec: the state before the first render pass; every surface is
zero-initialised and no call has been issued. -/
def RenderState.fresh : RenderState :=
  { tilePixels := fun _ => blankPixels, canvasPixels := blankPixels, trace := [] }

/-- The state with the calls `es` appended to the trace. -/
def RenderState.log (s : RenderState) (es : List RenderEvent) : RenderState :=
  { s with trace := s.trace ++ es }

/-- The state with the pixels of tile `i` replaced. -/
def RenderState.setTile (s : RenderState) (i : Nat) (pixels : SkBitmap) : RenderState :=
  { s with tilePixels := Function.update s.tilePixels i pixels }

/-- The loop of the single-threaded branch of `TiledPictureRenderer::drawTiles` over the
remaining `(i, fTiles[i])`: `fTiles[i]->drawPicture(*(fPicture)); fTiles[i]->flush();`. -/
def drawTilesLoop (env : Collaborators) (r : TiledPictureRenderer) :
    List (Nat × SkCanvas) → RenderState → Option RenderState
  | [], s => some s
  | (i, tile) :: rest, s =>
    match r.fPicture with
    | none => none
    | some pict =>
      drawTilesLoop env r rest
        (((s.log [RenderEvent.drawPicture i]).setTile i
          (env.drawPicture pict tile (s.tilePixels i))).log [RenderEvent.flush i])

/-- The first loop of a multithreaded branch of `drawTiles` over the remaining
`(i, fTiles[i])`: a worker is created for tile `i` and started; a failed start is only
reported with `SkDebugf`. -/
def startWorkers (env : Collaborators) (clone : Bool) :
    List (Nat × SkCanvas) → RenderState → RenderState
  | [], s => s
  | (i, _) :: rest, s =>
    startWorkers env clone rest
      (s.log [RenderEvent.newWorker i i (if clone then some i else none),
        RenderEvent.start i (env.threadStart i)])

/-- The second loop of a multithreaded branch of `drawTiles` over the remaining
`(i, fTiles[i])`: `fThread.join()` then `SkDELETE`.  Modelled from the spec: `join`
returns when the entry function of a started worker has returned, and that function
(`DrawTile`, `DrawClonedTile`) writes only the surface of its own tile, so the pixels
`work i tile` of a started worker are in place when its `join` returns; a worker that did
not start never runs. -/
def joinWorkers (env : Collaborators) (work : Nat → SkCanvas → SkBitmap → SkBitmap) :
    List (Nat × SkCanvas) → RenderState → RenderState
  | [], s => s
  | (i, tile) :: rest, s =>
    joinWorkers env work rest
      ((if env.threadStart i then s.setTile i (work i tile (s.tilePixels i)) else s).log
        [RenderEvent.join i, RenderEvent.deleteWorker i])

/-- The method `TiledPictureRenderer::drawTiles`. -/
def drawTiles (env : Collaborators) (r : TiledPictureRenderer) (s : RenderState) :
    Option RenderState :=
  if r.fMultiThreaded then
    match r.fPicture with
    | none => none
    | some pict =>
      if r.fUsePipe then
        some (joinWorkers env (fun _ => env.pipePlayback pict) r.fTiles.enum
          (startWorkers env false r.fTiles.enum (s.log [RenderEvent.recordPipe])))
      else
        some (joinWorkers env
          (fun i => env.drawPicture (pict.clone r.fTiles.length i)) r.fTiles.enum
          (startWorkers env true r.fTiles.enum
            (s.log [RenderEvent.clonePicture r.fTiles.length])))
  else drawTilesLoop env r r.fTiles.enum s

/-- Modelled from the spec: `SkCanvas::drawBitmap(source, left, top)` on the surface `c`
with pixels `dest`: the source, `w` by `h` pixels, is placed with its corner at
`(left, top)` in the coordinate space of `c`; every pixel of `c` under it and inside the
clip of `c` receives `transfer src dst`, every other pixel is unchanged. -/
def drawBitmap (transfer : SkPMColor → SkPMColor → SkPMColor) (c : SkCanvas) (dest : SkBitmap)
    (source : SkBitmap) (w h left top : Int) : SkBitmap :=
  fun dx dy =>
    if ((0 ≤ dx - c.translateX - left ∧ dx - c.translateX - left < w) ∧
        (0 ≤ dy - c.translateY - top ∧ dy - c.translateY - top < h)) ∧ c.inClip dx dy then
      transfer (source (dx - c.translateX - left) (dy - c.translateY - top)) (dest dx dy)
    else dest dx dy

/-- The body of the loop of `TiledPictureRenderer::copyTilesToCanvas` for tile `i`: the
offset is read back from the total matrix of the tile and negated, and the pixels of the
tile are drawn into the base canvas `c` there. -/
def copyTile (env : Collaborators) (c : SkCanvas) (i : Nat) (tile : SkCanvas) (s : RenderState) :
    RenderState :=
  let tile_x_start := tile.getTranslateX
  let tile_y_start := tile.getTranslateY
  { s with
    canvasPixels := drawBitmap env.transfer c s.canvasPixels (s.tilePixels i)
      tile.width tile.height (-tile_x_start) (-tile_y_start)
    trace := s.trace ++ [RenderEvent.drawBitmap i (-tile_x_start) (-tile_y_start)] }

/-- The loop of `TiledPictureRenderer::copyTilesToCanvas` over the remaining
`(i, fTiles[i])`. -/
def copyTilesLoop (env : Collaborators) (c : SkCanvas) :
    List (Nat × SkCanvas) → RenderState → RenderState
  | [], s => s
  | (i, tile) :: rest, s => copyTilesLoop env c rest (copyTile env c i tile s)

/-- The method `TiledPictureRenderer::copyTilesToCanvas`; `fCanvas->` on a null canvas
gives no normal return. -/
def copyTilesToCanvas (env : Collaborators) (r : TiledPictureRenderer) (s : RenderState) :
    Option RenderState :=
  match r.fCanvas with
  | none => none
  | some c => some ((copyTilesLoop env c r.fTiles.enum s).log [RenderEvent.flushCanvas])

/-- The method `TiledPictureRenderer::render`: with a null canvas or picture the
assertions fail (no normal return in a debug build, return without any drawing in a
release build); otherwise `drawTiles`, then `copyTilesToCanvas` when asked. -/
def render (debug : Bool) (env : Collaborators) (r : TiledPictureRenderer)
    (doExtraWorkToDrawToBaseCanvas : Bool) (s : RenderState) : Option RenderState :=
  if r.fCanvas = none ∨ r.fPicture = none then (if debug then none else some s)
  else
    match drawTiles env r s with
    | none => none
    | some s1 =>
      if doExtraWorkToDrawToBaseCanvas then copyTilesToCanvas env r s1 else some s1


/-- A tile rectangle `(x, y, width, height)` in picture coordinates. -/
structure TileRect where
  x : Int
  y : Int
  width : Int
  height : Int
deriving DecidableEq

/-- The rectangle of a tile: offset recovered from the transform, size of the surface. -/
def SkCanvas.rect (t : SkCanvas) : TileRect := ⟨t.tileX, t.tileY, t.width, t.height⟩

/-- The surface that `addTile` builds for the arguments `(x, y, w, h)` on picture `pict`. -/
def mkTile (pict : SkPicture) (x y w h : Int) : SkCanvas :=
  ((setupCanvas w h).translate (-x) (-y)).clipRect (SkRect.MakeWH pict.width pict.height)

/-- The number of steps of size `step` needed to reach `bound` from `0`:
`(bound + step - 1) / step`. -/
def numSteps (step bound : Int) : Nat := ((bound + step - 1) / step).toNat

/-- The indices `i = 0, 1, ...` with `i * step < bound`, in increasing order. -/
def stepsBelow (step bound : Int) : List Nat :=
  (List.range bound.toNat).filter fun i => decide ((i : Int) * step < bound)

/-- The row-major reference list of the specification: for `j = 0, 1, ...` while
`j * th < H`, and within each `j` for `i = 0, 1, ...` while `i * tw < W`, the tile
`(i * tw, j * th, tw, th)`. -/
def rowMajorReference (W H tw th : Int) : List TileRect :=
  (stepsBelow th H).flatMap fun (j : Nat) =>
    (stepsBelow tw W).map fun (i : Nat) => ⟨(i : Int) * tw, (j : Int) * th, tw, th⟩

/-- The tiles of a uniform grid of `rows` by `cols` tiles, row by row. -/
def gridTiles (pict : SkPicture) (tw th : Int) (rows cols : Nat) : List SkCanvas :=
  (List.range rows).flatMap fun (j : Nat) =>
    (List.range cols).map fun (i : Nat) => mkTile pict ((i : Int) * tw) ((j : Int) * th) tw th

/-- The renderer with the tiles `ts` pushed at the end of `fTiles`, all other fields
unchanged. -/
def TiledPictureRenderer.pushTiles (r : TiledPictureRenderer) (ts : List SkCanvas) :
    TiledPictureRenderer :=
  { r with fTiles := r.fTiles ++ ts }

/-- The picture pixel `(px, py)` can be drawn through the tile: it lies in the tile
rectangle and its image `(px + translateX, py + translateY)` on the surface lies inside
the clip. -/
def SkCanvas.drawsPixel (t : SkCanvas) (px py : Int) : Prop :=
  t.coversPixel px py ∧
    (t.clip.fLeft ≤ px + t.translateX ∧ px + t.translateX < t.clip.fRight) ∧
    (t.clip.fTop ≤ py + t.translateY ∧ py + t.translateY < t.clip.fBottom)

instance (t : SkCanvas) (px py : Int) : Decidable (t.drawsPixel px py) := by
  unfold SkCanvas.drawsPixel; infer_instance

/-- The part of the picture that can be drawn through the tile: the clip, carried back
to picture coordinates, as `(x, y, width, height)`. -/
def SkCanvas.drawableRect (t : SkCanvas) : TileRect :=
  ⟨t.clip.fLeft - t.translateX, t.clip.fTop - t.translateY,
    t.clip.fRight - t.clip.fLeft, t.clip.fBottom - t.clip.fTop⟩

/-- The powers of two `2 ^ i` for `i = j + n - 1` down to `j` whose bit is set in `R`,
largest first. -/
def bitWidths (R j : Nat) : Nat → List Nat
  | 0 => []
  | n + 1 => (if R.testBit (j + n) then [2 ^ (j + n)] else []) ++ bitWidths R j n

/-- The tiles of one row, laid out from `x` to the right with the given widths, each
starting where the previous one ends. -/
def layRow (pict : SkPicture) (y h : Int) : Int → List Nat → List SkCanvas
  | _, [] => []
  | x, w :: ws => mkTile pict x y (w : Int) h :: layRow pict y h (x + (w : Int)) ws

/-- The tiles of a power-of-two grid: `rows` rows, each laid out from `x = 0` with the
widths `ws`. -/
def pow2Tiles (pict : SkPicture) (th : Int) (rows : Nat) (ws : List Nat) : List SkCanvas :=
  (List.range rows).flatMap fun (j : Nat) => layRow pict ((j : Int) * th) th 0 ws

/-- The powers of two whose bits are set in `R`, from the largest to the smallest, each
once (`Nat.size R` is the number of binary digits of `R`). -/
def setBitsDescending (R : Nat) : List Nat := bitWidths R 0 (Nat.size R)

/-- The widths of the tiles of the row that starts at `y`, in emission order. -/
def rowWidths (ts : List SkCanvas) (y : Int) : List Int :=
  (ts.filter fun t => decide (t.tileY = y)).map fun t => t.width

/-- The call of `drawBitmap` that `copyTilesToCanvas` issues for the tile `it.2` of index
`it.1`. -/
def blitEvent (it : Nat × SkCanvas) : RenderEvent :=
  RenderEvent.drawBitmap it.1 (-it.2.getTranslateX) (-it.2.getTranslateY)

/-- The pixel `(dx, dy)` of the destination surface `c` is written when the tile `t` is
drawn into `c` by `copyTilesToCanvas`: it lies in the rectangle of the tile and inside
the clip of `c`. -/
def hitsPixel (c t : SkCanvas) (dx dy : Int) : Prop :=
  t.coversPixel (dx - c.translateX) (dy - c.translateY) ∧ c.inClip dx dy

instance (c t : SkCanvas) (dx dy : Int) : Decidable (hitsPixel c t dx dy) := by
  unfold hitsPixel; infer_instance

/-- The pixels of the tile surfaces after the tiles of the list have been played back in
turn: tile `i` becomes `work i tile pixels` when `ok i` holds and is left alone
otherwise. -/
def playTiles (work : Nat → SkCanvas → SkBitmap → SkBitmap) (ok : Nat → Bool) :
    List (Nat × SkCanvas) → (Nat → SkBitmap) → (Nat → SkBitmap)
  | [], tp => tp
  | (i, tile) :: rest, tp =>
    playTiles work ok rest (if ok i then Function.update tp i (work i tile (tp i)) else tp)

/-- The calls `new worker i, start i` for `i = 0, ..., n - 1`, in this order; in clone
mode worker `i` is bound to clone `i`. -/
def spawnEvents (env : Collaborators) (clone : Bool) (n : Nat) : List RenderEvent :=
  (List.range n).flatMap fun (i : Nat) =>
    [RenderEvent.newWorker i i (if clone then some i else none),
      RenderEvent.start i (env.threadStart i)]

/-- The calls `join i, delete worker i` for `i = 0, ..., n - 1`, in this order. -/
def joinEvents (n : Nat) : List RenderEvent :=
  (List.range n).flatMap fun (i : Nat) => [RenderEvent.join i, RenderEvent.deleteWorker i]

/-- The calls `drawPicture i, flush i` for `i = 0, ..., n - 1`, in this order. -/
def replayEvents (n : Nat) : List RenderEvent :=
  (List.range n).flatMap fun (i : Nat) => [RenderEvent.drawPicture i, RenderEvent.flush i]

/-- The playback that a worker of the multithreaded branches performs on its tile: the
pipe playback in pipe mode, the replay of its clone of the picture in clone mode. -/
def workerPlayback (env : Collaborators) (r : TiledPictureRenderer) (pict : SkPicture) :
    Nat → SkCanvas → SkBitmap → SkBitmap :=
  if r.fUsePipe then fun _ => env.pipePlayback pict
  else fun i => env.drawPicture (pict.clone r.fTiles.length i)

/-- Collaborators for examples: every playback paints the value `1` on every pixel of the
tile, the worker of index `i` starts exactly when `start i` holds, and `drawBitmap` copies
the source pixel. -/
def paintingCollaborators (start : Nat → Bool) : Collaborators :=
  { drawPicture := fun _ _ _ => fun _ _ => 1
    pipePlayback := fun _ _ _ => fun _ _ => 1
    threadStart := start
    transfer := fun src _ => src }


/-- Collaborators for examples in which the playback of the recorded stream differs from
the direct replay: the direct replay paints the value `1` on every pixel of the tile, the
pipe playback paints the value `2`, every worker starts, and `drawBitmap` copies the
source pixel. -/
def divergingPipeCollaborators : Collaborators :=
  { drawPicture := fun _ _ _ => fun _ _ => 1
    pipePlayback := fun _ _ _ => fun _ _ => 2
    threadStart := fun _ => true
    transfer := fun src _ => src }

/-! ## End of a render pass -/

/-- The method `TiledPictureRenderer::deleteTiles`: every tile surface is deleted and the
list of tiles is reset. -/
def deleteTiles (r : TiledPictureRenderer) : TiledPictureRenderer :=
  { r with fTiles := [] }

/-- The method `PictureRenderer::resetState` for the bitmap device: its body is compiled
for the GPU device only. -/
def PictureRenderer.resetState (r : TiledPictureRenderer) : TiledPictureRenderer := r

/-- The method `PictureRenderer::end`:
`resetState(); fPicture = NULL; fCanvas.reset(NULL);`. -/
def PictureRenderer.end (r : TiledPictureRenderer) : TiledPictureRenderer :=
  { PictureRenderer.resetState r with fPicture := none, fCanvas := none }

/-- The method `TiledPictureRenderer::end`: `deleteTiles(); INHERITED::end();`. -/
def TiledPictureRenderer.end (r : TiledPictureRenderer) : TiledPictureRenderer :=
  PictureRenderer.end (deleteTiles r)

/-- The single-precision value that `init` rounds up for a percentage `percent` of the
dimension `size`: the product and the quotient by 100 in `double`, converted to
`float`. -/
def percentOfSize (percent : ℚ) (size : Int) : ℚ :=
  toFloat (toDouble (toDouble (percent * (size : ℚ)) / 100))

/-- The value `x` belongs to the binary floating-point format with `p` significant bits
and least exponent `emin`: it is an integer of fewer than `p + 1` bits times a power of
two not below the smallest spacing of the format. -/
def representable (p : Nat) (emin : Int) (x : ℚ) : Prop :=
  ∃ n k : Int, |n| < 2 ^ p ∧ emin - (p : Int) + 1 ≤ k ∧ x = (n : ℚ) * (2 : ℚ) ^ k

/-- The renderer as the planner of `init` finds it, described directly: the picture
stored, the base canvas of the size of the picture, and each tile dimension replaced by
the rounded-up single-precision percentage of the picture when that percentage is
positive. -/
def TiledPictureRenderer.sized (r : TiledPictureRenderer) (pict : SkPicture) :
    TiledPictureRenderer :=
  { r with
    fPicture := some pict
    fCanvas := some (setupCanvas pict.width pict.height)
    fTileWidth := (if r.fTileWidthPercentage > 0 then
      sk_float_ceil2int (percentOfSize r.fTileWidthPercentage pict.width) else r.fTileWidth)
    fTileHeight := (if r.fTileHeightPercentage > 0 then
      sk_float_ceil2int (percentOfSize r.fTileHeightPercentage pict.height)
      else r.fTileHeight) }

/-! ## The planner on 32-bit integers -/

/-- The largest value of a C++ `int` of 32 bits. -/
def INT_MAX : Int := 2147483647

/-- The value that a 32-bit `int` holds after an operation whose exact result is `x`:
`x` reduced modulo `2 ^ 32` into the range from `-2 ^ 31` to `2 ^ 31 - 1`. -/
def wrap32 (x : Int) : Int := (x + 2147483648) % 4294967296 - 2147483648

/-- The counter of a loop `for (int c = 0; c < bound; c += step)` stays a 32-bit `int`:
its last value, the first multiple of `step` that is not below `bound`, does not exceed
`INT_MAX`. -/
def counterInRange (step bound : Int) : Prop :=
  ((numSteps step bound : Nat) : Int) * step ≤ INT_MAX

instance (step bound : Int) : Decidable (counterInRange step bound) := by
  unfold counterInRange; infer_instance

/-- The inner loop of `TiledPictureRenderer::setupTiles` with the counter as the 32-bit
`int` of the source: `tile_x_start += fTileWidth` is reduced modulo `2 ^ 32`. -/
def setupTilesRow32 : Nat → TiledPictureRenderer → Int → Int → Option TiledPictureRenderer
  | 0, _, _, _ => none
  | fuel + 1, r, tile_y_start, tile_x_start =>
    match r.fPicture with
    | none => none
    | some pict =>
      if tile_x_start < pict.width then
        match addTile r tile_x_start tile_y_start r.fTileWidth r.fTileHeight with
        | none => none
        | some r1 =>
          setupTilesRow32 fuel r1 tile_y_start (wrap32 (tile_x_start + r1.fTileWidth))
      else some r

/-- The outer loop of `TiledPictureRenderer::setupTiles` with the counter as the 32-bit
`int` of the source: `tile_y_start += fTileHeight` is reduced modulo `2 ^ 32`. -/
def setupTilesRows32 (rowFuel : Nat) :
    Nat → TiledPictureRenderer → Int → Option TiledPictureRenderer
  | 0, _, _ => none
  | fuel + 1, r, tile_y_start =>
    match r.fPicture with
    | none => none
    | some pict =>
      if tile_y_start < pict.height then
        match setupTilesRow32 rowFuel r tile_y_start 0 with
        | none => none
        | some r1 => setupTilesRows32 rowFuel fuel r1 (wrap32 (tile_y_start + r1.fTileHeight))
      else some r

/-- The method `TiledPictureRenderer::setupTiles` on 32-bit integers. -/
def setupTiles32 (fuel : Nat) (r : TiledPictureRenderer) : Option TiledPictureRenderer :=
  setupTilesRows32 fuel fuel r 0

/-- The value of `rounded_value` after the first statements of `setupPowerOf2Tiles` on
32-bit integers: the subtraction and the addition of `width - width % m + m` are reduced
modulo `2 ^ 32`. -/
def roundedValue32 (width m : Int) : Int :=
  if width.tmod m ≠ 0 then wrap32 (wrap32 (width - width.tmod m) + m) else width

end sk_tools

/-!
# Two-point radial gradient

A shallow embedding of `SkiaCode/src/effects/gradients/SkTwoPointRadialGradient.cpp`.

Conventions of the embedding.

* `SkScalar` is an arbitrary linearly ordered field `K`: the rationals when a value is
  computed, the reals for statements over exact real arithmetic.  The rounding of the
  floating-point or fixed-point scalar of a build is not part of the embedding.
* `SkScalarDiv` and `SkScalarInvert` yield `none` for a zero divisor, and a function that
  evaluates one of them with a zero divisor yields `none`.
* The square root, the conversions between scalars and `SkFixed`, the tile procedures,
  the constant `kCache32Shift` and the base class `SkGradientShaderBase` belong to code
  outside the sources at hand and are parameters.
* A span is the list of the pixels written to `dstC[0 .. count - 1]`, in that order.
-/

namespace skia

/-! ## Scalars, points and matrices -/

/-- Modelled from the spec: a pixel value; `0` is fully transparent black. -/
abbrev SkPMColor := Nat

/-- Modelled from the spec: `SkFixed`, a 16.16 fixed-point number held in an integer. -/
abbrev SkFixed := Int

/-- Modelled from the spec: `SkPoint`, a pair of scalars. -/
structure SkPoint (K : Type) where
  /-- The abscissa. -/
  fX : K
  /-- The ordinate. -/
  fY : K
deriving DecidableEq

/-- Modelled from the spec: `SkScalarInvert(x)`, the reciprocal `1 / x`; there is no
result for `x = 0`. -/
def SkScalarInvert {K : Type} [LinearOrderedField K] (x : K) : Option K :=
  if x = 0 then none else some (1 / x)

/-- Modelled from the spec: `SkScalarDiv(a, b)`, the quotient `a / b`; there is no result
for `b = 0`. -/
def SkScalarDiv {K : Type} [LinearOrderedField K] (a b : K) : Option K :=
  if b = 0 then none else some (a / b)

/-- Modelled from the spec: `SkMatrix` without perspective, the map
`(x, y) ↦ (fScaleX * x + fSkewX * y + fTransX, fSkewY * x + fScaleY * y + fTransY)`. -/
structure SkMatrix (K : Type) where
  /-- Entry `[0][0]`. -/
  fScaleX : K
  /-- Entry `[0][1]`. -/
  fSkewX : K
  /-- Entry `[0][2]`. -/
  fTransX : K
  /-- Entry `[1][0]`. -/
  fSkewY : K
  /-- Entry `[1][1]`. -/
  fScaleY : K
  /-- Entry `[1][2]`. -/
  fTransY : K
deriving DecidableEq

/-- Modelled from the spec: `SkMatrix::reset`, the identity. -/
def SkMatrix.reset {K : Type} [LinearOrderedField K] : SkMatrix K := ⟨1, 0, 0, 0, 1, 0⟩

/-- Modelled from the spec: `SkMatrix::setTranslate(dx, dy)`. -/
def SkMatrix.setTranslate {K : Type} [LinearOrderedField K] (dx dy : K) : SkMatrix K :=
  ⟨1, 0, dx, 0, 1, dy⟩

/-- Modelled from the spec: `SkMatrix::setSinCos(sinV, cosV)`, the rotation with the given
sine and cosine. -/
def SkMatrix.setSinCos {K : Type} [LinearOrderedField K] (sinV cosV : K) : SkMatrix K :=
  ⟨cosV, -sinV, 0, sinV, cosV, 0⟩

/-- Modelled from the spec: `SkMatrix::postScale(sx, sy)`, the matrix followed by the
scaling. -/
def SkMatrix.postScale {K : Type} [LinearOrderedField K] (m : SkMatrix K) (sx sy : K) :
    SkMatrix K :=
  ⟨sx * m.fScaleX, sx * m.fSkewX, sx * m.fTransX, sy * m.fSkewY, sy * m.fScaleY, sy * m.fTransY⟩

/-- Modelled from the spec: `SkMatrix::preConcat(other)`, `other` followed by the
matrix. -/
def SkMatrix.preConcat {K : Type} [LinearOrderedField K] (m other : SkMatrix K) : SkMatrix K :=
  ⟨m.fScaleX * other.fScaleX + m.fSkewX * other.fSkewY,
   m.fScaleX * other.fSkewX + m.fSkewX * other.fScaleY,
   m.fScaleX * other.fTransX + m.fSkewX * other.fTransY + m.fTransX,
   m.fSkewY * other.fScaleX + m.fScaleY * other.fSkewY,
   m.fSkewY * other.fSkewX + m.fScaleY * other.fScaleY,
   m.fSkewY * other.fTransX + m.fScaleY * other.fTransY + m.fTransY⟩

/-- Modelled from the spec: `SkMatrix::mapXY`, the image of the point `(x, y)`. -/
def SkMatrix.mapXY {K : Type} [LinearOrderedField K] (m : SkMatrix K) (x y : K) : SkPoint K :=
  ⟨m.fScaleX * x + m.fSkewX * y + m.fTransX, m.fSkewY * x + m.fScaleY * y + m.fTransY⟩

/-- Modelled from the spec: `SkMatrix::getScaleX`. -/
def SkMatrix.getScaleX {K : Type} (m : SkMatrix K) : K := m.fScaleX

/-- Modelled from the spec: `SkMatrix::getSkewY`. -/
def SkMatrix.getSkewY {K : Type} (m : SkMatrix K) : K := m.fSkewY

/-! ## The base class and the library -/

/-- Modelled from the spec: `SkShader::TileMode`. -/
inductive TileMode where
  | kClamp_TileMode
  | kRepeat_TileMode
  | kMirror_TileMode
deriving DecidableEq

/-- Modelled from the spec: the matrix classes of `SkShader`. -/
inductive MatrixClass where
  | kLinear_MatrixClass
  | kFixedStepInX_MatrixClass
  | kPerspective_MatrixClass
deriving DecidableEq

/-- Modelled from the spec: the library functions and constants the file uses and does
not define, taken as parameters. -/
structure Library (K : Type) where
  /-- The function `SkScalarSqrt`. -/
  SkScalarSqrt : K → K
  /-- The function `SkScalarToFixed`. -/
  SkScalarToFixed : K → SkFixed
  /-- The function `SkFixedToScalar`. -/
  SkFixedToScalar : SkFixed → K
  /-- The function `SkClampMax(value, max)`. -/
  SkClampMax : SkFixed → SkFixed → SkFixed
  /-- The function `mirror_tileproc`. -/
  mirror_tileproc : SkFixed → SkFixed
  /-- The function `repeat_tileproc`. -/
  repeat_tileproc : SkFixed → SkFixed
  /-- The constant `SkGradientShaderBase::kCache32Shift`. -/
  kCache32Shift : Nat
  /-- The method `SkMatrix::fixedStepInX(y, &fixedX, &fixedY)`. -/
  fixedStepInX : SkMatrix K → K → SkFixed × SkFixed

/-- Modelled from the spec: the members of the base class `SkGradientShaderBase` read by
the file: the tile mode, the tile procedure, the matrix from device to gradient space with
its map procedure and its class, and the colour cache returned by `getCache32()`. -/
structure SkGradientShaderBase (K : Type) where
  /-- The member `fTileMode`. -/
  fTileMode : TileMode
  /-- The member `fTileProc`. -/
  fTileProc : SkFixed → SkFixed
  /-- The member `fDstToIndex`. -/
  fDstToIndex : SkMatrix K
  /-- The member `fDstToIndexProc`. -/
  fDstToIndexProc : SkMatrix K → K → K → SkPoint K
  /-- The member `fDstToIndexClass`. -/
  fDstToIndexClass : MatrixClass
  /-- The table returned by `getCache32()`. -/
  getCache32 : Int → SkPMColor

/-! ## The gradient -/

/-- The members of `SkTwoPointRadialGradient`: the base class, the two centres and radii
given to the constructor, and the members computed by `init`. -/
structure SkTwoPointRadialGradient (K : Type) where
  /-- The base class `SkGradientShaderBase`. -/
  base : SkGradientShaderBase K
  /-- The centre of the start circle. -/
  fCenter1 : SkPoint K
  /-- The centre of the end circle. -/
  fCenter2 : SkPoint K
  /-- The radius of the start circle. -/
  fRadius1 : K
  /-- The radius of the end circle. -/
  fRadius2 : K
  /-- The difference of the centres, divided by the difference of the radii. -/
  fDiff : SkPoint K
  /-- The difference of the radii. -/
  fDiffRadius : K
  /-- The start radius divided by the difference of the radii. -/
  fStartRadius : K
  /-- The square of `fStartRadius`. -/
  fSr2D2 : K
  /-- The quadratic coefficient. -/
  fA : K
  /-- The reciprocal of twice the quadratic coefficient. -/
  fOneOverTwoA : K
  /-- The matrix from gradient points to the unit space. -/
  fPtsToUnit : SkMatrix K

/-- The method `SkTwoPointRadialGradient::init`: the members derived from the centres and
the radii.  Both reciprocals are taken under the guard written in the source. -/
def SkTwoPointRadialGradient.init {K : Type} [LinearOrderedField K]
    (g : SkTwoPointRadialGradient K) : Option (SkTwoPointRadialGradient K) :=
  let fDiff : SkPoint K := ⟨g.fCenter1.fX - g.fCenter2.fX, g.fCenter1.fY - g.fCenter2.fY⟩
  let fDiffRadius := g.fRadius2 - g.fRadius1
  match (if fDiffRadius ≠ 0 then SkScalarInvert fDiffRadius else some 0) with
  | none => none
  | some inv =>
    let fDiff : SkPoint K := ⟨fDiff.fX * inv, fDiff.fY * inv⟩
    let fStartRadius := g.fRadius1 * inv
    let fSr2D2 := fStartRadius * fStartRadius
    let fA := fDiff.fX * fDiff.fX + fDiff.fY * fDiff.fY - 1
    match (if fA ≠ 0 then SkScalarInvert (fA * 2) else some 0) with
    | none => none
    | some fOneOverTwoA =>
      some { g with
        fDiff := fDiff
        fDiffRadius := fDiffRadius
        fStartRadius := fStartRadius
        fSr2D2 := fSr2D2
        fA := fA
        fOneOverTwoA := fOneOverTwoA
        fPtsToUnit := (SkMatrix.setTranslate (-g.fCenter1.fX) (-g.fCenter1.fY)).postScale inv inv }

/-- The constructor `SkTwoPointRadialGradient(start, startRadius, end, endRadius, ...)`:
the base class is built from the colours, the positions, the tile mode and the mapper,
the four members are copied and `init()` runs.  The members `init` sets start at zero. -/
def SkTwoPointRadialGradient.create {K : Type} [LinearOrderedField K]
    (base : SkGradientShaderBase K) (start : SkPoint K) (startRadius : K)
    (finish : SkPoint K) (endRadius : K) : Option (SkTwoPointRadialGradient K) :=
  SkTwoPointRadialGradient.init
    { base := base
      fCenter1 := start
      fCenter2 := finish
      fRadius1 := startRadius
      fRadius2 := endRadius
      fDiff := ⟨0, 0⟩
      fDiffRadius := 0
      fStartRadius := 0
      fSr2D2 := 0
      fA := 0
      fOneOverTwoA := 0
      fPtsToUnit := SkMatrix.reset }

/-! ## The quadratic -/

/-- The scalar that `two_point_radial` hands to `SkScalarToFixed`: `-c / b` when `foura`
is zero, and otherwise the root selected by `posRoot`, computed from the square root of
the absolute value of the discriminant. -/
def two_point_radial_scalar {K : Type} [LinearOrderedField K] (sqrt : K → K)
    (b fx fy sr2d2 foura oneOverTwoA : K) (posRoot : Bool) : Option K :=
  let c := fx * fx + fy * fy - sr2d2
  if 0 = foura then
    SkScalarDiv (-c) b
  else
    let discrim := b * b - foura * c
    let discrim := if discrim < 0 then -discrim else discrim
    let rootDiscrim := sqrt discrim
    if posRoot then some ((-b + rootDiscrim) * oneOverTwoA)
    else some ((-b - rootDiscrim) * oneOverTwoA)

/-- The function `two_point_radial`. -/
def two_point_radial {K : Type} [LinearOrderedField K] (lib : Library K)
    (b fx fy sr2d2 foura oneOverTwoA : K) (posRoot : Bool) : Option SkFixed :=
  (two_point_radial_scalar lib.SkScalarSqrt b fx fy sr2d2 foura oneOverTwoA posRoot).map
    lib.SkScalarToFixed

/-! ## Spans -/

/-- The statements `SkASSERT(index <= 0xFFFF); *dstC++ = cache[index >> kCache32Shift];`
shared by the loops: the colour written for a tiled index.  A failed assertion ends a
debug build. -/
def cacheLookup {K : Type} (debug : Bool) (lib : Library K) (cache : Int → SkPMColor)
    (index : SkFixed) : Option SkPMColor :=
  if debug ∧ ¬ index ≤ 0xFFFF then none
  else some (cache (Int.shiftRight index lib.kCache32Shift))

/-- One turn of the loop of a shade procedure, without the increments: the quadratic is
solved, its value goes through the tile procedure and the colour is looked up. -/
def shadePixel {K : Type} [LinearOrderedField K] (debug : Bool) (lib : Library K)
    (tile : SkFixed → SkFixed) (cache : Int → SkPMColor)
    (fx fy b fSr2D2 foura fOneOverTwoA : K) (posRoot : Bool) : Option SkPMColor :=
  match two_point_radial lib b fx fy fSr2D2 foura fOneOverTwoA posRoot with
  | none => none
  | some t => cacheLookup debug lib cache (tile t)

/-- The loop `for (; count > 0; --count)` of the three shade procedures, which differ in
the tile procedure only: a pixel is shaded, then `fx += dx; fy += dy; b += db;`. -/
def shadeSpan_twopoint {K : Type} [LinearOrderedField K] (debug : Bool) (lib : Library K)
    (tile : SkFixed → SkFixed) (dx dy db fSr2D2 foura fOneOverTwoA : K) (posRoot : Bool)
    (cache : Int → SkPMColor) : K → K → K → Nat → Option (List SkPMColor)
  | _, _, _, 0 => some []
  | fx, fy, b, count + 1 =>
    match shadePixel debug lib tile cache fx fy b fSr2D2 foura fOneOverTwoA posRoot with
    | none => none
    | some color =>
      match shadeSpan_twopoint debug lib tile dx dy db fSr2D2 foura fOneOverTwoA posRoot cache
          (fx + dx) (fy + dy) (b + db) count with
      | none => none
      | some rest => some (color :: rest)

/-- The function `shadeSpan_twopoint_clamp`: the index is `SkClampMax(t, 0xFFFF)`. -/
def shadeSpan_twopoint_clamp {K : Type} [LinearOrderedField K] (debug : Bool)
    (lib : Library K) (fx dx fy dy b db fSr2D2 foura fOneOverTwoA : K) (posRoot : Bool)
    (cache : Int → SkPMColor) (count : Int) : Option (List SkPMColor) :=
  shadeSpan_twopoint debug lib (fun t => lib.SkClampMax t 0xFFFF) dx dy db fSr2D2 foura
    fOneOverTwoA posRoot cache fx fy b count.toNat

/-- The function `shadeSpan_twopoint_mirror`: the index is `mirror_tileproc(t)`. -/
def shadeSpan_twopoint_mirror {K : Type} [LinearOrderedField K] (debug : Bool)
    (lib : Library K) (fx dx fy dy b db fSr2D2 foura fOneOverTwoA : K) (posRoot : Bool)
    (cache : Int → SkPMColor) (count : Int) : Option (List SkPMColor) :=
  shadeSpan_twopoint debug lib lib.mirror_tileproc dx dy db fSr2D2 foura
    fOneOverTwoA posRoot cache fx fy b count.toNat

/-- The function `shadeSpan_twopoint_repeat`: the index is `repeat_tileproc(t)`. -/
def shadeSpan_twopoint_repeat {K : Type} [LinearOrderedField K] (debug : Bool)
    (lib : Library K) (fx dx fy dy b db fSr2D2 foura fOneOverTwoA : K) (posRoot : Bool)
    (cache : Int → SkPMColor) (count : Int) : Option (List SkPMColor) :=
  shadeSpan_twopoint debug lib lib.repeat_tileproc dx dy db fSr2D2 foura
    fOneOverTwoA posRoot cache fx fy b count.toNat

/-- The expression `(fDiff.fX * fx + fDiff.fY * fy - fStartRadius) * 2` that
`shadeSpan` assigns to `b`, in the span path and in the perspective loop. -/
def SkTwoPointRadialGradient.spanB {K : Type} [LinearOrderedField K]
    (g : SkTwoPointRadialGradient K) (fx fy : K) : K :=
  (g.fDiff.fX * fx + g.fDiff.fY * fy - g.fStartRadius) * 2

/-- The perspective loop of `shadeSpan`: every pixel is mapped by `dstProc`, `b` is
computed from the mapped point, and `dstX += SK_Scalar1`. -/
def shadeSpan_perspective {K : Type} [LinearOrderedField K] (debug : Bool) (lib : Library K)
    (g : SkTwoPointRadialGradient K) (foura : K) (posRoot : Bool) (dstY : K) :
    K → Nat → Option (List SkPMColor)
  | _, 0 => some []
  | dstX, count + 1 =>
    let srcPt := g.base.fDstToIndexProc g.base.fDstToIndex dstX dstY
    match shadePixel debug lib g.base.fTileProc g.base.getCache32 srcPt.fX srcPt.fY
        (g.spanB srcPt.fX srcPt.fY) g.fSr2D2 foura g.fOneOverTwoA posRoot with
    | none => none
    | some color =>
      match shadeSpan_perspective debug lib g foura posRoot dstY (dstX + 1) count with
      | none => none
      | some rest => some (color :: rest)

/-- The method `SkTwoPointRadialGradient::shadeSpan(x, y, dstC, count)`.  `SkASSERT(count
> 0)` ends a debug build when it fails; `sk_bzero` with a negative count has no defined
result.  The assertions on the matrix class and on the tile mode hold for every value of
the two enumerations. -/
def SkTwoPointRadialGradient.shadeSpan {K : Type} [LinearOrderedField K] (debug : Bool)
    (lib : Library K) (g : SkTwoPointRadialGradient K) (x y count : Int) :
    Option (List SkPMColor) :=
  if debug ∧ ¬ count > 0 then none
  else if g.fDiffRadius = 0 then
    if count < 0 then none else some (List.replicate count.toNat 0)
  else
    let foura := g.fA * 4
    let posRoot := decide (g.fDiffRadius < 0)
    if g.base.fDstToIndexClass ≠ MatrixClass.kPerspective_MatrixClass then
      let srcPt := g.base.fDstToIndexProc g.base.fDstToIndex ((x : K) + 1 / 2) ((y : K) + 1 / 2)
      let fx := srcPt.fX
      let fy := srcPt.fY
      let dx := if g.base.fDstToIndexClass = MatrixClass.kFixedStepInX_MatrixClass then
        lib.SkFixedToScalar (lib.fixedStepInX g.base.fDstToIndex (y : K)).1
        else g.base.fDstToIndex.getScaleX
      let dy := if g.base.fDstToIndexClass = MatrixClass.kFixedStepInX_MatrixClass then
        lib.SkFixedToScalar (lib.fixedStepInX g.base.fDstToIndex (y : K)).2
        else g.base.fDstToIndex.getSkewY
      let b := g.spanB fx fy
      let db := (g.fDiff.fX * dx + g.fDiff.fY * dy) * 2
      match g.base.fTileMode with
      | TileMode.kClamp_TileMode =>
        shadeSpan_twopoint_clamp debug lib fx dx fy dy b db g.fSr2D2 foura g.fOneOverTwoA
          posRoot g.base.getCache32 count
      | TileMode.kMirror_TileMode =>
        shadeSpan_twopoint_mirror debug lib fx dx fy dy b db g.fSr2D2 foura g.fOneOverTwoA
          posRoot g.base.getCache32 count
      | TileMode.kRepeat_TileMode =>
        shadeSpan_twopoint_repeat debug lib fx dx fy dy b db g.fSr2D2 foura g.fOneOverTwoA
          posRoot g.base.getCache32 count
    else
      shadeSpan_perspective debug lib g foura posRoot (y : K) (x : K) count.toNat

/-! ## The bitmap description -/

/-- The method `SkTwoPointRadialGradient::asABitmap`, for the arguments `matrix` and `xy`
(`none` is a null pointer): the matrix written to `*matrix` and the two tile modes written
to `xy`.  The table written to `*bitmap` belongs to the base class.  The reciprocal of
`diffL` is taken under the guard `if (diffL)`. -/
def SkTwoPointRadialGradient.asABitmap {K : Type} [LinearOrderedField K] (lib : Library K)
    (g : SkTwoPointRadialGradient K) (matrix : Option (SkMatrix K)) (xy : Bool) :
    Option (Option (SkMatrix K) × Option (TileMode × TileMode)) :=
  let diffL : K := match matrix with
    | none => 0
    | some _ => lib.SkScalarSqrt (g.fDiff.fX * g.fDiff.fX + g.fDiff.fY * g.fDiff.fY)
  let modes := if xy then some (g.base.fTileMode, TileMode.kClamp_TileMode) else none
  match matrix with
  | none => some (none, modes)
  | some _ =>
    if diffL ≠ 0 then
      match SkScalarInvert diffL with
      | none => none
      | some invDiffL =>
        some (some ((SkMatrix.setSinCos (-(invDiffL * g.fDiff.fY))
          (invDiffL * g.fDiff.fX)).preConcat g.fPtsToUnit), modes)
    else
      some (some ((SkMatrix.reset).preConcat g.fPtsToUnit), modes)

/-! ## Flattening -/

/-- Modelled from the spec: a flattenable buffer, the sequence of the scalar words
written so far; a read takes words from the front. -/
abbrev SkFlattenableBuffer (K : Type) := List K

/-- Modelled from the spec: `SkFlattenableWriteBuffer::writeScalar`. -/
def writeScalar {K : Type} (buffer : SkFlattenableBuffer K) (s : K) : SkFlattenableBuffer K :=
  buffer ++ [s]

/-- Modelled from the spec: `SkFlattenableWriteBuffer::writePoint`, the two coordinates. -/
def writePoint {K : Type} (buffer : SkFlattenableBuffer K) (p : SkPoint K) :
    SkFlattenableBuffer K :=
  buffer ++ [p.fX, p.fY]

/-- Modelled from the spec: `SkFlattenableReadBuffer::readScalar`; there is no result at
the end of the buffer. -/
def readScalar {K : Type} : SkFlattenableBuffer K → Option (K × SkFlattenableBuffer K)
  | [] => none
  | s :: rest => some (s, rest)

/-- Modelled from the spec: `SkFlattenableReadBuffer::readPoint`; there is no result when
fewer than two words are left. -/
def readPoint {K : Type} : SkFlattenableBuffer K → Option (SkPoint K × SkFlattenableBuffer K)
  | x :: y :: rest => some (⟨x, y⟩, rest)
  | _ => none

/-- The method `SkTwoPointRadialGradient::flatten`: the base class writes its part with
`INHERITED::flatten`, a parameter, then the two centres and the two radii follow. -/
def SkTwoPointRadialGradient.flatten {K : Type}
    (inheritedFlatten : SkGradientShaderBase K → SkFlattenableBuffer K → SkFlattenableBuffer K)
    (g : SkTwoPointRadialGradient K) (buffer : SkFlattenableBuffer K) : SkFlattenableBuffer K :=
  writeScalar (writeScalar (writePoint (writePoint (inheritedFlatten g.base buffer)
    g.fCenter1) g.fCenter2) g.fRadius1) g.fRadius2

/-- The constructor `SkTwoPointRadialGradient(SkFlattenableReadBuffer&)`: the base class
reads its part with `INHERITED(buffer)`, a parameter, then the members are read in the
order of the initialiser list and `init()` runs.  The result carries the words left in
the buffer. -/
def SkTwoPointRadialGradient.unflatten {K : Type} [LinearOrderedField K]
    (inheritedRead : SkFlattenableBuffer K →
      Option (SkGradientShaderBase K × SkFlattenableBuffer K))
    (buffer : SkFlattenableBuffer K) :
    Option (SkTwoPointRadialGradient K × SkFlattenableBuffer K) :=
  match inheritedRead buffer with
  | none => none
  | some (base, b0) =>
    match readPoint b0 with
    | none => none
    | some (center1, b1) =>
      match readPoint b1 with
      | none => none
      | some (center2, b2) =>
        match readScalar b2 with
        | none => none
        | some (radius1, b3) =>
          match readScalar b3 with
          | none => none
          | some (radius2, b4) =>
            match SkTwoPointRadialGradient.create base center1 radius1 center2 radius2 with
            | none => none
            | some g => some (g, b4)

/-! ## Reference descriptions and examples -/

/-- The reciprocal under the guard of `init`: `0` for `0`, and `1 / x` otherwise. -/
def guardedInvert {K : Type} [LinearOrderedField K] (x : K) : K :=
  if x = 0 then 0 else 1 / x

/-- The members that `init` computes, described directly with the guarded reciprocal of
the difference of the radii. -/
def SkTwoPointRadialGradient.derived {K : Type} [LinearOrderedField K]
    (g : SkTwoPointRadialGradient K) : SkTwoPointRadialGradient K :=
  { g with
    fDiff := ⟨(g.fCenter1.fX - g.fCenter2.fX) * guardedInvert (g.fRadius2 - g.fRadius1),
      (g.fCenter1.fY - g.fCenter2.fY) * guardedInvert (g.fRadius2 - g.fRadius1)⟩
    fDiffRadius := g.fRadius2 - g.fRadius1
    fStartRadius := g.fRadius1 * guardedInvert (g.fRadius2 - g.fRadius1)
    fSr2D2 := g.fRadius1 * guardedInvert (g.fRadius2 - g.fRadius1) *
      (g.fRadius1 * guardedInvert (g.fRadius2 - g.fRadius1))
    fA := (g.fCenter1.fX - g.fCenter2.fX) * guardedInvert (g.fRadius2 - g.fRadius1) *
        ((g.fCenter1.fX - g.fCenter2.fX) * guardedInvert (g.fRadius2 - g.fRadius1)) +
      (g.fCenter1.fY - g.fCenter2.fY) * guardedInvert (g.fRadius2 - g.fRadius1) *
        ((g.fCenter1.fY - g.fCenter2.fY) * guardedInvert (g.fRadius2 - g.fRadius1)) - 1
    fOneOverTwoA := guardedInvert
      (((g.fCenter1.fX - g.fCenter2.fX) * guardedInvert (g.fRadius2 - g.fRadius1) *
        ((g.fCenter1.fX - g.fCenter2.fX) * guardedInvert (g.fRadius2 - g.fRadius1)) +
      (g.fCenter1.fY - g.fCenter2.fY) * guardedInvert (g.fRadius2 - g.fRadius1) *
        ((g.fCenter1.fY - g.fCenter2.fY) * guardedInvert (g.fRadius2 - g.fRadius1)) - 1) * 2)
    fPtsToUnit := (SkMatrix.setTranslate (-g.fCenter1.fX) (-g.fCenter1.fY)).postScale
      (guardedInvert (g.fRadius2 - g.fRadius1)) (guardedInvert (g.fRadius2 - g.fRadius1)) }

/-- The pixels `i, i + 1, ..., i + n - 1` of a span described pixel by pixel, in order;
there is no span as soon as one pixel has no value. -/
def spanFrom (pixel : Nat → Option SkPMColor) : Nat → Nat → Option (List SkPMColor)
  | _, 0 => some []
  | i, n + 1 =>
    match pixel i with
    | none => none
    | some color =>
      match spanFrom pixel (i + 1) n with
      | none => none
      | some rest => some (color :: rest)

/-- The tile procedure that `shadeSpan` selects for a tile mode. -/
def Library.tileFor {K : Type} (lib : Library K) : TileMode → SkFixed → SkFixed
  | TileMode.kClamp_TileMode => fun t => lib.SkClampMax t 0xFFFF
  | TileMode.kMirror_TileMode => lib.mirror_tileproc
  | TileMode.kRepeat_TileMode => lib.repeat_tileproc

/-- The first point of a span in gradient space: the centre of the pixel `(x, y)` mapped
by `fDstToIndexProc`. -/
def SkTwoPointRadialGradient.spanStart {K : Type} [LinearOrderedField K]
    (g : SkTwoPointRadialGradient K) (x y : Int) : SkPoint K :=
  g.base.fDstToIndexProc g.base.fDstToIndex ((x : K) + 1 / 2) ((y : K) + 1 / 2)

/-- The step of a span in gradient space: the fixed step of the matrix for the class
`kFixedStepInX_MatrixClass`, the first column of the matrix otherwise. -/
def SkTwoPointRadialGradient.spanStep {K : Type} [LinearOrderedField K] (lib : Library K)
    (g : SkTwoPointRadialGradient K) (y : Int) : SkPoint K :=
  if g.base.fDstToIndexClass = MatrixClass.kFixedStepInX_MatrixClass then
    ⟨lib.SkFixedToScalar (lib.fixedStepInX g.base.fDstToIndex (y : K)).1,
     lib.SkFixedToScalar (lib.fixedStepInX g.base.fDstToIndex (y : K)).2⟩
  else ⟨g.base.fDstToIndex.getScaleX, g.base.fDstToIndex.getSkewY⟩

/-- Direct evaluation of pixel `i` of a span: the point is `start + i * step`, the linear
coefficient comes from the formula of `shadeSpan` at that point, and the pixel is shaded
as in the loops. -/
def SkTwoPointRadialGradient.directPixel {K : Type} [LinearOrderedField K] (debug : Bool)
    (lib : Library K) (g : SkTwoPointRadialGradient K) (x y : Int) (i : Nat) :
    Option SkPMColor :=
  shadePixel debug lib (lib.tileFor g.base.fTileMode) g.base.getCache32
    ((g.spanStart x y).fX + (i : K) * (g.spanStep lib y).fX)
    ((g.spanStart x y).fY + (i : K) * (g.spanStep lib y).fY)
    (g.spanB ((g.spanStart x y).fX + (i : K) * (g.spanStep lib y).fX)
      ((g.spanStart x y).fY + (i : K) * (g.spanStep lib y).fY))
    g.fSr2D2 (g.fA * 4) g.fOneOverTwoA (decide (g.fDiffRadius < 0))

/-- An example library over the rationals: the square root is the integer root of the
integer part, a scalar becomes a fixed-point number by truncation of `65536 * x`, and the
tile procedures clamp, mirror and repeat on `[0, 0xFFFF]`. -/
def exampleLibrary : Library ℚ :=
  { SkScalarSqrt := fun x => (Nat.sqrt ⌊x⌋.toNat : ℚ)
    SkScalarToFixed := fun x => if x < 0 then -⌊-x * 65536⌋ else ⌊x * 65536⌋
    SkFixedToScalar := fun n => (n : ℚ) / 65536
    SkClampMax := fun value max => if value < 0 then 0 else if value > max then max else value
    mirror_tileproc := fun t => if t % 131072 < 65536 then t % 131072 else 131071 - t % 131072
    repeat_tileproc := fun t => t % 65536
    kCache32Shift := 8
    fixedStepInX := fun m _ => (⌊m.fScaleX * 65536⌋, ⌊m.fSkewY * 65536⌋) }

/-- An example base class: clamp mode, the given matrix from device to gradient space,
mapped without perspective, and a cache that holds its own index. -/
def exampleBase (m : SkMatrix ℚ) : SkGradientShaderBase ℚ :=
  { fTileMode := TileMode.kClamp_TileMode
    fTileProc := fun t => exampleLibrary.SkClampMax t 0xFFFF
    fDstToIndex := m
    fDstToIndexProc := SkMatrix.mapXY
    fDstToIndexClass := MatrixClass.kLinear_MatrixClass
    getCache32 := fun i => i.toNat }

/-- An example gradient over the rationals, as the constructor leaves it, drawn with the
identity as device matrix: the matrix from device to gradient space is `fPtsToUnit`. -/
def exampleGradient (start : SkPoint ℚ) (startRadius : ℚ) (finish : SkPoint ℚ)
    (endRadius : ℚ) : SkTwoPointRadialGradient ℚ :=
  SkTwoPointRadialGradient.derived
    { base := exampleBase ((SkMatrix.setTranslate (-start.fX) (-start.fY)).postScale
        (guardedInvert (endRadius - startRadius)) (guardedInvert (endRadius - startRadius)))
      fCenter1 := start
      fCenter2 := finish
      fRadius1 := startRadius
      fRadius2 := endRadius
      fDiff := ⟨0, 0⟩
      fDiffRadius := 0
      fStartRadius := 0
      fSr2D2 := 0
      fA := 0
      fOneOverTwoA := 0
      fPtsToUnit := SkMatrix.reset }

/-- The example gradient from the circle of centre `(1/2, 1/2)` and radius `0` to the
circle of centre `(3/2, 1/2)` and radius `1`: the distance of the centres equals the
difference of the radii. -/
def tangentGradient : SkTwoPointRadialGradient ℚ :=
  exampleGradient ⟨1 / 2, 1 / 2⟩ 0 ⟨3 / 2, 1 / 2⟩ 1

end skia

/-!
# Sampler stress test: the striped texture

A shallow embedding of `SamplerStressGM::createTexture` in `SkiaCode/gm/samplerstress.cpp`
(namespace `skiagm`).  The pixel memory of the texture is the sequence of its 32-bit
words, indexed from `getAddr32(0, 0)`; the loop counters are never negative and are
natural numbers; `SkPreMultiplyColor` and the content of freshly allocated pixel memory
are parameters.
-/

namespace skiagm

/-- Modelled from the spec: `SkColor`, a 32-bit colour. -/
abbrev SkColor := Nat

/-- Modelled from the spec: `SkPMColor`, a premultiplied 32-bit pixel. -/
abbrev SkPMColor := Nat

/-- Modelled from the spec: the constant `SK_ColorBLACK`. -/
def SK_ColorBLACK : SkColor := 0xFF000000

/-- Modelled from the spec: the constant `SK_ColorRED`. -/
def SK_ColorRED : SkColor := 0xFFFF0000

/-- Modelled from the spec: the constant `SK_ColorGREEN`. -/
def SK_ColorGREEN : SkColor := 0xFF00FF00

/-- Modelled from the spec: an `SkBitmap` of 32-bit pixels: the width, the height and the
row bytes set by `setConfig`, and the words of the pixel memory. -/
structure SkBitmap where
  /-- The width in pixels. -/
  fWidth : Nat
  /-- The height in pixels. -/
  fHeight : Nat
  /-- The bytes of a row. -/
  fRowBytes : Nat
  /-- The words of the pixel memory. -/
  fPixels : Nat → SkPMColor

/-- Modelled from the spec: the pixel at `getAddr32(x, y)`, `y` rows of `fRowBytes` bytes
and `x` words after the first word. -/
def SkBitmap.pixel (bm : SkBitmap) (x y : Nat) : SkPMColor :=
  bm.fPixels (y * (bm.fRowBytes / 4) + x)

/-- The members of `SamplerStressGM` that `createTexture` reads or writes. -/
structure SamplerStressGM where
  /-- The texture. -/
  fTexture : SkBitmap
  /-- The flag set once the texture is filled. -/
  fTextureCreated : Bool

/-- The constructor `SamplerStressGM()`: `fTextureCreated(false)` and an empty bitmap. -/
def SamplerStressGM.create : SamplerStressGM :=
  { fTexture := ⟨0, 0, 0, fun _ => 0⟩, fTextureCreated := false }

/-- The body of the inner loop of `createTexture` for the pixel `(x, y)`: black, then red
when `y % 5 == 0`, then green when `x % 7 == 0`. -/
def stripePixel (SkPreMultiplyColor : SkColor → SkPMColor) (xSize : Nat)
    (addr : Nat → SkPMColor) (y x : Nat) : Nat → SkPMColor :=
  let addr := Function.update addr (y * xSize + x) (SkPreMultiplyColor SK_ColorBLACK)
  let addr := if y % 5 = 0 then
    Function.update addr (y * xSize + x) (SkPreMultiplyColor SK_ColorRED) else addr
  if x % 7 = 0 then
    Function.update addr (y * xSize + x) (SkPreMultiplyColor SK_ColorGREEN) else addr

/-- The method `SamplerStressGM::createTexture`: nothing when the texture exists;
otherwise the bitmap is configured as 16 by 16 pixels with rows of `xSize *
sizeof(SkColor)` bytes, its pixels are allocated (`allocated` is the content of the new
memory), the two loops fill them and the flag is set. -/
def SamplerStressGM.createTexture (SkPreMultiplyColor : SkColor → SkPMColor)
    (allocated : Nat → SkPMColor) (gm : SamplerStressGM) : SamplerStressGM :=
  if gm.fTextureCreated then gm
  else
    let xSize := 16
    let ySize := 16
    let addr := (List.range ySize).foldl
      (fun addr y => (List.range xSize).foldl
        (fun addr x => stripePixel SkPreMultiplyColor xSize addr y x) addr) allocated
    { fTexture := ⟨xSize, ySize, xSize * 4, addr⟩, fTextureCreated := true }

end skiagm

namespace sk_tools

/-! ## Auxiliary facts -/

theorem pushTiles_nil (r : TiledPictureRenderer) : r.pushTiles [] = r := by
  cases r; simp [TiledPictureRenderer.pushTiles]

theorem pushTiles_pushTiles (r : TiledPictureRenderer) (a b : List SkCanvas) :
    (r.pushTiles a).pushTiles b = r.pushTiles (a ++ b) := by
  simp [TiledPictureRenderer.pushTiles]

theorem pushTiles_fPicture (r : TiledPictureRenderer) (ts : List SkCanvas) :
    (r.pushTiles ts).fPicture = r.fPicture := rfl

theorem pushTiles_fTileWidth (r : TiledPictureRenderer) (ts : List SkCanvas) :
    (r.pushTiles ts).fTileWidth = r.fTileWidth := rfl

theorem pushTiles_fTileHeight (r : TiledPictureRenderer) (ts : List SkCanvas) :
    (r.pushTiles ts).fTileHeight = r.fTileHeight := rfl

theorem pushTiles_fTileMinPowerOf2Width (r : TiledPictureRenderer) (ts : List SkCanvas) :
    (r.pushTiles ts).fTileMinPowerOf2Width = r.fTileMinPowerOf2Width := rfl

theorem pushTiles_fTiles (r : TiledPictureRenderer) (ts : List SkCanvas) :
    (r.pushTiles ts).fTiles = r.fTiles ++ ts := rfl

theorem addTile_eq (r : TiledPictureRenderer) (p : SkPicture) (hp : r.fPicture = some p)
    (x y w h : Int) :
    addTile r x y w h = some (r.pushTiles [mkTile p x y w h]) := by
  simp [addTile, clipTile, hp, mkTile, TiledPictureRenderer.pushTiles]

theorem numSteps_reach (step bound : Int) (hs : 0 < step) (hb : 0 < bound) :
    bound ≤ (numSteps step bound : Int) * step := by
  unfold numSteps
  have hq : 0 ≤ (bound + step - 1) / step := Int.ediv_nonneg (by omega) (by omega)
  rw [Int.toNat_of_nonneg hq]
  have h1 := Int.emod_add_ediv (bound + step - 1) step
  have h2 := Int.emod_lt_of_pos (bound + step - 1) hs
  have h3 : step * ((bound + step - 1) / step) = (bound + step - 1) / step * step := by ring
  omega

theorem numSteps_below (step bound : Int) (hs : 0 < step) (hb : 0 < bound) (i : Nat)
    (hi : i < numSteps step bound) : (i : Int) * step < bound := by
  unfold numSteps at hi
  have hq : 0 ≤ (bound + step - 1) / step := Int.ediv_nonneg (by omega) (by omega)
  have hi' : (i : Int) + 1 ≤ (bound + step - 1) / step := by omega
  have h1 := Int.emod_add_ediv (bound + step - 1) step
  have h2 := Int.emod_nonneg (bound + step - 1) (by omega : step ≠ 0)
  have h4 : ((i : Int) + 1) * step ≤ (bound + step - 1) / step * step :=
    mul_le_mul_of_nonneg_right hi' (by omega)
  have h3 : step * ((bound + step - 1) / step) = (bound + step - 1) / step * step := by ring
  have h5 : ((i : Int) + 1) * step = (i : Int) * step + step := by ring
  omega

theorem numSteps_iff (step bound : Int) (hs : 0 < step) (hb : 0 < bound) (i : Nat) :
    (i : Int) * step < bound ↔ i < numSteps step bound := by
  constructor
  · intro h
    by_contra hc
    have hle : (numSteps step bound : Int) ≤ i := by omega
    have h1 := numSteps_reach step bound hs hb
    have h2 : (numSteps step bound : Int) * step ≤ (i : Int) * step :=
      mul_le_mul_of_nonneg_right hle (by omega)
    omega
  · exact numSteps_below step bound hs hb i

theorem numSteps_le (step bound : Int) (hs : 0 < step) (hb : 0 < bound) :
    numSteps step bound ≤ bound.toNat := by
  by_contra hc
  have h : bound.toNat < numSteps step bound := by omega
  have h1 := numSteps_below step bound hs hb _ h
  have h2 : ((bound.toNat : Nat) : Int) = bound := Int.toNat_of_nonneg (by omega)
  rw [h2] at h1
  have h3 : bound * 1 ≤ bound * step := mul_le_mul_of_nonneg_left (by omega) (by omega)
  omega

theorem filter_range_eq (p : Nat → Bool) :
    ∀ (n k : Nat), k ≤ n → (∀ i, i < n → (p i = true ↔ i < k)) →
      (List.range n).filter p = List.range k := by
  intro n
  induction n with
  | zero =>
    intro k hk _
    have : k = 0 := by omega
    subst this
    rfl
  | succ n ih =>
    intro k hk h
    rw [List.range_succ, List.filter_append]
    by_cases hkn : k ≤ n
    · have hpn : p n = false := by
        have := h n (by omega)
        cases hp : p n with
        | false => rfl
        | true => exact absurd (this.mp hp) (by omega)
      rw [ih k hkn (fun i hi => h i (by omega))]
      simp [hpn]
    · have hk' : k = n + 1 := by omega
      subst hk'
      have hpn : p n = true := (h n (by omega)).mpr (by omega)
      rw [ih n (le_refl n) (fun i hi => by simp [hi, (h i (by omega)).mpr (by omega)])]
      simp [hpn, List.range_succ]

theorem stepsBelow_eq (step bound : Int) (hs : 0 < step) (hb : 0 < bound) :
    stepsBelow step bound = List.range (numSteps step bound) := by
  unfold stepsBelow
  apply filter_range_eq _ _ _ (numSteps_le step bound hs hb)
  intro i _
  simp only [decide_eq_true_eq]
  exact numSteps_iff step bound hs hb i

theorem setupTilesRow_eq (p : SkPicture) (y : Int) (n : Nat) :
    ∀ (fuel : Nat) (r : TiledPictureRenderer) (x : Int),
      r.fPicture = some p → n < fuel →
      p.width ≤ x + (n : Int) * r.fTileWidth →
      (∀ i : Nat, i < n → x + (i : Int) * r.fTileWidth < p.width) →
      setupTilesRow fuel r y x = some (r.pushTiles
        ((List.range n).map fun (i : Nat) =>
          mkTile p (x + (i : Int) * r.fTileWidth) y r.fTileWidth r.fTileHeight)) := by
  induction n with
  | zero =>
    intro fuel r x hp hfuel hreach _
    obtain ⟨f, rfl⟩ : ∃ f, fuel = f + 1 := ⟨fuel - 1, by omega⟩
    have hx : ¬ x < p.width := by simpa using hreach
    simp [setupTilesRow, hp, hx, pushTiles_nil]
  | succ n ih =>
    intro fuel r x hp hfuel hreach hbelow
    obtain ⟨f, rfl⟩ : ∃ f, fuel = f + 1 := ⟨fuel - 1, by omega⟩
    have hx : x < p.width := by simpa using hbelow 0 (by omega)
    simp only [setupTilesRow, hp, hx, if_true, addTile_eq r p hp, pushTiles_fTileWidth]
    have hstep : ∀ i : Nat, ((i + 1 : Nat) : Int) * r.fTileWidth
        = (i : Int) * r.fTileWidth + r.fTileWidth := by
      intro i; push_cast; ring
    have key := ih f (r.pushTiles [mkTile p x y r.fTileWidth r.fTileHeight])
      (x + r.fTileWidth) hp (by omega)
      (by rw [pushTiles_fTileWidth]; have := hstep n; omega)
      (by
        intro i hi
        rw [pushTiles_fTileWidth]
        have := hstep i
        have := hbelow (i + 1) (by omega)
        omega)
    rw [key, pushTiles_pushTiles, pushTiles_fTileWidth, pushTiles_fTileHeight]
    congr 2
    simp only [List.range_succ_eq_map, List.map_cons, List.map_map, List.singleton_append]
    congr 1
    · simp
    · apply List.map_congr_left
      intro i _
      simp only [Function.comp, Nat.succ_eq_add_one]
      congr 1
      rw [hstep i]; ring

theorem setupTilesRows_eq (p : SkPicture) (rowFuel cols : Nat) (hcols : cols < rowFuel)
    (n : Nat) :
    ∀ (fuel : Nat) (r : TiledPictureRenderer) (y : Int),
      r.fPicture = some p → n < fuel →
      p.width ≤ (cols : Int) * r.fTileWidth →
      (∀ i : Nat, i < cols → (i : Int) * r.fTileWidth < p.width) →
      p.height ≤ y + (n : Int) * r.fTileHeight →
      (∀ j : Nat, j < n → y + (j : Int) * r.fTileHeight < p.height) →
      setupTilesRows rowFuel fuel r y = some (r.pushTiles
        ((List.range n).flatMap fun (j : Nat) => (List.range cols).map fun (i : Nat) =>
          mkTile p ((i : Int) * r.fTileWidth) (y + (j : Int) * r.fTileHeight)
            r.fTileWidth r.fTileHeight)) := by
  induction n with
  | zero =>
    intro fuel r y hp hfuel _ _ hreach _
    obtain ⟨f, rfl⟩ : ∃ f, fuel = f + 1 := ⟨fuel - 1, by omega⟩
    have hy : ¬ y < p.height := by simpa using hreach
    simp [setupTilesRows, hp, hy, pushTiles_nil]
  | succ n ih =>
    intro fuel r y hp hfuel hw1 hw2 hreach hbelow
    obtain ⟨f, rfl⟩ : ∃ f, fuel = f + 1 := ⟨fuel - 1, by omega⟩
    have hy : y < p.height := by simpa using hbelow 0 (by omega)
    have hrow := setupTilesRow_eq p y cols rowFuel r 0 hp hcols (by simpa using hw1)
      (by intro i hi; simpa using hw2 i hi)
    simp only [setupTilesRows, hp, hy, if_true, hrow, pushTiles_fTileHeight]
    have hstep : ∀ j : Nat, ((j + 1 : Nat) : Int) * r.fTileHeight
        = (j : Int) * r.fTileHeight + r.fTileHeight := by
      intro j; push_cast; ring
    have key := ih f (r.pushTiles ((List.range cols).map fun (i : Nat) =>
        mkTile p (0 + (i : Int) * r.fTileWidth) y r.fTileWidth r.fTileHeight))
      (y + r.fTileHeight) hp (by omega) hw1 hw2
      (by rw [pushTiles_fTileHeight]; have := hstep n; omega)
      (by
        intro j hj
        rw [pushTiles_fTileHeight]
        have := hstep j
        have := hbelow (j + 1) (by omega)
        omega)
    rw [key, pushTiles_pushTiles, pushTiles_fTileWidth, pushTiles_fTileHeight]
    congr 2
    simp only [List.range_succ_eq_map, List.flatMap_cons, List.flatMap_map]
    congr 1
    · apply List.map_congr_left
      intro i _
      simp
    · apply List.flatMap_congr
      intro j _
      apply List.map_congr_left
      intro i _
      simp only [Nat.succ_eq_add_one]
      congr 1
      rw [hstep j]; ring

theorem setupTiles_eq (r : TiledPictureRenderer) (p : SkPicture) (hp : r.fPicture = some p)
    (hW : 0 < p.width) (hH : 0 < p.height) (htw : 0 < r.fTileWidth) (hth : 0 < r.fTileHeight)
    (fuel : Nat) (hfW : numSteps r.fTileWidth p.width < fuel)
    (hfH : numSteps r.fTileHeight p.height < fuel) :
    setupTiles fuel r = some (r.pushTiles (gridTiles p r.fTileWidth r.fTileHeight
      (numSteps r.fTileHeight p.height) (numSteps r.fTileWidth p.width))) := by
  have h := setupTilesRows_eq p fuel (numSteps r.fTileWidth p.width) hfW
    (numSteps r.fTileHeight p.height) fuel r 0 hp hfH
    (numSteps_reach _ _ htw hW) (numSteps_below _ _ htw hW)
    (by simpa using numSteps_reach _ _ hth hH)
    (by intro j hj; simpa using numSteps_below _ _ hth hH j hj)
  unfold setupTiles
  rw [h]
  simp [gridTiles]

theorem mkTile_rect (p : SkPicture) (x y w h : Int) : (mkTile p x y w h).rect = ⟨x, y, w, h⟩ := by
  simp [mkTile, SkCanvas.rect, SkCanvas.tileX, SkCanvas.tileY, SkCanvas.getTranslateX,
    SkCanvas.getTranslateY, SkCanvas.clipRect, SkCanvas.translate, setupCanvas]

theorem mkTile_coversPixel (p : SkPicture) (x y w h px py : Int) :
    (mkTile p x y w h).coversPixel px py ↔ (x ≤ px ∧ px < x + w) ∧ (y ≤ py ∧ py < y + h) := by
  simp [mkTile, SkCanvas.coversPixel, SkCanvas.tileX, SkCanvas.tileY, SkCanvas.getTranslateX,
    SkCanvas.getTranslateY, SkCanvas.clipRect, SkCanvas.translate, setupCanvas, and_assoc]

theorem cell_iff (s : Int) (hs : 0 < s) (q : Int) (hq : 0 ≤ q) (i : Nat) :
    ((i : Int) * s ≤ q ∧ q < (i : Int) * s + s) ↔ i = (q / s).toNat := by
  have hq' : 0 ≤ q / s := Int.ediv_nonneg hq (by omega)
  have h1 := Int.emod_add_ediv q s
  have h2 := Int.emod_nonneg q (by omega : s ≠ 0)
  have h3 := Int.emod_lt_of_pos q hs
  constructor
  · rintro ⟨hlo, hhi⟩
    have ha : (i : Int) ≤ q / s := (Int.le_ediv_iff_mul_le hs).mpr hlo
    have hb : q / s < (i : Int) + 1 := (Int.ediv_lt_iff_lt_mul hs).mpr (by
      have : ((i : Int) + 1) * s = (i : Int) * s + s := by ring
      omega)
    omega
  · intro hi
    have hi' : (i : Int) = q / s := by rw [hi]; exact Int.toNat_of_nonneg hq'
    rw [hi']
    have : s * (q / s) = q / s * s := by ring
    constructor <;> omega

theorem countP_map_eq_one {α β : Type} (p : α → Bool) (g : β → α) (b0 : β) :
    ∀ (l : List β), l.Nodup → b0 ∈ l → (∀ b ∈ l, (p (g b) = true ↔ b = b0)) →
      List.countP p (l.map g) = 1 := by
  intro l
  induction l with
  | nil => intro _ h; simp at h
  | cons a l ih =>
    intro hnd hmem h
    rw [List.nodup_cons] at hnd
    rw [List.map_cons, List.countP_cons]
    by_cases hab : a = b0
    · subst hab
      have h0 : List.countP p (l.map g) = 0 := by
        rw [List.countP_eq_zero]
        intro t ht
        rw [List.mem_map] at ht
        obtain ⟨b, hb, rfl⟩ := ht
        intro hpb
        have := (h b (List.mem_cons_of_mem _ hb)).mp hpb
        subst this
        exact hnd.1 hb
      have : p (g a) = true := (h a (List.mem_cons_self _ _)).mpr rfl
      simp [h0, this]
    · have hmem' : b0 ∈ l := by
        rcases List.mem_cons.mp hmem with h' | h'
        · exact absurd h'.symm hab
        · exact h'
      have hpa : ¬ p (g a) = true := fun hc => hab ((h a (List.mem_cons_self _ _)).mp hc)
      rw [ih hnd.2 hmem' (fun b hb => h b (List.mem_cons_of_mem _ hb))]
      simp [hpa]

theorem countP_flatMap_eq_zero {α β : Type} (p : α → Bool) (f : β → List α) (l : List β)
    (h : ∀ b ∈ l, List.countP p (f b) = 0) : List.countP p (l.flatMap f) = 0 := by
  rw [List.countP_eq_zero]
  intro t ht
  rw [List.mem_flatMap] at ht
  obtain ⟨b, hb, htb⟩ := ht
  exact (List.countP_eq_zero.mp (h b hb)) t htb

theorem countP_flatMap_eq_one {α β : Type} (p : α → Bool) (f : β → List α) (b0 : β) :
    ∀ (l : List β), l.Nodup → b0 ∈ l → List.countP p (f b0) = 1 →
      (∀ b ∈ l, b ≠ b0 → List.countP p (f b) = 0) →
      List.countP p (l.flatMap f) = 1 := by
  intro l
  induction l with
  | nil => intro _ h; simp at h
  | cons a l ih =>
    intro hnd hmem h1 h0
    rw [List.nodup_cons] at hnd
    rw [List.flatMap_cons, List.countP_append]
    by_cases hab : a = b0
    · subst hab
      rw [h1, countP_flatMap_eq_zero p f l (fun b hb => h0 b (List.mem_cons_of_mem _ hb)
        (fun hc => hnd.1 (hc ▸ hb)))]
    · have hmem' : b0 ∈ l := by
        rcases List.mem_cons.mp hmem with h' | h'
        · exact absurd h'.symm hab
        · exact h'
      rw [h0 a (List.mem_cons_self _ _) hab, ih hnd.2 hmem' h1
        (fun b hb => h0 b (List.mem_cons_of_mem _ hb))]

theorem index_lt_of_cell (s : Int) (hs : 0 < s) (q : Int) (hq : 0 ≤ q) (n : Nat)
    (hn : q < (n : Int) * s) : (q / s).toNat < n := by
  have hq' : 0 ≤ q / s := Int.ediv_nonneg hq (by omega)
  have h : q / s < (n : Int) := (Int.ediv_lt_iff_lt_mul hs).mpr hn
  omega

theorem gridTiles_countP (p : SkPicture) (tw th : Int) (htw : 0 < tw) (hth : 0 < th)
    (rows cols : Nat) (px py : Int) :
    (gridTiles p tw th rows cols).countP (fun t => decide (t.coversPixel px py)) =
      if (0 ≤ px ∧ px < (cols : Int) * tw) ∧ (0 ≤ py ∧ py < (rows : Int) * th) then 1 else 0 := by
  split_ifs with hc
  · obtain ⟨⟨hx0, hx1⟩, hy0, hy1⟩ := hc
    unfold gridTiles
    apply countP_flatMap_eq_one _ _ (py / th).toNat _ (List.nodup_range _)
      (List.mem_range.mpr (index_lt_of_cell th hth py hy0 rows hy1))
    · apply countP_map_eq_one _ _ (px / tw).toNat _ (List.nodup_range _)
        (List.mem_range.mpr (index_lt_of_cell tw htw px hx0 cols hx1))
      intro i _
      simp only [decide_eq_true_eq, mkTile_coversPixel]
      rw [cell_iff tw htw px hx0, cell_iff th hth py hy0]
      simp
    · intro j _ hj
      rw [List.countP_eq_zero]
      intro t ht
      rw [List.mem_map] at ht
      obtain ⟨i, _, rfl⟩ := ht
      simp only [decide_eq_true_eq, mkTile_coversPixel]
      rw [cell_iff tw htw px hx0, cell_iff th hth py hy0]
      exact fun hc => hj hc.2
  · rw [List.countP_eq_zero]
    intro t ht
    unfold gridTiles at ht
    rw [List.mem_flatMap] at ht
    obtain ⟨j, hj, ht⟩ := ht
    rw [List.mem_map] at ht
    obtain ⟨i, hi, rfl⟩ := ht
    rw [List.mem_range] at hi hj
    simp only [decide_eq_true_eq, mkTile_coversPixel]
    rintro ⟨⟨hx0, hx1⟩, hy0, hy1⟩
    apply hc
    have hi0 : 0 ≤ (i : Int) * tw := mul_nonneg (by omega) (by omega)
    have hj0 : 0 ≤ (j : Int) * th := mul_nonneg (by omega) (by omega)
    have hi1 : ((i : Int) + 1) * tw ≤ (cols : Int) * tw :=
      mul_le_mul_of_nonneg_right (by omega) (by omega)
    have hj1 : ((j : Int) + 1) * th ≤ (rows : Int) * th :=
      mul_le_mul_of_nonneg_right (by omega) (by omega)
    have e1 : ((i : Int) + 1) * tw = (i : Int) * tw + tw := by ring
    have e2 : ((j : Int) + 1) * th = (j : Int) * th + th := by ring
    refine ⟨⟨by omega, by omega⟩, by omega, by omega⟩


/-! ## Auxiliary facts: the planner on 32-bit integers -/

theorem wrap32_of_range (x : Int) (h0 : -2147483648 ≤ x) (h1 : x ≤ INT_MAX) : wrap32 x = x := by
  unfold INT_MAX at h1
  unfold wrap32
  omega

theorem setupTilesRow32_eq (p : SkPicture) (y : Int) (n : Nat) :
    ∀ (fuel : Nat) (r : TiledPictureRenderer) (x : Int),
      r.fPicture = some p → n < fuel → 0 ≤ x → 0 ≤ r.fTileWidth →
      x + (n : Int) * r.fTileWidth ≤ INT_MAX →
      p.width ≤ x + (n : Int) * r.fTileWidth →
      (∀ i : Nat, i < n → x + (i : Int) * r.fTileWidth < p.width) →
      setupTilesRow32 fuel r y x = setupTilesRow fuel r y x := by
  induction n with
  | zero =>
    intro fuel r x hp hfuel _ _ _ hreach _
    obtain ⟨f, rfl⟩ : ∃ f, fuel = f + 1 := ⟨fuel - 1, by omega⟩
    have hx : ¬ x < p.width := by simpa using hreach
    simp [setupTilesRow32, setupTilesRow, hp, hx]
  | succ n ih =>
    intro fuel r x hp hfuel hx0 htw hmax hreach hbelow
    obtain ⟨f, rfl⟩ : ∃ f, fuel = f + 1 := ⟨fuel - 1, by omega⟩
    have hx : x < p.width := by simpa using hbelow 0 (by omega)
    have hstep : ∀ i : Nat, ((i + 1 : Nat) : Int) * r.fTileWidth
        = (i : Int) * r.fTileWidth + r.fTileWidth := by
      intro i; push_cast; ring
    have hn : 0 ≤ (n : Int) * r.fTileWidth := mul_nonneg (by omega) htw
    have hs := hstep n
    have hw : wrap32 (x + r.fTileWidth) = x + r.fTileWidth :=
      wrap32_of_range _ (by omega) (by omega)
    simp only [setupTilesRow32, setupTilesRow, hp, hx, if_true, addTile_eq r p hp,
      pushTiles_fTileWidth, hw]
    exact ih f (r.pushTiles [mkTile p x y r.fTileWidth r.fTileHeight])
      (x + r.fTileWidth) hp (by omega) (by omega) (by rw [pushTiles_fTileWidth]; exact htw)
      (by rw [pushTiles_fTileWidth]; omega)
      (by rw [pushTiles_fTileWidth]; omega)
      (by
        intro i hi
        rw [pushTiles_fTileWidth]
        have := hstep i
        have := hbelow (i + 1) (by omega)
        omega)

theorem setupTilesRows32_eq (p : SkPicture) (rowFuel cols : Nat) (hcols : cols < rowFuel)
    (n : Nat) :
    ∀ (fuel : Nat) (r : TiledPictureRenderer) (y : Int),
      r.fPicture = some p → n < fuel → 0 ≤ r.fTileWidth →
      (cols : Int) * r.fTileWidth ≤ INT_MAX →
      p.width ≤ (cols : Int) * r.fTileWidth →
      (∀ i : Nat, i < cols → (i : Int) * r.fTileWidth < p.width) →
      0 ≤ y → 0 ≤ r.fTileHeight →
      y + (n : Int) * r.fTileHeight ≤ INT_MAX →
      p.height ≤ y + (n : Int) * r.fTileHeight →
      (∀ j : Nat, j < n → y + (j : Int) * r.fTileHeight < p.height) →
      setupTilesRows32 rowFuel fuel r y = setupTilesRows rowFuel fuel r y := by
  induction n with
  | zero =>
    intro fuel r y hp hfuel _ _ _ _ _ _ _ hreach _
    obtain ⟨f, rfl⟩ : ∃ f, fuel = f + 1 := ⟨fuel - 1, by omega⟩
    have hy : ¬ y < p.height := by simpa using hreach
    simp [setupTilesRows32, setupTilesRows, hp, hy]
  | succ n ih =>
    intro fuel r y hp hfuel htw hwmax hw1 hw2 hy0 hth hmax hreach hbelow
    obtain ⟨f, rfl⟩ : ∃ f, fuel = f + 1 := ⟨fuel - 1, by omega⟩
    have hy : y < p.height := by simpa using hbelow 0 (by omega)
    have hrow32 := setupTilesRow32_eq p y cols rowFuel r 0 hp hcols (le_refl 0) htw
      (by simpa using hwmax) (by simpa using hw1) (by intro i hi; simpa using hw2 i hi)
    have hrow := setupTilesRow_eq p y cols rowFuel r 0 hp hcols (by simpa using hw1)
      (by intro i hi; simpa using hw2 i hi)
    have hstep : ∀ j : Nat, ((j + 1 : Nat) : Int) * r.fTileHeight
        = (j : Int) * r.fTileHeight + r.fTileHeight := by
      intro j; push_cast; ring
    have hn : 0 ≤ (n : Int) * r.fTileHeight := mul_nonneg (by omega) hth
    have hs := hstep n
    have hw : wrap32 (y + r.fTileHeight) = y + r.fTileHeight :=
      wrap32_of_range _ (by omega) (by omega)
    simp only [setupTilesRows32, setupTilesRows, hp, hy, if_true, hrow32, hrow,
      pushTiles_fTileHeight, hw]
    exact ih f _ (y + r.fTileHeight) hp (by omega)
      (by rw [pushTiles_fTileWidth]; exact htw)
      (by rw [pushTiles_fTileWidth]; exact hwmax)
      (by rw [pushTiles_fTileWidth]; exact hw1)
      (by rw [pushTiles_fTileWidth]; exact hw2)
      (by omega) (by rw [pushTiles_fTileHeight]; exact hth)
      (by rw [pushTiles_fTileHeight]; omega)
      (by rw [pushTiles_fTileHeight]; omega)
      (by
        intro j hj
        rw [pushTiles_fTileHeight]
        have := hstep j
        have := hbelow (j + 1) (by omega)
        omega)

theorem setupTiles32_eq (r : TiledPictureRenderer) (p : SkPicture) (hp : r.fPicture = some p)
    (hW : 0 < p.width) (hH : 0 < p.height) (htw : 0 < r.fTileWidth) (hth : 0 < r.fTileHeight)
    (hrW : counterInRange r.fTileWidth p.width) (hrH : counterInRange r.fTileHeight p.height)
    (fuel : Nat) (hfW : numSteps r.fTileWidth p.width < fuel)
    (hfH : numSteps r.fTileHeight p.height < fuel) :
    setupTiles32 fuel r = some (r.pushTiles (gridTiles p r.fTileWidth r.fTileHeight
      (numSteps r.fTileHeight p.height) (numSteps r.fTileWidth p.width))) := by
  have h := setupTilesRows32_eq p fuel (numSteps r.fTileWidth p.width) hfW
    (numSteps r.fTileHeight p.height) fuel r 0 hp hfH (le_of_lt htw) hrW
    (numSteps_reach _ _ htw hW) (numSteps_below _ _ htw hW) (le_refl 0) (le_of_lt hth)
    (by simpa using hrH)
    (by simpa using numSteps_reach _ _ hth hH)
    (by intro j hj; simpa using numSteps_below _ _ hth hH j hj)
  unfold setupTiles32
  rw [h]
  exact setupTiles_eq r p hp hW hH htw hth fuel hfW hfH

theorem setupTilesRow32_overflow :
    ∀ (fuel : Nat) (r : TiledPictureRenderer) (y x : Int),
      r.fPicture = some ⟨2147483647, 1⟩ → r.fTileWidth = 1073741824 →
      (x = 0 ∨ x = 1073741824 ∨ x = -2147483648 ∨ x = -1073741824) →
      setupTilesRow32 fuel r y x = none := by
  intro fuel
  induction fuel with
  | zero => intro r y x _ _ _; rfl
  | succ f ih =>
    intro r y x hp htw hx
    have hlt : x < (SkPicture.mk 2147483647 1).width := by
      show x < 2147483647
      omega
    simp only [setupTilesRow32, hp, hlt, if_true, addTile_eq r _ hp, pushTiles_fTileWidth]
    refine ih _ _ _ hp htw ?_
    rw [htw]
    unfold wrap32
    omega

theorem setupTiles32_overflow (fuel : Nat) :
    setupTiles32 fuel (planningState 2147483647 1 1073741824 1 0) = none := by
  cases fuel with
  | zero => rfl
  | succ f =>
    have hrow := setupTilesRow32_overflow (f + 1) (planningState 2147483647 1 1073741824 1 0)
      0 0 rfl rfl (Or.inl rfl)
    have hp : (planningState 2147483647 1 1073741824 1 0).fPicture = some ⟨2147483647, 1⟩ := rfl
    have hy : (0 : Int) < (SkPicture.mk 2147483647 1).height := by decide
    simp only [setupTiles32, setupTilesRows32, hp, hy, if_true, hrow]
/-! ## Uniform mode -/

theorem gridTiles_length (p : SkPicture) (tw th : Int) (rows cols : Nat) :
    (gridTiles p tw th rows cols).length = rows * cols := by
  unfold gridTiles
  induction rows with
  | zero => simp
  | succ n ih =>
    rw [List.range_succ, List.flatMap_append, List.length_append, ih]
    simp [Nat.succ_mul]

theorem numSteps_eq_ceil (step bound : Int) (hs : 0 < step) (hb : 0 < bound) :
    (numSteps step bound : Int) = ⌈(bound : ℚ) / (step : ℚ)⌉ := by
  symm
  rw [Int.ceil_eq_iff]
  have hsq : (0 : ℚ) < (step : ℚ) := by exact_mod_cast hs
  have h1 := numSteps_reach step bound hs hb
  have hpos : 0 < numSteps step bound := by
    by_contra hc
    have : numSteps step bound = 0 := by omega
    rw [this] at h1
    simp at h1
    omega
  have h2 := numSteps_below step bound hs hb (numSteps step bound - 1) (by omega)
  constructor
  · rw [lt_div_iff₀ hsq]
    have : (((numSteps step bound - 1 : Nat) : Int) : ℚ) * (step : ℚ) < (bound : ℚ) := by
      exact_mod_cast h2
    have e : (((numSteps step bound - 1 : Nat) : Int) : ℚ)
        = (((numSteps step bound : Nat) : Int) : ℚ) - 1 := by
      have : ((numSteps step bound - 1 : Nat) : Int) = (numSteps step bound : Int) - 1 := by
        omega
      rw [this]; push_cast; ring
    rw [e] at this
    exact this
  · rw [div_le_iff₀ hsq]
    exact_mod_cast h1

theorem mkTile_drawsPixel (p : SkPicture) (x y w h px py : Int) :
    (mkTile p x y w h).drawsPixel px py ↔
      (mkTile p x y w h).coversPixel px py ∧
        (0 ≤ px ∧ px < p.width) ∧ (0 ≤ py ∧ py < p.height) := by
  simp only [SkCanvas.drawsPixel, mkTile_coversPixel]
  simp only [mkTile, SkCanvas.clipRect, SkCanvas.translate, setupCanvas, SkRect.intersect,
    SkRect.offset, SkRect.MakeWH]
  constructor
  · rintro ⟨⟨⟨h1, h2⟩, h3, h4⟩, ⟨h5, h6⟩, h7, h8⟩
    simp only [max_le_iff, lt_min_iff] at h5 h6 h7 h8
    refine ⟨⟨⟨h1, h2⟩, h3, h4⟩, ⟨by omega, by omega⟩, by omega, by omega⟩
  · rintro ⟨⟨⟨h1, h2⟩, h3, h4⟩, ⟨h5, h6⟩, h7, h8⟩
    simp only [max_le_iff, lt_min_iff]
    refine ⟨⟨⟨h1, h2⟩, h3, h4⟩, ⟨⟨by omega, by omega⟩, by omega, by omega⟩,
      ⟨by omega, by omega⟩, by omega, by omega⟩

theorem mem_gridTiles (p : SkPicture) (tw th : Int) (rows cols : Nat) (t : SkCanvas) :
    t ∈ gridTiles p tw th rows cols ↔
      ∃ j i : Nat, j < rows ∧ i < cols ∧ t = mkTile p ((i : Int) * tw) ((j : Int) * th) tw th := by
  unfold gridTiles
  simp only [List.mem_flatMap, List.mem_map, List.mem_range]
  constructor
  · rintro ⟨j, hj, i, hi, rfl⟩
    exact ⟨j, i, hj, hi, rfl⟩
  · rintro ⟨j, i, hj, hi, rfl⟩
    exact ⟨j, hj, i, hi, rfl⟩

/-- C1, counterexample: the picture of width 2147483647 and height 1 with the tile size
1073741824 by 1 is made of positive 32-bit integers, but the counter of the inner loop
leaves the range of `int`: `0 + 1073741824 + 1073741824` is reduced to `-2147483648`,
the counter comes back to `0` after four additions and stays below the width, so
`setupTiles` does not return whatever the iteration budget is, and no tile list with
every pixel in exactly one rectangle is produced. -/
theorem setupTiles_partitions_overflow :
    (0 : Int) < 2147483647 ∧ (2147483647 : Int) ≤ INT_MAX ∧
    (0 : Int) < 1073741824 ∧ (1073741824 : Int) ≤ INT_MAX ∧
    ¬ counterInRange 1073741824 2147483647 ∧
    wrap32 (1073741824 + 1073741824) = -2147483648 ∧
    ∀ fuel : Nat, setupTiles32 fuel (planningState 2147483647 1 1073741824 1 0) = none :=
  ⟨by decide, by decide, by decide, by decide, by decide, by decide, setupTiles32_overflow⟩

/-- C1, amended: in uniform mode, for every positive picture size and tile size for which
the counters of the two loops stay 32-bit integers (the first multiple of `tw` not below
`W` and the first multiple of `th` not below `H` do not exceed `INT_MAX`), `setupTiles`
returns and every pixel of the picture lies in exactly one of the tile rectangles
`[x, x + tw) x [y, y + th)` it emits (the iteration budget only has to exceed the number
of tiles per row and per column). -/
theorem setupTiles_partitions_picture (r : TiledPictureRenderer) (p : SkPicture)
    (hp : r.fPicture = some p) (hW : 0 < p.width) (hH : 0 < p.height)
    (htw : 0 < r.fTileWidth) (hth : 0 < r.fTileHeight)
    (hrW : counterInRange r.fTileWidth p.width) (hrH : counterInRange r.fTileHeight p.height)
    (fuel : Nat) (hfW : numSteps r.fTileWidth p.width < fuel)
    (hfH : numSteps r.fTileHeight p.height < fuel) :
    ∃ ts, setupTiles32 fuel r = some (r.pushTiles ts) ∧
      ∀ px py : Int, 0 ≤ px → px < p.width → 0 ≤ py → py < p.height →
        ts.countP (fun t => decide (t.coversPixel px py)) = 1 := by
  refine ⟨_, setupTiles32_eq r p hp hW hH htw hth hrW hrH fuel hfW hfH, ?_⟩
  intro px py hx0 hx1 hy0 hy1
  rw [gridTiles_countP p _ _ htw hth, if_pos]
  have h1 := numSteps_reach r.fTileWidth p.width htw hW
  have h2 := numSteps_reach r.fTileHeight p.height hth hH
  exact ⟨⟨hx0, by omega⟩, hy0, by omega⟩

theorem setupTiles_partitions_picture_witness :
    ∃ ts, setupTiles32 4 (planningState 600 500 256 256 0)
        = some ((planningState 600 500 256 256 0).pushTiles ts) ∧
      ∀ px py : Int, 0 ≤ px → px < 600 → 0 ≤ py → py < 500 →
        ts.countP (fun t => decide (t.coversPixel px py)) = 1 :=
  setupTiles_partitions_picture (planningState 600 500 256 256 0) ⟨600, 500⟩ rfl
    (by decide) (by decide) (by decide) (by decide) (by decide) (by decide) 4 (by decide)
    (by decide)

/-- C2, counterexample: for the picture of width 2147483647 and height 1 with the tile
size 1073741824 by 1 the claimed number of tiles is `2 * 1`, but the counter of the inner
loop leaves the range of `int` and `setupTiles` does not return: no iteration budget
yields a tile list, of that length or of any other. -/
theorem setupTiles_tile_count_overflow :
    ⌈((2147483647 : Int) : ℚ) / ((1073741824 : Int) : ℚ)⌉ *
      ⌈((1 : Int) : ℚ) / ((1 : Int) : ℚ)⌉ = 2 ∧
    ¬ ∃ (fuel : Nat) (ts : List SkCanvas),
      setupTiles32 fuel (planningState 2147483647 1 1073741824 1 0) =
        some ((planningState 2147483647 1 1073741824 1 0).pushTiles ts) ∧
      (ts.length : Int) = ⌈((2147483647 : Int) : ℚ) / ((1073741824 : Int) : ℚ)⌉ *
        ⌈((1 : Int) : ℚ) / ((1 : Int) : ℚ)⌉ := by
  constructor
  · have h1 : ⌈((2147483647 : Int) : ℚ) / ((1073741824 : Int) : ℚ)⌉ = 2 := by
      rw [Int.ceil_eq_iff]
      norm_num
    have h2 : ⌈((1 : Int) : ℚ) / ((1 : Int) : ℚ)⌉ = 1 := by
      rw [Int.ceil_eq_iff]
      norm_num
    rw [h1, h2]
    rfl
  · rintro ⟨fuel, ts, h, _⟩
    rw [setupTiles32_overflow fuel] at h
    exact Option.noConfusion h

/-- C2, amended: in uniform mode, for every positive picture size and tile size for which
the counters of the two loops stay 32-bit integers, `setupTiles` returns and emits
exactly `ceil(W / tw) * ceil(H / th)` tiles. -/
theorem setupTiles_tile_count (r : TiledPictureRenderer) (p : SkPicture)
    (hp : r.fPicture = some p) (hW : 0 < p.width) (hH : 0 < p.height)
    (htw : 0 < r.fTileWidth) (hth : 0 < r.fTileHeight)
    (hrW : counterInRange r.fTileWidth p.width) (hrH : counterInRange r.fTileHeight p.height)
    (fuel : Nat) (hfW : numSteps r.fTileWidth p.width < fuel)
    (hfH : numSteps r.fTileHeight p.height < fuel) :
    ∃ ts, setupTiles32 fuel r = some (r.pushTiles ts) ∧
      (ts.length : Int) = ⌈(p.width : ℚ) / (r.fTileWidth : ℚ)⌉ *
        ⌈(p.height : ℚ) / (r.fTileHeight : ℚ)⌉ := by
  refine ⟨_, setupTiles32_eq r p hp hW hH htw hth hrW hrH fuel hfW hfH, ?_⟩
  rw [gridTiles_length, ← numSteps_eq_ceil _ _ htw hW, ← numSteps_eq_ceil _ _ hth hH]
  push_cast
  ring

theorem setupTiles_tile_count_witness :
    ∃ ts, setupTiles32 4 (planningState 600 500 256 256 0)
        = some ((planningState 600 500 256 256 0).pushTiles ts) ∧
      (ts.length : Int) = ⌈((600 : Int) : ℚ) / ((256 : Int) : ℚ)⌉ *
        ⌈((500 : Int) : ℚ) / ((256 : Int) : ℚ)⌉ :=
  setupTiles_tile_count (planningState 600 500 256 256 0) ⟨600, 500⟩ rfl
    (by decide) (by decide) (by decide) (by decide) (by decide) (by decide) 4 (by decide)
    (by decide)

/-- C3, counterexample: for the picture 600 x 500 with tile size 256 x 256 the tile at
offset `(512, 0)` is 256 wide, so its rectangle contains the point `(700, 0)`, which is
outside the picture rectangle `[0, 600) x [0, 500)`, with the counters as integers and as
32-bit integers alike.  And for the picture of width 2147483647 and height 1 with the
tile size 1073741824 by 1 the counter of the inner loop leaves the range of `int` and
`setupTiles` does not return, whatever the iteration budget is. -/
theorem setupTiles_rect_leaves_picture :
    (∃ r', setupTiles 4 (planningState 600 500 256 256 0) = some r' ∧
      ∃ t ∈ r'.fTiles, t.rect = ⟨512, 0, 256, 256⟩ ∧ t.coversPixel 700 0 ∧
        ¬ ((700 : Int) < (SkPicture.mk 600 500).width)) ∧
    (∃ r', setupTiles32 4 (planningState 600 500 256 256 0) = some r' ∧
      ∃ t ∈ r'.fTiles, t.rect = ⟨512, 0, 256, 256⟩ ∧ t.coversPixel 700 0 ∧
        ¬ ((700 : Int) < (SkPicture.mk 600 500).width)) ∧
    ¬ counterInRange 1073741824 2147483647 ∧
    ∀ fuel : Nat, (setupTiles32 fuel (planningState 2147483647 1 1073741824 1 0)).isSome =
      false :=
  ⟨⟨_, rfl, by decide⟩, ⟨_, rfl, by decide⟩, by decide,
    fun fuel => by rw [setupTiles32_overflow fuel]; rfl⟩

/-- C3, amended: in uniform mode, for every positive picture size and tile size for which
the counters of the two loops stay 32-bit integers, `setupTiles` returns, its tile
rectangles, each clipped to the picture rectangle as `clipTile` does, have exactly the
rectangle `[0, W) x [0, H)` as their union, and no two tile rectangles overlap (no point
of the plane lies in more than one of them); the unclipped rectangles keep the full size
`tw x th`. -/
theorem setupTiles_clipped_union (r : TiledPictureRenderer) (p : SkPicture)
    (hp : r.fPicture = some p) (hW : 0 < p.width) (hH : 0 < p.height)
    (htw : 0 < r.fTileWidth) (hth : 0 < r.fTileHeight)
    (hrW : counterInRange r.fTileWidth p.width) (hrH : counterInRange r.fTileHeight p.height)
    (fuel : Nat) (hfW : numSteps r.fTileWidth p.width < fuel)
    (hfH : numSteps r.fTileHeight p.height < fuel) :
    ∃ ts, setupTiles32 fuel r = some (r.pushTiles ts) ∧
      (∀ px py : Int, (∃ t ∈ ts, t.drawsPixel px py) ↔
        (0 ≤ px ∧ px < p.width) ∧ (0 ≤ py ∧ py < p.height)) ∧
      (∀ px py : Int, ts.countP (fun t => decide (t.coversPixel px py)) ≤ 1) ∧
      (∀ t ∈ ts, t.width = r.fTileWidth ∧ t.height = r.fTileHeight) := by
  refine ⟨_, setupTiles32_eq r p hp hW hH htw hth hrW hrH fuel hfW hfH, ?_, ?_, ?_⟩
  · intro px py
    constructor
    · rintro ⟨t, ht, hd⟩
      rw [mem_gridTiles] at ht
      obtain ⟨j, i, _, _, rfl⟩ := ht
      exact ((mkTile_drawsPixel _ _ _ _ _ _ _).mp hd).2
    · rintro ⟨⟨hx0, hx1⟩, hy0, hy1⟩
      have h1 := numSteps_reach r.fTileWidth p.width htw hW
      have h2 := numSteps_reach r.fTileHeight p.height hth hH
      have hc := gridTiles_countP p _ _ htw hth (numSteps r.fTileHeight p.height)
        (numSteps r.fTileWidth p.width) px py
      rw [if_pos ⟨⟨hx0, by omega⟩, hy0, by omega⟩] at hc
      have hpos : 0 < List.countP (fun t => decide (t.coversPixel px py))
          (gridTiles p r.fTileWidth r.fTileHeight (numSteps r.fTileHeight p.height)
            (numSteps r.fTileWidth p.width)) := by omega
      rw [List.countP_pos_iff] at hpos
      obtain ⟨t, ht, hcov⟩ := hpos
      refine ⟨t, ht, ?_⟩
      have ht' := ht
      rw [mem_gridTiles] at ht'
      obtain ⟨j, i, _, _, rfl⟩ := ht'
      rw [mkTile_drawsPixel]
      exact ⟨by simpa using hcov, ⟨hx0, hx1⟩, hy0, hy1⟩
  · intro px py
    rw [gridTiles_countP p _ _ htw hth]
    split_ifs <;> omega
  · intro t ht
    rw [mem_gridTiles] at ht
    obtain ⟨j, i, _, _, rfl⟩ := ht
    simp [mkTile, SkCanvas.clipRect, SkCanvas.translate, setupCanvas]

theorem setupTiles_clipped_union_witness :
    ∃ ts, setupTiles32 4 (planningState 600 500 256 256 0)
        = some ((planningState 600 500 256 256 0).pushTiles ts) ∧
      (∀ px py : Int, (∃ t ∈ ts, t.drawsPixel px py) ↔
        (0 ≤ px ∧ px < 600) ∧ (0 ≤ py ∧ py < 500)) ∧
      (∀ px py : Int, ts.countP (fun t => decide (t.coversPixel px py)) ≤ 1) ∧
      (∀ t ∈ ts, t.width = 256 ∧ t.height = 256) :=
  setupTiles_clipped_union (planningState 600 500 256 256 0) ⟨600, 500⟩ rfl
    (by decide) (by decide) (by decide) (by decide) (by decide) (by decide) 4 (by decide)
    (by decide)

theorem gridTiles_rect (p : SkPicture) (tw th : Int) (rows cols : Nat) :
    (gridTiles p tw th rows cols).map SkCanvas.rect =
      (List.range rows).flatMap fun (j : Nat) =>
        (List.range cols).map fun (i : Nat) => ⟨(i : Int) * tw, (j : Int) * th, tw, th⟩ := by
  unfold gridTiles
  rw [List.map_flatMap]
  apply List.flatMap_congr
  intro j _
  rw [List.map_map]
  apply List.map_congr_left
  intro i _
  simp [mkTile_rect]

/-- C4, counterexample: for the picture of width 2147483647 and height 1 with the tile
size 1073741824 by 1 the row-major reference list has the two tiles `(0, 0)` and
`(1073741824, 0)`, but the counter of the inner loop leaves the range of `int` after the
second tile and `setupTiles` does not return: no iteration budget yields a tile list. -/
theorem setupTiles_row_major_overflow :
    rowMajorReference 2147483647 1 1073741824 1 =
      [⟨0, 0, 1073741824, 1⟩, ⟨1073741824, 0, 1073741824, 1⟩] ∧
    ¬ ∃ (fuel : Nat) (ts : List SkCanvas),
      setupTiles32 fuel (planningState 2147483647 1 1073741824 1 0) =
        some ((planningState 2147483647 1 1073741824 1 0).pushTiles ts) ∧
      ts.map SkCanvas.rect = rowMajorReference 2147483647 1 1073741824 1 := by
  constructor
  · rw [rowMajorReference, stepsBelow_eq _ _ (by decide) (by decide),
      stepsBelow_eq _ _ (by decide) (by decide)]
    decide
  · rintro ⟨fuel, ts, h, _⟩
    rw [setupTiles32_overflow fuel] at h
    exact Option.noConfusion h

/-- C4, amended: in uniform mode, for every positive picture size and tile size for which
the counters of the two loops stay 32-bit integers, `setupTiles` returns and its ordered
tile list is the row-major reference list: for `j = 0, 1, ...` while `j * th < H`, and
within each `j` for `i = 0, 1, ...` while `i * tw < W`, the tile `(i * tw, j * th, tw,
th)`; every tile has the full size `tw x th`. -/
theorem setupTiles_row_major (r : TiledPictureRenderer) (p : SkPicture)
    (hp : r.fPicture = some p) (hW : 0 < p.width) (hH : 0 < p.height)
    (htw : 0 < r.fTileWidth) (hth : 0 < r.fTileHeight)
    (hrW : counterInRange r.fTileWidth p.width) (hrH : counterInRange r.fTileHeight p.height)
    (fuel : Nat) (hfW : numSteps r.fTileWidth p.width < fuel)
    (hfH : numSteps r.fTileHeight p.height < fuel) :
    ∃ ts, setupTiles32 fuel r = some (r.pushTiles ts) ∧
      ts.map SkCanvas.rect = rowMajorReference p.width p.height r.fTileWidth r.fTileHeight := by
  refine ⟨_, setupTiles32_eq r p hp hW hH htw hth hrW hrH fuel hfW hfH, ?_⟩
  rw [gridTiles_rect, rowMajorReference, stepsBelow_eq _ _ htw hW, stepsBelow_eq _ _ hth hH]

theorem setupTiles_row_major_witness :
    ∃ ts, setupTiles32 4 (planningState 600 500 256 256 0)
        = some ((planningState 600 500 256 256 0).pushTiles ts) ∧
      ts.map SkCanvas.rect = rowMajorReference 600 500 256 256 :=
  setupTiles_row_major (planningState 600 500 256 256 0) ⟨600, 500⟩ rfl
    (by decide) (by decide) (by decide) (by decide) (by decide) (by decide) 4 (by decide)
    (by decide)

/-- C5, counterexample: for the picture 600 x 500 with tile size 256 x 256 the six tiles
all have the size 256 x 256; the tiles at x offset 512 are not 88 wide and the tiles at
y offset 256 are not 244 high. -/
theorem setupTiles_600_500_sizes :
    (setupTiles 4 (planningState 600 500 256 256 0)).map
        (fun r' => r'.fTiles.map SkCanvas.rect) =
      some [⟨0, 0, 256, 256⟩, ⟨256, 0, 256, 256⟩, ⟨512, 0, 256, 256⟩,
        ⟨0, 256, 256, 256⟩, ⟨256, 256, 256, 256⟩, ⟨512, 256, 256, 256⟩] ∧
    (setupTiles 4 (planningState 600 500 256 256 0)).map
        (fun r' => r'.fTiles.map SkCanvas.rect) ≠
      some [⟨0, 0, 256, 256⟩, ⟨256, 0, 256, 256⟩, ⟨512, 0, 88, 256⟩,
        ⟨0, 256, 256, 244⟩, ⟨256, 256, 256, 244⟩, ⟨512, 256, 88, 244⟩] := by
  decide

/-- C5, amended: for the picture 600 x 500 with tile size 256 x 256 `setupTiles` yields
exactly 6 tiles, at the x offsets 0, 256, 512 and the y offsets 0, 256, each of the full
size 256 x 256; the widths 256, 256, 88 and the heights 256, 244 are those of the parts of
the tiles that remain drawable after the clip to the picture rectangle. -/
theorem setupTiles_600_500 (fuel : Nat) (hfuel : 4 ≤ fuel) :
    ∃ ts, setupTiles fuel (planningState 600 500 256 256 0)
        = some ((planningState 600 500 256 256 0).pushTiles ts) ∧
      ts.map SkCanvas.rect =
        [⟨0, 0, 256, 256⟩, ⟨256, 0, 256, 256⟩, ⟨512, 0, 256, 256⟩,
          ⟨0, 256, 256, 256⟩, ⟨256, 256, 256, 256⟩, ⟨512, 256, 256, 256⟩] ∧
      ts.map SkCanvas.drawableRect =
        [⟨0, 0, 256, 256⟩, ⟨256, 0, 256, 256⟩, ⟨512, 0, 88, 256⟩,
          ⟨0, 256, 256, 244⟩, ⟨256, 256, 256, 244⟩, ⟨512, 256, 88, 244⟩] := by
  have h3 : numSteps (256 : Int) 600 = 3 := by decide
  have h2 : numSteps (256 : Int) 500 = 2 := by decide
  refine ⟨_, setupTiles_eq (planningState 600 500 256 256 0) ⟨600, 500⟩ rfl
    (by decide) (by decide) (by decide) (by decide) fuel ?_ ?_, ?_, ?_⟩
  · show numSteps (256 : Int) 600 < fuel
    omega
  · show numSteps (256 : Int) 500 < fuel
    omega
  · decide
  · decide

theorem setupTiles_600_500_witness :
    ∃ ts, setupTiles 4 (planningState 600 500 256 256 0)
        = some ((planningState 600 500 256 256 0).pushTiles ts) ∧
      ts.map SkCanvas.rect =
        [⟨0, 0, 256, 256⟩, ⟨256, 0, 256, 256⟩, ⟨512, 0, 256, 256⟩,
          ⟨0, 256, 256, 256⟩, ⟨256, 256, 256, 256⟩, ⟨512, 256, 256, 256⟩] ∧
      ts.map SkCanvas.drawableRect =
        [⟨0, 0, 256, 256⟩, ⟨256, 0, 256, 256⟩, ⟨512, 0, 88, 256⟩,
          ⟨0, 256, 256, 244⟩, ⟨256, 256, 256, 244⟩, ⟨512, 256, 88, 244⟩] :=
  setupTiles_600_500 4 (by decide)

/-! ## Power-of-two mode: the loops -/

theorem int_land_natCast (a b : Nat) : Int.land (a : Int) (b : Int) = ((a &&& b : Nat) : Int) :=
  rfl

theorem int_shiftRight_natCast (a s : Nat) :
    Int.shiftRight (a : Int) s = ((a >>> s : Nat) : Int) := rfl

theorem two_pow_land_ne_zero (i R : Nat) : 2 ^ i &&& R ≠ 0 ↔ R.testBit i = true := by
  rw [Nat.two_pow_and]
  cases h : R.testBit i <;> simp [Nat.pos_pow_of_pos]

theorem setupPowerOf2TilesRow_eq (p : SkPicture) (R j : Nat) (y : Int) (n : Nat) :
    ∀ (fuel : Nat) (r : TiledPictureRenderer) (x : Int) (c : Nat),
      r.fPicture = some p → r.fTileMinPowerOf2Width = ((2 ^ j : Nat) : Int) → n < fuel →
      (n = 0 → c < 2 ^ j) → (∀ n', n = n' + 1 → c = 2 ^ (j + n')) →
      setupPowerOf2TilesRow fuel r (R : Int) y x (c : Int) =
        some (r.pushTiles (layRow p y r.fTileHeight x (bitWidths R j n))) := by
  induction n with
  | zero =>
    intro fuel r x c hp hm hfuel hc _
    obtain ⟨f, rfl⟩ : ∃ f, fuel = f + 1 := ⟨fuel - 1, by omega⟩
    have hlt : ¬ ((c : Int) ≥ ((2 ^ j : Nat) : Int)) := by
      have := hc rfl
      omega
    unfold setupPowerOf2TilesRow
    rw [if_neg (by rw [hm]; exact hlt)]
    simp [bitWidths, layRow, pushTiles_nil]
  | succ n ih =>
    intro fuel r x c hp hm hfuel _ hc
    obtain ⟨f, rfl⟩ : ∃ f, fuel = f + 1 := ⟨fuel - 1, by omega⟩
    have hcv : c = 2 ^ (j + n) := hc n rfl
    have hge : (c : Int) ≥ ((2 ^ j : Nat) : Int) := by
      have : 2 ^ j ≤ 2 ^ (j + n) := Nat.pow_le_pow_right (by decide) (by omega)
      omega
    have hnext0 : n = 0 → c >>> 1 < 2 ^ j := by
      intro hn
      subst hn
      rw [hcv, Nat.shiftRight_eq_div_pow]
      have : 0 < 2 ^ j := Nat.pos_pow_of_pos j (by decide)
      simp only [Nat.add_zero, pow_one]
      omega
    have hnext1 : ∀ n', n = n' + 1 → c >>> 1 = 2 ^ (j + n') := by
      intro n' hn
      subst hn
      rw [hcv, Nat.shiftRight_eq_div_pow]
      have : 2 ^ (j + (n' + 1)) = 2 ^ (j + n') * 2 := by
        rw [← Nat.add_assoc, Nat.pow_succ]
      rw [this]
      simp
    by_cases hb : R.testBit (j + n) = true
    · have hl : Int.land (c : Int) (R : Int) ≠ 0 := by
        rw [int_land_natCast, hcv]
        exact_mod_cast (two_pow_land_ne_zero (j + n) R).mpr hb
      have key := ih f (r.pushTiles [mkTile p x y (c : Int) r.fTileHeight])
        (x + (c : Int)) (c >>> 1) hp hm (by omega) hnext0 hnext1
      unfold setupPowerOf2TilesRow
      rw [if_pos (by rw [hm]; exact hge), if_pos hl, addTile_eq r p hp]
      simp only []
      rw [int_shiftRight_natCast, key, pushTiles_pushTiles, pushTiles_fTileHeight]
      simp [bitWidths, hb, layRow, hcv]
    · have hl : ¬ (Int.land (c : Int) (R : Int) ≠ 0) := by
        rw [int_land_natCast, hcv]
        intro hne
        exact hb ((two_pow_land_ne_zero (j + n) R).mp (by exact_mod_cast hne))
      have key := ih f r x (c >>> 1) hp hm (by omega) hnext0 hnext1
      unfold setupPowerOf2TilesRow
      rw [if_pos (by rw [hm]; exact hge), if_neg hl, int_shiftRight_natCast, key]
      simp [bitWidths, hb]

theorem setupPowerOf2TilesRows_eq (p : SkPicture) (R j rowFuel c0 nb : Nat)
    (hnb : nb < rowFuel) (h0 : nb = 0 → c0 < 2 ^ j) (h1 : ∀ n', nb = n' + 1 → c0 = 2 ^ (j + n'))
    (n : Nat) :
    ∀ (fuel : Nat) (r : TiledPictureRenderer) (y : Int),
      r.fPicture = some p → r.fTileMinPowerOf2Width = ((2 ^ j : Nat) : Int) → n < fuel →
      p.height ≤ y + (n : Int) * r.fTileHeight →
      (∀ i : Nat, i < n → y + (i : Int) * r.fTileHeight < p.height) →
      setupPowerOf2TilesRows rowFuel (R : Int) (c0 : Int) fuel r y = some (r.pushTiles
        ((List.range n).flatMap fun (i : Nat) =>
          layRow p (y + (i : Int) * r.fTileHeight) r.fTileHeight 0 (bitWidths R j nb))) := by
  induction n with
  | zero =>
    intro fuel r y hp _ hfuel hreach _
    obtain ⟨f, rfl⟩ : ∃ f, fuel = f + 1 := ⟨fuel - 1, by omega⟩
    have hy : ¬ y < p.height := by simpa using hreach
    simp [setupPowerOf2TilesRows, hp, hy, pushTiles_nil]
  | succ n ih =>
    intro fuel r y hp hm hfuel hreach hbelow
    obtain ⟨f, rfl⟩ : ∃ f, fuel = f + 1 := ⟨fuel - 1, by omega⟩
    have hy : y < p.height := by simpa using hbelow 0 (by omega)
    have hrow := setupPowerOf2TilesRow_eq p R j y nb rowFuel r 0 c0 hp hm hnb h0 h1
    simp only [setupPowerOf2TilesRows, hp, hy, if_true, hrow, pushTiles_fTileHeight]
    have hstep : ∀ i : Nat, ((i + 1 : Nat) : Int) * r.fTileHeight
        = (i : Int) * r.fTileHeight + r.fTileHeight := by
      intro i; push_cast; ring
    have key := ih f (r.pushTiles (layRow p y r.fTileHeight 0 (bitWidths R j nb)))
      (y + r.fTileHeight) hp hm (by omega)
      (by rw [pushTiles_fTileHeight]; have := hstep n; omega)
      (by
        intro i hi
        rw [pushTiles_fTileHeight]
        have := hstep i
        have := hbelow (i + 1) (by omega)
        omega)
    rw [key, pushTiles_pushTiles, pushTiles_fTileHeight]
    congr 2
    simp only [List.range_succ_eq_map, List.flatMap_cons, List.flatMap_map]
    congr 1
    · simp
    · apply List.flatMap_congr
      intro i _
      simp only [Nat.succ_eq_add_one]
      congr 1
      rw [hstep i]; ring

theorem roundedValue_pos (W m : Int) (hW : 0 < W) (hm : 0 < m) :
    roundedValue W m = if W % m ≠ 0 then W - W % m + m else W := by
  unfold roundedValue
  rw [Int.tmod_eq_emod (by omega) (by omega)]

theorem roundedValue_nonneg (W m : Int) (hW : 0 < W) (hm : 0 < m) : 0 < roundedValue W m := by
  rw [roundedValue_pos W m hW hm]
  have h1 := Int.emod_nonneg W (by omega : m ≠ 0)
  have h2 := Int.emod_lt_of_pos W hm
  split_ifs <;> omega

theorem setupPowerOf2Tiles_eq (r : TiledPictureRenderer) (p : SkPicture)
    (hp : r.fPicture = some p) (hW : 0 < p.width) (hH : 0 < p.height)
    (hth : 0 < r.fTileHeight) (j : Nat) (hm : r.fTileMinPowerOf2Width = 2 ^ j)
    (fuel : Nat) (hfW : ceilLog2 p.width + 1 - j < fuel)
    (hfH : numSteps r.fTileHeight p.height < fuel) :
    setupPowerOf2Tiles fuel r = some (r.pushTiles (pow2Tiles p r.fTileHeight
      (numSteps r.fTileHeight p.height)
      (bitWidths (roundedValue p.width r.fTileMinPowerOf2Width).toNat j
        (ceilLog2 p.width + 1 - j)))) := by
  have hm' : r.fTileMinPowerOf2Width = ((2 ^ j : Nat) : Int) := by rw [hm]; push_cast; rfl
  have hmpos : 0 < r.fTileMinPowerOf2Width := by rw [hm]; positivity
  have hR : ((roundedValue p.width r.fTileMinPowerOf2Width).toNat : Int)
      = roundedValue p.width r.fTileMinPowerOf2Width :=
    Int.toNat_of_nonneg (le_of_lt (roundedValue_nonneg _ _ hW hmpos))
  have hL : ((2 : Int) ^ ceilLog2 p.width) = ((2 ^ ceilLog2 p.width : Nat) : Int) := by
    push_cast; rfl
  have h := setupPowerOf2TilesRows_eq p (roundedValue p.width r.fTileMinPowerOf2Width).toNat
    j fuel (2 ^ ceilLog2 p.width) (ceilLog2 p.width + 1 - j) hfW
    (by
      intro h
      exact Nat.pow_lt_pow_right (by decide) (by omega))
    (by
      intro n' h
      have : ceilLog2 p.width = j + n' := by omega
      rw [this])
    (numSteps r.fTileHeight p.height) fuel r 0 hp hm' hfH
    (by simpa using numSteps_reach _ _ hth hH)
    (by intro i hi; simpa using numSteps_below _ _ hth hH i hi)
  rw [hR, ← hL] at h
  unfold setupPowerOf2Tiles
  simp only [hp]
  rw [if_neg (by omega), h]
  simp [pow2Tiles]

theorem setupPowerOf2TilesRows_skip (R c0 : Int) (rowFuel : Nat) (hrf : 0 < rowFuel)
    (p : SkPicture) (n : Nat) :
    ∀ (fuel : Nat) (r : TiledPictureRenderer) (y : Int),
      r.fPicture = some p → c0 < r.fTileMinPowerOf2Width → n < fuel →
      p.height ≤ y + (n : Int) * r.fTileHeight →
      (∀ i : Nat, i < n → y + (i : Int) * r.fTileHeight < p.height) →
      setupPowerOf2TilesRows rowFuel R c0 fuel r y = some r := by
  induction n with
  | zero =>
    intro fuel r y hp _ hfuel hreach _
    obtain ⟨f, rfl⟩ : ∃ f, fuel = f + 1 := ⟨fuel - 1, by omega⟩
    have hy : ¬ y < p.height := by simpa using hreach
    simp [setupPowerOf2TilesRows, hp, hy]
  | succ n ih =>
    intro fuel r y hp hc hfuel hreach hbelow
    obtain ⟨f, rfl⟩ : ∃ f, fuel = f + 1 := ⟨fuel - 1, by omega⟩
    obtain ⟨g, rfl⟩ : ∃ g, rowFuel = g + 1 := ⟨rowFuel - 1, by omega⟩
    have hy : y < p.height := by simpa using hbelow 0 (by omega)
    have hrow : setupPowerOf2TilesRow (g + 1) r R y 0 c0 = some r := by
      unfold setupPowerOf2TilesRow
      rw [if_neg (by omega)]
    have hstep : ∀ i : Nat, ((i + 1 : Nat) : Int) * r.fTileHeight
        = (i : Int) * r.fTileHeight + r.fTileHeight := by
      intro i; push_cast; ring
    simp only [setupPowerOf2TilesRows, hp, hy, if_true, hrow]
    exact ih f r (y + r.fTileHeight) hp hc (by omega)
      (by have := hstep n; omega)
      (by
        intro i hi
        have := hstep i
        have := hbelow (i + 1) (by omega)
        omega)

/-- When the largest candidate width `2 ^ ceil(log2(W))` is below the minimum width,
the `while` loop of `setupPowerOf2Tiles` is never entered and no tile is added. -/
theorem setupPowerOf2Tiles_no_tile (r : TiledPictureRenderer) (p : SkPicture)
    (hp : r.fPicture = some p) (hH : 0 < p.height) (hth : 0 < r.fTileHeight)
    (hm : (2 : Int) ^ ceilLog2 p.width < r.fTileMinPowerOf2Width)
    (fuel : Nat) (hfH : numSteps r.fTileHeight p.height < fuel) :
    setupPowerOf2Tiles fuel r = some r := by
  have hmpos : r.fTileMinPowerOf2Width ≠ 0 := by
    have : (0 : Int) < 2 ^ ceilLog2 p.width := by positivity
    omega
  unfold setupPowerOf2Tiles
  simp only [hp]
  rw [if_neg hmpos]
  exact setupPowerOf2TilesRows_skip _ _ fuel (by omega) p (numSteps r.fTileHeight p.height)
    fuel r 0 hp hm hfH
    (by simpa using numSteps_reach _ _ hth hH)
    (by intro i hi; simpa using numSteps_below _ _ hth hH i hi)

/-! ## Power-of-two mode: widths and the 300 / 64 example -/

theorem mem_bitWidths (R j : Nat) : ∀ (n w : Nat), w ∈ bitWidths R j n ↔
    ∃ i, j ≤ i ∧ i < j + n ∧ R.testBit i = true ∧ w = 2 ^ i := by
  intro n
  induction n with
  | zero =>
    intro w
    simp only [bitWidths, List.not_mem_nil, false_iff]
    rintro ⟨i, h1, h2, _, _⟩
    omega
  | succ n ih =>
    intro w
    simp only [bitWidths, List.mem_append, ih]
    constructor
    · rintro (h | ⟨i, h1, h2, h3, h4⟩)
      · by_cases hb : R.testBit (j + n) = true
        · rw [if_pos hb, List.mem_singleton] at h
          exact ⟨j + n, by omega, by omega, hb, h⟩
        · rw [if_neg hb] at h
          simp at h
      · exact ⟨i, h1, by omega, h3, h4⟩
    · rintro ⟨i, h1, h2, h3, h4⟩
      by_cases hi : i = j + n
      · left
        subst hi
        rw [if_pos h3, List.mem_singleton]
        exact h4
      · right
        exact ⟨i, h1, by omega, h3, h4⟩

theorem mem_layRow_width (p : SkPicture) (y h : Int) : ∀ (ws : List Nat) (x : Int) (t : SkCanvas),
    t ∈ layRow p y h x ws → ∃ w ∈ ws, t.width = (w : Int) := by
  intro ws
  induction ws with
  | nil => intro x t ht; simp [layRow] at ht
  | cons w ws ih =>
    intro x t ht
    simp only [layRow, List.mem_cons] at ht
    rcases ht with rfl | ht
    · exact ⟨w, List.mem_cons_self _ _, by
        simp [mkTile, SkCanvas.clipRect, SkCanvas.translate, setupCanvas]⟩
    · obtain ⟨w', hw', e⟩ := ih _ t ht
      exact ⟨w', List.mem_cons_of_mem _ hw', e⟩

theorem ceilLog2_eq (w : Int) (k : Nat) (h1 : 2 ^ k < w.toNat) (h2 : w.toNat ≤ 2 ^ (k + 1)) :
    ceilLog2 w = k + 1 := by
  unfold ceilLog2
  have ha : Nat.clog 2 w.toNat ≤ k + 1 := (Nat.le_pow_iff_clog_le (by decide)).mp h2
  have hb : k < Nat.clog 2 w.toNat := (Nat.pow_lt_iff_lt_clog (by decide)).mp h1
  omega

theorem ceilLog2_300 : ceilLog2 300 = 9 := ceilLog2_eq 300 8 (by decide) (by decide)

theorem ceilLog2_100 : ceilLog2 100 = 7 := ceilLog2_eq 100 6 (by decide) (by decide)

theorem bitWidths_clear_high (R j n : Nat) (h : ∀ i, j + n ≤ i → R.testBit i = false) :
    ∀ d, bitWidths R j (n + d) = bitWidths R j n := by
  intro d
  induction d with
  | zero => rfl
  | succ d ih =>
    rw [← Nat.add_assoc, bitWidths, h (j + (n + d)) (by omega), ih]
    simp

theorem bitWidths_eq_nil (R : Nat) : ∀ n, (∀ i, i < n → R.testBit i = false) →
    bitWidths R 0 n = [] := by
  intro n
  induction n with
  | zero => intro _; rfl
  | succ n ih =>
    intro h
    rw [bitWidths, ih (fun i hi => h i (by omega))]
    simp [h n (by omega)]

theorem bitWidths_clear_low (R j : Nat) (h : ∀ i, i < j → R.testBit i = false) :
    ∀ n, bitWidths R 0 (j + n) = bitWidths R j n := by
  intro n
  induction n with
  | zero => simpa [bitWidths] using bitWidths_eq_nil R j h
  | succ n ih =>
    rw [← Nat.add_assoc, bitWidths, bitWidths, ih]
    simp

theorem bitWidths_sum (R : Nat) : ∀ N, (bitWidths R 0 N).sum = R % 2 ^ N := by
  intro N
  induction N with
  | zero => simp [bitWidths, Nat.mod_one]
  | succ N ih =>
    rw [bitWidths, List.sum_append, ih, Nat.mod_pow_succ, Nat.testBit_to_div_mod]
    have h2 : R / 2 ^ N % 2 < 2 := Nat.mod_lt _ (by decide)
    by_cases hb : R / 2 ^ N % 2 = 1
    · simp [hb]; omega
    · have : R / 2 ^ N % 2 = 0 := by omega
      simp [this]

theorem setBitsDescending_sum (R : Nat) : (setBitsDescending R).sum = R := by
  rw [setBitsDescending, bitWidths_sum, Nat.mod_eq_of_lt (Nat.lt_size_self R)]

theorem roundedValue_dvd (W m : Int) (hW : 0 < W) (hm : 0 < m) : m ∣ roundedValue W m := by
  rw [roundedValue_pos W m hW hm]
  split_ifs with h
  · have : W - W % m + m = m * (W / m + 1) := by
      have := Int.emod_add_ediv W m
      linarith
    rw [this]
    exact Dvd.intro _ rfl
  · rw [not_not] at h
    exact Int.dvd_of_emod_eq_zero h

theorem roundedValue_bounds (W m : Int) (hW : 0 < W) (hm : 0 < m) :
    W ≤ roundedValue W m ∧ roundedValue W m < W + m := by
  rw [roundedValue_pos W m hW hm]
  have h1 := Int.emod_nonneg W (by omega : m ≠ 0)
  have h2 := Int.emod_lt_of_pos W hm
  split_ifs with h
  · constructor <;> omega
  · constructor <;> omega

/-- The rounded width is the least multiple of `m` that is at least `W`: every multiple
of `m` that is at least `W` is at least the rounded width. -/
theorem roundedValue_le_of_dvd (W m s : Int) (hW : 0 < W) (hm : 0 < m) (hd : m ∣ s)
    (hs : W ≤ s) : roundedValue W m ≤ s := by
  obtain ⟨a, ha⟩ := roundedValue_dvd W m hW hm
  obtain ⟨b, hb⟩ := hd
  have hlt := (roundedValue_bounds W m hW hm).2
  by_contra hc
  have h1 : m * b < m * a := by rw [← ha, ← hb]; omega
  have h2 : b < a := lt_of_mul_lt_mul_left h1 (by omega)
  have h3 : m * (b + 1) ≤ m * a := mul_le_mul_of_nonneg_left (by omega) (by omega)
  have h4 : m * (b + 1) = m * b + m := by ring
  omega

theorem roundedValue_le_largest (W : Int) (j : Nat) (hW : 0 < W) (hj : j ≤ ceilLog2 W) :
    roundedValue W (2 ^ j) ≤ 2 ^ ceilLog2 W := by
  apply roundedValue_le_of_dvd W (2 ^ j) _ hW (by positivity)
  · exact pow_dvd_pow 2 hj
  · have h := Nat.le_pow_clog (by decide : 1 < 2) W.toNat
    have h' : ((W.toNat : Nat) : Int) ≤ ((2 ^ Nat.clog 2 W.toNat : Nat) : Int) := by
      exact_mod_cast h
    rw [Int.toNat_of_nonneg (by omega)] at h'
    unfold ceilLog2
    push_cast at h'
    exact h'

theorem pow2_row_widths_eq (W : Int) (j : Nat) (hW : 0 < W) (hj : j ≤ ceilLog2 W) :
    bitWidths (roundedValue W (2 ^ j)).toNat j (ceilLog2 W + 1 - j)
      = setBitsDescending (roundedValue W (2 ^ j)).toNat := by
  have hm : (0 : Int) < 2 ^ j := by positivity
  have hR0 := roundedValue_nonneg W (2 ^ j) hW hm
  have hcast : (((roundedValue W (2 ^ j)).toNat : Nat) : Int) = roundedValue W (2 ^ j) :=
    Int.toNat_of_nonneg (by omega)
  generalize hRn : (roundedValue W (2 ^ j)).toNat = Rn at hcast
  have hle : Rn ≤ 2 ^ ceilLog2 W := by
    have := roundedValue_le_largest W j hW hj
    rw [← hcast] at this
    exact_mod_cast this
  have hdvd : 2 ^ j ∣ Rn := by
    have := roundedValue_dvd W (2 ^ j) hW hm
    rw [← hcast] at this
    exact_mod_cast this
  have hlow : ∀ i, i < j → Rn.testBit i = false := by
    intro i hi
    obtain ⟨q, rfl⟩ := hdvd
    rw [Nat.testBit_mul_pow_two]
    simp [hi]
  have hsize : Nat.size Rn ≤ ceilLog2 W + 1 := by
    rw [Nat.size_le]
    calc Rn ≤ 2 ^ ceilLog2 W := hle
      _ < 2 ^ (ceilLog2 W + 1) := Nat.pow_lt_pow_right (by decide) (by omega)
  have hhigh : ∀ i, 0 + Nat.size Rn ≤ i → Rn.testBit i = false := by
    intro i hi
    apply Nat.testBit_lt_two_pow
    calc Rn < 2 ^ Nat.size Rn := Nat.lt_size_self Rn
      _ ≤ 2 ^ i := Nat.pow_le_pow_right (by decide) (by omega)
  rw [← bitWidths_clear_low Rn j hlow, setBitsDescending]
  have e : j + (ceilLog2 W + 1 - j) = Nat.size Rn + (ceilLog2 W + 1 - Nat.size Rn) := by omega
  rw [e, bitWidths_clear_high Rn 0 (Nat.size Rn) hhigh]

/-- Rows as set bits: when the minimum width `m = 2 ^ j` does not exceed
`2 ^ ceil(log2(W))`, every row emitted by `setupPowerOf2Tiles` is laid out contiguously
from `x = 0` with exactly the powers of two whose bits are set in the rounded width `R`,
from the largest to the smallest, and these widths sum to `R`. -/
theorem setupPowerOf2Tiles_set_bits (r : TiledPictureRenderer) (p : SkPicture)
    (hp : r.fPicture = some p) (hW : 0 < p.width) (hH : 0 < p.height)
    (hth : 0 < r.fTileHeight) (j : Nat) (hm : r.fTileMinPowerOf2Width = 2 ^ j)
    (hj : j ≤ ceilLog2 p.width)
    (fuel : Nat) (hfW : ceilLog2 p.width + 1 - j < fuel)
    (hfH : numSteps r.fTileHeight p.height < fuel) :
    setupPowerOf2Tiles fuel r = some (r.pushTiles (pow2Tiles p r.fTileHeight
      (numSteps r.fTileHeight p.height)
      (setBitsDescending (roundedValue p.width r.fTileMinPowerOf2Width).toNat))) ∧
    (((setBitsDescending (roundedValue p.width r.fTileMinPowerOf2Width).toNat).sum : Nat) : Int)
      = roundedValue p.width r.fTileMinPowerOf2Width := by
  have hmpos : (0 : Int) < 2 ^ j := by positivity
  constructor
  · rw [setupPowerOf2Tiles_eq r p hp hW hH hth j hm fuel hfW hfH, hm,
      pow2_row_widths_eq p.width j hW hj]
  · rw [setBitsDescending_sum, hm]
    exact Int.toNat_of_nonneg (le_of_lt (roundedValue_nonneg _ _ hW hmpos))

theorem layRow_countP (p : SkPicture) (y h px py : Int) : ∀ (ws : List Nat) (x : Int),
    (layRow p y h x ws).countP (fun t => decide (t.coversPixel px py)) =
      if (x ≤ px ∧ px < x + (ws.sum : Nat)) ∧ (y ≤ py ∧ py < y + h) then 1 else 0 := by
  intro ws
  induction ws with
  | nil =>
    intro x
    have : ¬ ((x ≤ px ∧ px < x + ((([] : List Nat).sum : Nat) : Int)) ∧ (y ≤ py ∧ py < y + h)) := by
      simp only [List.sum_nil, Nat.cast_zero, add_zero]
      omega
    rw [if_neg this]
    rfl
  | cons w ws ih =>
    intro x
    rw [layRow, List.countP_cons, ih (x + (w : Int))]
    simp only [decide_eq_true_eq, mkTile_coversPixel, List.sum_cons, Nat.cast_add]
    have hw : (0 : Int) ≤ (w : Int) := by omega
    have hs : (0 : Int) ≤ ((ws.sum : Nat) : Int) := by omega
    split_ifs <;> omega

theorem pow2Tiles_countP (p : SkPicture) (th : Int) (hth : 0 < th) (rows : Nat)
    (ws : List Nat) (px py : Int) :
    (pow2Tiles p th rows ws).countP (fun t => decide (t.coversPixel px py)) =
      if (0 ≤ px ∧ px < (ws.sum : Nat)) ∧ (0 ≤ py ∧ py < (rows : Int) * th) then 1 else 0 := by
  unfold pow2Tiles
  split_ifs with hc
  · obtain ⟨⟨hx0, hx1⟩, hy0, hy1⟩ := hc
    apply countP_flatMap_eq_one _ _ (py / th).toNat _ (List.nodup_range _)
      (List.mem_range.mpr (index_lt_of_cell th hth py hy0 rows hy1))
    · rw [layRow_countP, if_pos]
      refine ⟨⟨hx0, by omega⟩, ?_⟩
      exact (cell_iff th hth py hy0 _).mpr rfl
    · intro j _ hj
      rw [layRow_countP, if_neg]
      rintro ⟨_, hy⟩
      exact hj ((cell_iff th hth py hy0 j).mp hy)
  · apply countP_flatMap_eq_zero
    intro j hj
    rw [List.mem_range] at hj
    rw [layRow_countP, if_neg]
    rintro ⟨⟨hx0, hx1⟩, hy0, hy1⟩
    apply hc
    have hj0 : 0 ≤ (j : Int) * th := mul_nonneg (by omega) (by omega)
    have hj1 : ((j : Int) + 1) * th ≤ (rows : Int) * th :=
      mul_le_mul_of_nonneg_right (by omega) (by omega)
    have e2 : ((j : Int) + 1) * th = (j : Int) * th + th := by ring
    refine ⟨⟨by omega, by omega⟩, by omega, by omega⟩

/-- Coverage: when the minimum width `m = 2 ^ j` does not exceed
`2 ^ ceil(log2(W))`, the rows emitted by `setupPowerOf2Tiles` are laid out contiguously
from `x = 0` and every pixel of the picture lies in exactly one tile rectangle. -/
theorem setupPowerOf2Tiles_covers_once (r : TiledPictureRenderer) (p : SkPicture)
    (hp : r.fPicture = some p) (hW : 0 < p.width) (hH : 0 < p.height)
    (hth : 0 < r.fTileHeight) (j : Nat) (hm : r.fTileMinPowerOf2Width = 2 ^ j)
    (hj : j ≤ ceilLog2 p.width)
    (fuel : Nat) (hfW : ceilLog2 p.width + 1 - j < fuel)
    (hfH : numSteps r.fTileHeight p.height < fuel) :
    ∃ ws, setupPowerOf2Tiles fuel r = some (r.pushTiles (pow2Tiles p r.fTileHeight
        (numSteps r.fTileHeight p.height) ws)) ∧
      ∀ px py : Int, 0 ≤ px → px < p.width → 0 ≤ py → py < p.height →
        (pow2Tiles p r.fTileHeight (numSteps r.fTileHeight p.height) ws).countP
          (fun t => decide (t.coversPixel px py)) = 1 := by
  obtain ⟨h1, h2⟩ := setupPowerOf2Tiles_set_bits r p hp hW hH hth j hm hj fuel hfW hfH
  refine ⟨_, h1, ?_⟩
  intro px py hx0 hx1 hy0 hy1
  rw [pow2Tiles_countP p _ hth, if_pos]
  have hmpos : 0 < r.fTileMinPowerOf2Width := by rw [hm]; positivity
  have hb := (roundedValue_bounds p.width r.fTileMinPowerOf2Width hW hmpos).1
  have h3 := numSteps_reach r.fTileHeight p.height hth hH
  exact ⟨⟨hx0, by omega⟩, hy0, by omega⟩

theorem bitWidths_length_succ (R : Nat) : ∀ N,
    (bitWidths R 0 (N + 1)).length = R % 2 + (bitWidths (R / 2) 0 N).length := by
  intro N
  induction N with
  | zero =>
    have h2 : R % 2 < 2 := Nat.mod_lt _ (by decide)
    by_cases hb : R % 2 = 1
    · simp [bitWidths, Nat.testBit_to_div_mod, hb]
    · have : R % 2 = 0 := by omega
      simp [bitWidths, Nat.testBit_to_div_mod, this]
  | succ N ih =>
    rw [bitWidths, List.length_append, ih]
    conv_rhs => rw [bitWidths, List.length_append]
    have e : R.testBit (0 + (N + 1)) = (R / 2).testBit (0 + N) := by
      rw [Nat.zero_add, Nat.zero_add, Nat.testBit_succ]
    rw [e]
    split_ifs <;> first | (simp; omega) | simp

theorem bitWidths_length_add_pow (N : Nat) : ∀ (a i : Nat), a + 2 ^ i < 2 ^ N →
    (bitWidths (a + 2 ^ i) 0 N).length ≤ (bitWidths a 0 N).length + 1 := by
  induction N with
  | zero =>
    intro a i h
    have : 0 < 2 ^ i := Nat.pos_pow_of_pos i (by decide)
    simp only [pow_zero] at h
    omega
  | succ N ih =>
    intro a i h
    rw [bitWidths_length_succ, bitWidths_length_succ]
    have hN : 2 ^ (N + 1) = 2 * 2 ^ N := by rw [Nat.pow_succ]; ring
    cases i with
    | zero =>
      simp only [pow_zero] at h ⊢
      have h2 : a % 2 < 2 := Nat.mod_lt _ (by decide)
      by_cases ha : a % 2 = 1
      · have e1 : (a + 1) % 2 = 0 := by omega
        have e2 : (a + 1) / 2 = a / 2 + 2 ^ 0 := by simp; omega
        rw [e1, e2]
        have := ih (a / 2) 0 (by simp; omega)
        omega
      · have e1 : (a + 1) % 2 = 1 := by omega
        have e2 : (a + 1) / 2 = a / 2 := by omega
        rw [e1, e2]
        omega
    | succ i =>
      have hi : 2 ^ (i + 1) = 2 * 2 ^ i := by rw [Nat.pow_succ]; ring
      have e1 : (a + 2 ^ (i + 1)) % 2 = a % 2 := by rw [hi]; omega
      have e2 : (a + 2 ^ (i + 1)) / 2 = a / 2 + 2 ^ i := by rw [hi]; omega
      rw [e1, e2]
      have := ih (a / 2) i (by rw [hi, hN] at h; omega)
      omega

theorem bitWidths_length_le (N : Nat) : ∀ (l : List Nat), (∀ w ∈ l, ∃ i : Nat, w = 2 ^ i) →
    l.sum < 2 ^ N → (bitWidths l.sum 0 N).length ≤ l.length := by
  intro l
  induction l with
  | nil =>
    intro _ _
    rw [List.sum_nil, bitWidths_eq_nil 0 N (fun i _ => Nat.zero_testBit i)]
  | cons w l ih =>
    intro hl hs
    obtain ⟨i, rfl⟩ := hl w (List.mem_cons_self _ _)
    rw [List.sum_cons] at hs ⊢
    have hpos : 0 < 2 ^ i := Nat.pos_pow_of_pos i (by decide)
    have h1 := ih (fun w hw => hl w (List.mem_cons_of_mem _ hw))
      (lt_of_le_of_lt (Nat.le_add_left _ _) hs)
    have h2 := bitWidths_length_add_pow N l.sum i (by rw [Nat.add_comm]; exact hs)
    rw [Nat.add_comm] at h2
    rw [List.length_cons]
    omega

/-- Optimality: when the minimum width `m = 2 ^ j` does not exceed
`2 ^ ceil(log2(W))`, the widths `ws` of a row emitted by `setupPowerOf2Tiles` sum to at
least `W`; every list of powers of two, each at least `m`, whose sum is at least `W` has
a sum at least that of `ws`; and every such list with the same sum is at least as long
as `ws`. -/
theorem setupPowerOf2Tiles_optimal (r : TiledPictureRenderer) (p : SkPicture)
    (hp : r.fPicture = some p) (hW : 0 < p.width) (hH : 0 < p.height)
    (hth : 0 < r.fTileHeight) (j : Nat) (hm : r.fTileMinPowerOf2Width = 2 ^ j)
    (hj : j ≤ ceilLog2 p.width)
    (fuel : Nat) (hfW : ceilLog2 p.width + 1 - j < fuel)
    (hfH : numSteps r.fTileHeight p.height < fuel) :
    ∃ ws : List Nat, setupPowerOf2Tiles fuel r = some (r.pushTiles (pow2Tiles p r.fTileHeight
        (numSteps r.fTileHeight p.height) ws)) ∧
      p.width ≤ (ws.sum : Nat) ∧
      ∀ l : List Nat, (∀ w ∈ l, ∃ i : Nat, j ≤ i ∧ w = 2 ^ i) → p.width ≤ (l.sum : Nat) →
        ws.sum ≤ l.sum ∧ (l.sum = ws.sum → ws.length ≤ l.length) := by
  obtain ⟨h1, h2⟩ := setupPowerOf2Tiles_set_bits r p hp hW hH hth j hm hj fuel hfW hfH
  have hmpos : 0 < r.fTileMinPowerOf2Width := by rw [hm]; positivity
  have hb := (roundedValue_bounds p.width r.fTileMinPowerOf2Width hW hmpos).1
  refine ⟨_, h1, by omega, ?_⟩
  intro l hl hsum
  have hdvd : (2 : Int) ^ j ∣ ((l.sum : Nat) : Int) := by
    have : 2 ^ j ∣ l.sum := by
      apply List.dvd_sum
      intro w hw
      obtain ⟨i, hji, rfl⟩ := hl w hw
      exact pow_dvd_pow 2 hji
    exact_mod_cast this
  have hle := roundedValue_le_of_dvd p.width r.fTileMinPowerOf2Width _ hW hmpos
    (by rw [hm]; exact hdvd) hsum
  refine ⟨by omega, ?_⟩
  intro he
  have := bitWidths_length_le (Nat.size l.sum) l
    (fun w hw => by obtain ⟨i, _, e⟩ := hl w hw; exact ⟨i, e⟩) (Nat.lt_size_self _)
  rw [setBitsDescending_sum] at he
  rw [← he]
  exact this

/-! ## Power-of-two mode: a minimum width above `2 ^ ceil(log2(W))` -/

theorem size_256 : Nat.size 256 = 9 := by
  rw [show (256 : Nat) = 2 ^ 8 from rfl, Nat.size_pow]

/-- C6, at the failing input (picture 100 x 100, tile height 100, minimum width 256): the
width is rounded up to 256, whose only set bit is 256, yet `setupPowerOf2Tiles` returns
normally without a tile, so the row at `y = 0` has no width at all and the widths sum
to 0, not to 256. -/
theorem setupPowerOf2Tiles_100_256_row_widths :
    roundedValue 100 256 = 256 ∧ setBitsDescending 256 = [256] ∧
    ∃ r', setupPowerOf2Tiles 2 (planningState 100 100 256 100 256) = some r' ∧
      rowWidths r'.fTiles 0 = [] ∧ (rowWidths r'.fTiles 0).sum = 0 := by
  refine ⟨by decide, ?_, _, setupPowerOf2Tiles_no_tile (planningState 100 100 256 100 256)
    ⟨100, 100⟩ rfl (by decide) (by decide) ?_ 2 (by decide), by decide, by decide⟩
  · rw [setBitsDescending, size_256]; decide
  · show (2 : Int) ^ ceilLog2 100 < 256
    rw [ceilLog2_100]; decide

/-- C8, at the failing input (picture 100 x 100, tile height 100, minimum width 256):
`setupPowerOf2Tiles` returns normally without a tile, so the pixel `(0, 0)` of the picture
lies in no tile rectangle. -/
theorem setupPowerOf2Tiles_100_256_uncovered :
    ∃ r', setupPowerOf2Tiles 2 (planningState 100 100 256 100 256) = some r' ∧
      r'.fTiles = [] ∧ r'.fTiles.countP (fun t => decide (t.coversPixel 0 0)) = 0 := by
  refine ⟨_, setupPowerOf2Tiles_no_tile (planningState 100 100 256 100 256)
    ⟨100, 100⟩ rfl (by decide) (by decide) ?_ 2 (by decide), by decide, by decide⟩
  show (2 : Int) ^ ceilLog2 100 < 256
  rw [ceilLog2_100]; decide

/-- C9, at the failing input (picture 100 x 100, tile height 100, minimum width 256):
the widths that `setupPowerOf2Tiles` emits for the row at `y = 0` sum to 0, which is below
the picture width 100, while the single tile of width 256 would cover the row. -/
theorem setupPowerOf2Tiles_100_256_sum_below_width :
    ∃ r', setupPowerOf2Tiles 2 (planningState 100 100 256 100 256) = some r' ∧
      (rowWidths r'.fTiles 0).sum < (SkPicture.mk 100 100).width ∧
      (SkPicture.mk 100 100).width ≤ ([256] : List Int).sum := by
  refine ⟨_, setupPowerOf2Tiles_no_tile (planningState 100 100 256 100 256)
    ⟨100, 100⟩ rfl (by decide) (by decide) ?_ 2 (by decide), by decide, by decide⟩
  show (2 : Int) ^ ceilLog2 100 < 256
  rw [ceilLog2_100]; decide

/-! ## The rounded width -/

theorem roundedValue32_eq (W m : Int) (hW : 0 < W) (hm : 0 < m)
    (hfit : ∃ s : Int, m ∣ s ∧ W ≤ s ∧ s ≤ INT_MAX) :
    roundedValue32 W m = roundedValue W m := by
  obtain ⟨s, hd, hs, hmax⟩ := hfit
  have hle := roundedValue_le_of_dvd W m s hW hm hd hs
  have hpos := roundedValue_pos W m hW hm
  have h1 := Int.emod_nonneg W (by omega : m ≠ 0)
  have h2 := Int.emod_lt_of_pos W hm
  have ht : W.tmod m = W % m := Int.tmod_eq_emod (by omega) (by omega)
  have h3 : W % m ≤ W := by
    have h4 := Int.emod_add_ediv W m
    have h5 : 0 ≤ m * (W / m) := mul_nonneg (by omega) (Int.ediv_nonneg (by omega) (by omega))
    omega
  unfold INT_MAX at hmax
  unfold roundedValue32
  rw [ht]
  by_cases h : W % m ≠ 0
  · rw [if_pos h] at hpos
    rw [if_pos h, hpos]
    have hle' : W - W % m + m ≤ 2147483647 := by rw [← hpos]; omega
    have ha : wrap32 (W - W % m) = W - W % m :=
      wrap32_of_range _ (by omega) (by unfold INT_MAX; omega)
    rw [ha]
    exact wrap32_of_range _ (by omega) (by unfold INT_MAX; omega)
  · rw [if_neg h] at hpos
    rw [if_neg h, hpos]

/-- C11, counterexample: for the width 2147483647 and the minimum tile width 2, both
positive 32-bit integers, the smallest multiple of 2 not below the width is 2147483648,
which is not an `int`: the addition of `width - width % m + m` is reduced to
`-2147483648`, a value below the width. -/
theorem roundedValue_overflow :
    (0 : Int) < 2147483647 ∧ (2147483647 : Int) ≤ INT_MAX ∧ (0 : Int) < 2 ∧
    roundedValue32 2147483647 2 = -2147483648 ∧
    ¬ ((2147483647 : Int) ≤ roundedValue32 2147483647 2) := by
  decide

/-- C11, amended: for every picture width `W > 0` and minimum tile width `m > 0` such
that a multiple of `m` lies between `W` and `INT_MAX`, the value `rounded_value` computed
at the start of `setupPowerOf2Tiles` on 32-bit integers is the smallest multiple of `m`
that is at least `W`; it is `W` when `m` divides `W` and lies strictly between `W` and
`W + m` otherwise. -/
theorem roundedValue_least_multiple (W m : Int) (hW : 0 < W) (hm : 0 < m)
    (hfit : ∃ s : Int, m ∣ s ∧ W ≤ s ∧ s ≤ INT_MAX) :
    m ∣ roundedValue32 W m ∧ W ≤ roundedValue32 W m ∧
    (∀ s : Int, m ∣ s → W ≤ s → roundedValue32 W m ≤ s) ∧
    (m ∣ W → roundedValue32 W m = W) ∧
    (¬ m ∣ W → W < roundedValue32 W m ∧ roundedValue32 W m < W + m) := by
  rw [roundedValue32_eq W m hW hm hfit]
  refine ⟨roundedValue_dvd W m hW hm, (roundedValue_bounds W m hW hm).1,
    fun s hd hs => roundedValue_le_of_dvd W m s hW hm hd hs, ?_, ?_⟩
  · intro hd
    rw [roundedValue_pos W m hW hm, if_neg]
    rw [not_not]
    exact Int.emod_eq_zero_of_dvd hd
  · intro hnd
    have hne : W % m ≠ 0 := fun h => hnd (Int.dvd_of_emod_eq_zero h)
    have h1 := Int.emod_nonneg W (by omega : m ≠ 0)
    have h2 := Int.emod_lt_of_pos W hm
    rw [roundedValue_pos W m hW hm, if_pos hne]
    constructor <;> omega

theorem roundedValue_least_multiple_witness :
    (64 : Int) ∣ roundedValue32 300 64 ∧ (300 : Int) ≤ roundedValue32 300 64 ∧
    (∀ s : Int, 64 ∣ s → 300 ≤ s → roundedValue32 300 64 ≤ s) ∧
    ((64 : Int) ∣ 300 → roundedValue32 300 64 = 300) ∧
    (¬ (64 : Int) ∣ 300 → 300 < roundedValue32 300 64 ∧ roundedValue32 300 64 < 300 + 64) :=
  roundedValue_least_multiple 300 64 (by decide) (by decide)
    ⟨320, by decide, by decide, by decide⟩

/-! ## Tile surfaces -/

/-- C13: for every tile requested as `(x, y, width, height)` on a picture of size
`W x H`, `addTile` pushes a surface of exactly `width x height`, translated by
`(-x, -y)` and clipped to the picture rectangle; a pixel `(u, v)` of the surface with
`0 <= u < width` and `0 <= v < height` is inside the clip if and only if the picture point
`(x + u, y + v)` satisfies `0 <= x + u < W` and `0 <= y + v < H`. -/
theorem addTile_surface (r : TiledPictureRenderer) (p : SkPicture) (hp : r.fPicture = some p)
    (x y w h : Int) :
    ∃ t, addTile r x y w h = some (r.pushTiles [t]) ∧
      t.width = w ∧ t.height = h ∧ t.translateX = -x ∧ t.translateY = -y ∧
      ∀ u v : Int, 0 ≤ u → u < w → 0 ≤ v → v < h →
        (t.inClip u v ↔ (0 ≤ x + u ∧ x + u < p.width) ∧ (0 ≤ y + v ∧ y + v < p.height)) := by
  refine ⟨mkTile p x y w h, addTile_eq r p hp x y w h, rfl, rfl, ?_, ?_, ?_⟩
  · simp [mkTile, SkCanvas.clipRect, SkCanvas.translate, setupCanvas]
  · simp [mkTile, SkCanvas.clipRect, SkCanvas.translate, setupCanvas]
  · intro u v hu0 hu1 hv0 hv1
    simp only [SkCanvas.inClip, mkTile, SkCanvas.clipRect, SkCanvas.translate, setupCanvas,
      SkRect.intersect, SkRect.offset, SkRect.MakeWH, max_le_iff, lt_min_iff]
    constructor
    · rintro ⟨⟨⟨_, h1⟩, _, h2⟩, ⟨_, h3⟩, _, h4⟩
      refine ⟨⟨by omega, by omega⟩, by omega, by omega⟩
    · rintro ⟨⟨h1, h2⟩, h3, h4⟩
      refine ⟨⟨⟨by omega, by omega⟩, by omega, by omega⟩, ⟨by omega, by omega⟩, by omega,
        by omega⟩

theorem addTile_surface_witness :
    ∃ t, addTile (planningState 600 500 256 256 0) 512 256 256 256
        = some ((planningState 600 500 256 256 0).pushTiles [t]) ∧
      t.width = 256 ∧ t.height = 256 ∧ t.translateX = -512 ∧ t.translateY = -256 ∧
      ∀ u v : Int, 0 ≤ u → u < 256 → 0 ≤ v → v < 256 →
        (t.inClip u v ↔ (0 ≤ 512 + u ∧ 512 + u < 600) ∧ (0 ≤ 256 + v ∧ 256 + v < 500)) :=
  addTile_surface (planningState 600 500 256 256 0) ⟨600, 500⟩ rfl 512 256 256 256

/-! ## Initialisation -/

theorem setupTilesRows_of_height_le (rowFuel fuel : Nat) (hfuel : 0 < fuel)
    (r : TiledPictureRenderer) (p : SkPicture) (hp : r.fPicture = some p) (y : Int)
    (hy : p.height ≤ y) : setupTilesRows rowFuel fuel r y = some r := by
  obtain ⟨f, rfl⟩ : ∃ f, fuel = f + 1 := ⟨fuel - 1, by omega⟩
  have : ¬ y < p.height := by omega
  simp [setupTilesRows, hp, this]

theorem setupTiles_of_nonpositive (r : TiledPictureRenderer) (p : SkPicture)
    (hp : r.fPicture = some p) (hth : 0 < r.fTileHeight)
    (hsize : p.width ≤ 0 ∨ p.height ≤ 0) (fuel : Nat)
    (hfuel : numSteps r.fTileHeight p.height < fuel) : setupTiles fuel r = some r := by
  unfold setupTiles
  by_cases hH : p.height ≤ 0
  · exact setupTilesRows_of_height_le fuel fuel (by omega) r p hp 0 hH
  · have hW : p.width ≤ 0 := by
      rcases hsize with h | h
      · exact h
      · exact absurd h hH
    have hH' : 0 < p.height := by omega
    have h := setupTilesRows_eq p fuel 0 (by omega) (numSteps r.fTileHeight p.height) fuel r 0
      hp hfuel (by simpa using hW) (by intro i hi; omega)
      (by simpa using numSteps_reach _ _ hth hH')
      (by intro j hj; simpa using numSteps_below _ _ hth hH' j hj)
    have hnil : ∀ l : List Nat, (l.flatMap fun _ => ([] : List SkCanvas)) = [] := by
      intro l
      induction l with
      | nil => rfl
      | cons a l ih => simp [List.flatMap_cons, ih]
    rw [h]
    simp [hnil, pushTiles_nil]

theorem setupPowerOf2Tiles_of_height_le (r : TiledPictureRenderer) (p : SkPicture)
    (hp : r.fPicture = some p) (hm : 0 < r.fTileMinPowerOf2Width) (hH : p.height ≤ 0)
    (fuel : Nat) (hfuel : 0 < fuel) : setupPowerOf2Tiles fuel r = some r := by
  obtain ⟨f, rfl⟩ : ∃ f, fuel = f + 1 := ⟨fuel - 1, by omega⟩
  have : ¬ (0 : Int) < p.height := by omega
  unfold setupPowerOf2Tiles
  simp only [hp]
  rw [if_neg (by omega)]
  simp [setupPowerOf2TilesRows, hp, this]

/-- C16: `init` with a null picture, or on a renderer that already holds tiles, violates
the precondition checked by `SkASSERT`: in a debug build the call does not return, in a
release build it returns at once, and in both no picture is set, no base canvas is
created and no tile is added; the state after a release-build call is exactly the state
before it. -/
theorem init_precondition_violation (fuel : Nat) (r : TiledPictureRenderer)
    (pict : Option SkPicture) (h : pict = none ∨ r.fTiles ≠ []) :
    init true fuel r pict = none ∧ init false fuel r pict = some r := by
  have hc : pict = none ∨ r.fTiles.length ≠ 0 := by
    rcases h with h | h
    · exact Or.inl h
    · exact Or.inr (fun hl => h (List.length_eq_zero.mp hl))
  constructor
  · unfold init
    rw [if_pos hc]
    rfl
  · unfold init
    rw [if_pos hc]
    rfl

theorem init_precondition_violation_witness :
    init true 4 ((planningState 600 500 256 256 0).pushTiles [mkTile ⟨600, 500⟩ 0 0 256 256])
        (some ⟨300, 200⟩) = none ∧
    init false 4 ((planningState 600 500 256 256 0).pushTiles [mkTile ⟨600, 500⟩ 0 0 256 256])
        (some ⟨300, 200⟩) =
      some ((planningState 600 500 256 256 0).pushTiles [mkTile ⟨600, 500⟩ 0 0 256 256]) :=
  init_precondition_violation 4 _ (some ⟨300, 200⟩) (Or.inr (by decide))

/-! ## Compositing -/

theorem copyTilesLoop_trace (env : Collaborators) (c : SkCanvas) :
    ∀ (l : List (Nat × SkCanvas)) (s : RenderState),
      (copyTilesLoop env c l s).trace = s.trace ++ l.map blitEvent := by
  intro l
  induction l with
  | nil => intro s; simp [copyTilesLoop]
  | cons a l ih =>
    intro s
    obtain ⟨i, t⟩ := a
    rw [copyTilesLoop, ih]
    simp [copyTile, blitEvent, List.append_assoc]

theorem copyTilesLoop_tilePixels (env : Collaborators) (c : SkCanvas) :
    ∀ (l : List (Nat × SkCanvas)) (s : RenderState),
      (copyTilesLoop env c l s).tilePixels = s.tilePixels := by
  intro l
  induction l with
  | nil => intro s; rfl
  | cons a l ih =>
    intro s
    obtain ⟨i, t⟩ := a
    rw [copyTilesLoop, ih]
    rfl

theorem copyTile_canvasPixels (env : Collaborators) (c : SkCanvas) (i : Nat) (t : SkCanvas)
    (s : RenderState) (dx dy : Int) :
    (copyTile env c i t s).canvasPixels dx dy =
      if hitsPixel c t dx dy then
        env.transfer (s.tilePixels i (dx - c.translateX - t.tileX) (dy - c.translateY - t.tileY))
          (s.canvasPixels dx dy)
      else s.canvasPixels dx dy := by
  simp only [copyTile, drawBitmap, hitsPixel, SkCanvas.coversPixel, SkCanvas.tileX,
    SkCanvas.tileY, SkCanvas.getTranslateX, SkCanvas.getTranslateY]
  by_cases hc : c.inClip dx dy
  · by_cases h : (0 ≤ dx - c.translateX - -t.translateX ∧
        dx - c.translateX - -t.translateX < t.width) ∧
        (0 ≤ dy - c.translateY - -t.translateY ∧ dy - c.translateY - -t.translateY < t.height)
    · rw [if_pos ⟨h, hc⟩, if_pos]
      obtain ⟨⟨h1, h2⟩, h3, h4⟩ := h
      exact ⟨⟨by omega, by omega, by omega, by omega⟩, hc⟩
    · rw [if_neg (fun hh => h hh.1), if_neg]
      rintro ⟨⟨h1, h2, h3, h4⟩, _⟩
      exact h ⟨⟨by omega, by omega⟩, by omega, by omega⟩
  · rw [if_neg (fun hh => hc hh.2), if_neg (fun hh => hc hh.2)]

theorem copyTilesLoop_pixel_of_no_hit (env : Collaborators) (c : SkCanvas) (dx dy : Int) :
    ∀ (l : List (Nat × SkCanvas)) (s : RenderState),
      (∀ it ∈ l, ¬ hitsPixel c it.2 dx dy) →
      (copyTilesLoop env c l s).canvasPixels dx dy = s.canvasPixels dx dy := by
  intro l
  induction l with
  | nil => intro s _; rfl
  | cons a l ih =>
    intro s h
    obtain ⟨i, t⟩ := a
    rw [copyTilesLoop, ih _ (fun it hit => h it (List.mem_cons_of_mem _ hit)),
      copyTile_canvasPixels, if_neg (h (i, t) (List.mem_cons_self _ _))]

theorem copyTilesLoop_pixel_of_hit (env : Collaborators) (c : SkCanvas) (dx dy : Int) :
    ∀ (l : List (Nat × SkCanvas)) (s : RenderState),
      l.countP (fun it => decide (it.2.coversPixel (dx - c.translateX) (dy - c.translateY))) ≤ 1 →
      ∀ it ∈ l, hitsPixel c it.2 dx dy →
      (copyTilesLoop env c l s).canvasPixels dx dy =
        env.transfer (s.tilePixels it.1 (dx - c.translateX - it.2.tileX)
          (dy - c.translateY - it.2.tileY)) (s.canvasPixels dx dy) := by
  intro l
  induction l with
  | nil => intro s _ it hit; simp at hit
  | cons a l ih =>
    intro s hcount it hmem hhit
    rw [List.countP_cons] at hcount
    rw [copyTilesLoop]
    by_cases ha : a.2.coversPixel (dx - c.translateX) (dy - c.translateY)
    · have hzero : l.countP (fun it =>
          decide (it.2.coversPixel (dx - c.translateX) (dy - c.translateY))) = 0 := by
        simp only [ha, decide_True, if_true] at hcount
        omega
      rw [List.countP_eq_zero] at hzero
      have hnone : ∀ it' ∈ l, ¬ hitsPixel c it'.2 dx dy := by
        intro it' hit' hh
        exact hzero it' hit' (by simpa using hh.1)
      have hia : it = a := by
        rcases List.mem_cons.mp hmem with h | h
        · exact h
        · exact absurd hhit (hnone it h)
      subst hia
      rw [copyTilesLoop_pixel_of_no_hit env c dx dy l _ hnone, copyTile_canvasPixels,
        if_pos hhit]
    · have hia : it ∈ l := by
        rcases List.mem_cons.mp hmem with h | h
        · subst h
          exact absurd hhit.1 ha
        · exact h
      have hcount' : l.countP (fun it =>
          decide (it.2.coversPixel (dx - c.translateX) (dy - c.translateY))) ≤ 1 := by omega
      rw [ih _ hcount' it hia hhit, copyTile_canvasPixels, if_neg (fun hh => ha hh.1)]
      rfl

theorem countP_enum_snd (p : SkCanvas → Bool) (l : List SkCanvas) :
    l.enum.countP (fun it => p it.2) = l.countP p := by
  have h := List.countP_map p Prod.snd l.enum
  rw [List.enum_map_snd] at h
  rw [h]
  rfl

/-- Compositing a list of indexed tiles that cover every point at most once gives the same
destination pixels in every order. -/
theorem copyTilesLoop_perm (env : Collaborators) (c : SkCanvas) (l order : List (Nat × SkCanvas))
    (hperm : order.Perm l)
    (hdisj : ∀ px py : Int, l.countP (fun it => decide (it.2.coversPixel px py)) ≤ 1)
    (s : RenderState) :
    (copyTilesLoop env c order s).canvasPixels = (copyTilesLoop env c l s).canvasPixels := by
  funext dx dy
  have hdisj' : ∀ px py : Int,
      order.countP (fun it => decide (it.2.coversPixel px py)) ≤ 1 := by
    intro px py
    rw [hperm.countP_eq]
    exact hdisj px py
  by_cases h : ∃ it ∈ l, hitsPixel c it.2 dx dy
  · obtain ⟨it, hit, hhit⟩ := h
    rw [copyTilesLoop_pixel_of_hit env c dx dy l s (hdisj _ _) it hit hhit,
      copyTilesLoop_pixel_of_hit env c dx dy order s (hdisj' _ _) it (hperm.mem_iff.mpr hit) hhit]
  · have hl : ∀ it ∈ l, ¬ hitsPixel c it.2 dx dy := fun it hit hh => h ⟨it, hit, hh⟩
    rw [copyTilesLoop_pixel_of_no_hit env c dx dy l s hl,
      copyTilesLoop_pixel_of_no_hit env c dx dy order s
        (fun it hit => hl it (hperm.mem_iff.mp hit))]

theorem copyTilesToCanvas_eq (env : Collaborators) (r : TiledPictureRenderer) (c : SkCanvas)
    (hc : r.fCanvas = some c) (s : RenderState) :
    copyTilesToCanvas env r s =
      some ((copyTilesLoop env c r.fTiles.enum s).log [RenderEvent.flushCanvas]) := by
  simp only [copyTilesToCanvas, hc]

theorem planTiles_disjoint (r : TiledPictureRenderer) (p : SkPicture)
    (hp : r.fPicture = some p) (hW : 0 < p.width) (hH : 0 < p.height)
    (hth : 0 < r.fTileHeight) (fuel : Nat) (hfH : numSteps r.fTileHeight p.height < fuel)
    (hmode : (r.fTileMinPowerOf2Width ≤ 0 ∧ 0 < r.fTileWidth ∧
        numSteps r.fTileWidth p.width < fuel) ∨
      (∃ j : Nat, r.fTileMinPowerOf2Width = 2 ^ j ∧ ceilLog2 p.width + 1 - j < fuel)) :
    ∃ ts, planTiles fuel r = some (r.pushTiles ts) ∧
      ∀ px py : Int, ts.countP (fun t => decide (t.coversPixel px py)) ≤ 1 := by
  unfold planTiles
  rcases hmode with ⟨hm, htw, hfW⟩ | ⟨j, hm, hfW⟩
  · rw [if_neg (by simpa using hm)]
    refine ⟨_, setupTiles_eq r p hp hW hH htw hth fuel hfW hfH, ?_⟩
    intro px py
    rw [gridTiles_countP p _ _ htw hth]
    split_ifs <;> omega
  · have hmpos : r.fTileMinPowerOf2Width > 0 := by rw [hm]; positivity
    rw [if_pos hmpos]
    refine ⟨_, setupPowerOf2Tiles_eq r p hp hW hH hth j hm fuel hfW hfH, ?_⟩
    intro px py
    rw [pow2Tiles_countP p _ hth]
    split_ifs <;> omega

/-- C12: a tile `t` created by `addTile` at origin `(x, y)` with size `w x h`, found at
index `i` of `fTiles`, is drawn by `copyTilesToCanvas` with the call
`drawBitmap(source, x, y)`: the offset read back from the transform of the tile and
negated is the origin the tile was created with, and the pixels of the tile are placed
there. -/
theorem copyTilesToCanvas_blits_at_origin (env : Collaborators) (r0 r : TiledPictureRenderer)
    (c t : SkCanvas) (x y w h : Int) (i : Nat) (s : RenderState)
    (hadd : addTile r0 x y w h = some (r0.pushTiles [t]))
    (hc : r.fCanvas = some c) (hi : r.fTiles[i]? = some t) :
    (-t.getTranslateX = x ∧ -t.getTranslateY = y) ∧
    ∃ s', copyTilesToCanvas env r s = some s' ∧
      s'.trace = s.trace ++ r.fTiles.enum.map blitEvent ++ [RenderEvent.flushCanvas] ∧
      (r.fTiles.enum.map blitEvent)[i]? = some (RenderEvent.drawBitmap i x y) ∧
      ∀ s0 : RenderState, (copyTile env c i t s0).canvasPixels =
        drawBitmap env.transfer c s0.canvasPixels (s0.tilePixels i) w h x y := by
  have hshape : t.width = w ∧ t.height = h ∧ t.translateX = -x ∧ t.translateY = -y := by
    unfold addTile clipTile at hadd
    cases hp : r0.fPicture with
    | none => simp [hp] at hadd
    | some p =>
      simp only [hp, Option.some.injEq] at hadd
      have h2 := congrArg TiledPictureRenderer.fTiles hadd
      simp only [TiledPictureRenderer.pushTiles, List.append_cancel_left_eq,
        List.cons.injEq, and_true] at h2
      rw [← h2]
      simp [SkCanvas.clipRect, SkCanvas.translate, setupCanvas]
  obtain ⟨hw, hh, hx, hy⟩ := hshape
  have hgx : -t.getTranslateX = x := by simp [SkCanvas.getTranslateX, hx]
  have hgy : -t.getTranslateY = y := by simp [SkCanvas.getTranslateY, hy]
  refine ⟨⟨hgx, hgy⟩, _, copyTilesToCanvas_eq env r c hc s, ?_, ?_, ?_⟩
  · simp [RenderState.log, copyTilesLoop_trace]
  · rw [List.getElem?_map, List.getElem?_enum, hi]
    simp [blitEvent, hgx, hgy]
  · intro s0
    simp only [copyTile, hgx, hgy, hw, hh]

theorem copyTilesToCanvas_blits_at_origin_witness :
    (-(mkTile ⟨600, 500⟩ 512 256 256 256).getTranslateX = 512 ∧
      -(mkTile ⟨600, 500⟩ 512 256 256 256).getTranslateY = 256) ∧
    ∃ s', copyTilesToCanvas ⟨fun _ _ b => b, fun _ _ b => b, fun _ => true, fun a _ => a⟩
        ((planningState 600 500 256 256 0).pushTiles [mkTile ⟨600, 500⟩ 512 256 256 256])
        RenderState.fresh = some s' ∧
      s'.trace = RenderState.fresh.trace ++
        ((planningState 600 500 256 256 0).pushTiles
          [mkTile ⟨600, 500⟩ 512 256 256 256]).fTiles.enum.map blitEvent ++
        [RenderEvent.flushCanvas] ∧
      (((planningState 600 500 256 256 0).pushTiles
          [mkTile ⟨600, 500⟩ 512 256 256 256]).fTiles.enum.map blitEvent)[0]?
        = some (RenderEvent.drawBitmap 0 512 256) ∧
      ∀ s0 : RenderState,
        (copyTile ⟨fun _ _ b => b, fun _ _ b => b, fun _ => true, fun a _ => a⟩
          (setupCanvas 600 500) 0 (mkTile ⟨600, 500⟩ 512 256 256 256) s0).canvasPixels =
        drawBitmap (fun a _ => a) (setupCanvas 600 500) s0.canvasPixels (s0.tilePixels 0)
          256 256 512 256 :=
  copyTilesToCanvas_blits_at_origin ⟨fun _ _ b => b, fun _ _ b => b, fun _ => true, fun a _ => a⟩
    (planningState 600 500 256 256 0)
    ((planningState 600 500 256 256 0).pushTiles [mkTile ⟨600, 500⟩ 512 256 256 256])
    (setupCanvas 600 500) (mkTile ⟨600, 500⟩ 512 256 256 256) 512 256 256 256 0
    RenderState.fresh (addTile_eq _ ⟨600, 500⟩ rfl 512 256 256 256) rfl rfl

/-! ## Drawing the tiles -/

theorem flatMap_enum_fst {α : Type} (f : Nat → List RenderEvent) (l : List α) :
    (l.enum.flatMap fun it => f it.1) = (List.range l.length).flatMap f := by
  rw [← List.enum_map_fst l, List.flatMap_map]

theorem startWorkers_eq (env : Collaborators) (clone : Bool) :
    ∀ (l : List (Nat × SkCanvas)) (s : RenderState),
      startWorkers env clone l s = s.log (l.flatMap fun it =>
        [RenderEvent.newWorker it.1 it.1 (if clone then some it.1 else none),
          RenderEvent.start it.1 (env.threadStart it.1)]) := by
  intro l
  induction l with
  | nil => intro s; simp [startWorkers, RenderState.log]
  | cons a l ih =>
    intro s
    obtain ⟨i, t⟩ := a
    rw [startWorkers, ih]
    simp [RenderState.log, List.flatMap_cons]

theorem joinWorkers_eq (env : Collaborators) (work : Nat → SkCanvas → SkBitmap → SkBitmap) :
    ∀ (l : List (Nat × SkCanvas)) (s : RenderState),
      joinWorkers env work l s =
        { tilePixels := playTiles work env.threadStart l s.tilePixels
          canvasPixels := s.canvasPixels
          trace := s.trace ++ l.flatMap fun it =>
            [RenderEvent.join it.1, RenderEvent.deleteWorker it.1] } := by
  intro l
  induction l with
  | nil => intro s; simp [joinWorkers, playTiles]
  | cons a l ih =>
    intro s
    obtain ⟨i, t⟩ := a
    rw [joinWorkers, ih]
    cases hs : env.threadStart i <;>
      simp [RenderState.log, RenderState.setTile, playTiles, hs, List.flatMap_cons]

theorem drawTilesLoop_eq (env : Collaborators) (r : TiledPictureRenderer) (p : SkPicture)
    (hp : r.fPicture = some p) :
    ∀ (l : List (Nat × SkCanvas)) (s : RenderState),
      drawTilesLoop env r l s = some
        { tilePixels := playTiles (fun _ => env.drawPicture p) (fun _ => true) l s.tilePixels
          canvasPixels := s.canvasPixels
          trace := s.trace ++ l.flatMap fun it =>
            [RenderEvent.drawPicture it.1, RenderEvent.flush it.1] } := by
  intro l
  induction l with
  | nil => intro s; simp [drawTilesLoop, playTiles]
  | cons a l ih =>
    intro s
    obtain ⟨i, t⟩ := a
    simp only [drawTilesLoop, hp]
    rw [ih]
    simp [RenderState.log, RenderState.setTile, playTiles, List.flatMap_cons]

theorem playTiles_untouched (work : Nat → SkCanvas → SkBitmap → SkBitmap) (ok : Nat → Bool)
    (i : Nat) : ∀ (l : List (Nat × SkCanvas)) (tp : Nat → SkBitmap),
      (∀ it ∈ l, it.1 ≠ i) → playTiles work ok l tp i = tp i := by
  intro l
  induction l with
  | nil => intro tp _; rfl
  | cons a l ih =>
    intro tp h
    obtain ⟨j, t⟩ := a
    rw [playTiles, ih _ (fun it hit => h it (List.mem_cons_of_mem _ hit))]
    have hj : j ≠ i := h (j, t) (List.mem_cons_self _ _)
    split_ifs
    · exact Function.update_noteq (Ne.symm hj) _ _
    · rfl

theorem playTiles_at (work : Nat → SkCanvas → SkBitmap → SkBitmap) (ok : Nat → Bool) :
    ∀ (tiles : List SkCanvas) (k j : Nat) (t : SkCanvas) (tp : Nat → SkBitmap),
      tiles[j]? = some t →
      playTiles work ok (List.enumFrom k tiles) tp (k + j) =
        if ok (k + j) then work (k + j) t (tp (k + j)) else tp (k + j) := by
  intro tiles
  induction tiles with
  | nil => intro k j t tp h; simp at h
  | cons a tiles ih =>
    intro k j t tp h
    rw [List.enumFrom_cons, playTiles]
    cases j with
    | zero =>
      simp only [List.getElem?_cons_zero, Option.some.injEq] at h
      subst h
      rw [playTiles_untouched work ok (k + 0) _ _ (fun it hit => by
        have := List.le_fst_of_mem_enumFrom hit
        omega)]
      simp only [Nat.add_zero]
      split_ifs
      · exact Function.update_same _ _ _
      · rfl
    | succ j =>
      rw [List.getElem?_cons_succ] at h
      have e : k + (j + 1) = k + 1 + j := by omega
      rw [e, ih (k + 1) j t _ h]
      have hne : k + 1 + j ≠ k := by omega
      have hsame : (if ok k = true then Function.update tp k (work k a (tp k)) else tp)
          (k + 1 + j) = tp (k + 1 + j) := by
        split_ifs
        · exact Function.update_noteq hne _ _
        · rfl
      rw [hsame]

theorem playTiles_enum_at (work : Nat → SkCanvas → SkBitmap → SkBitmap) (ok : Nat → Bool)
    (tiles : List SkCanvas) (i : Nat) (t : SkCanvas) (tp : Nat → SkBitmap)
    (h : tiles[i]? = some t) :
    playTiles work ok tiles.enum tp i = if ok i then work i t (tp i) else tp i := by
  have := playTiles_at work ok tiles 0 i t tp h
  simpa [List.enum] using this

theorem playTiles_enum_beyond (work : Nat → SkCanvas → SkBitmap → SkBitmap) (ok : Nat → Bool)
    (tiles : List SkCanvas) (i : Nat) (tp : Nat → SkBitmap) (h : tiles.length ≤ i) :
    playTiles work ok tiles.enum tp i = tp i :=
  playTiles_untouched work ok i _ _ (fun it hit => by
    have := List.fst_lt_of_mem_enum hit
    omega)

theorem playTiles_congr (work work' : Nat → SkCanvas → SkBitmap → SkBitmap)
    (ok ok' : Nat → Bool) : ∀ (l : List (Nat × SkCanvas)) (tp : Nat → SkBitmap),
      (∀ it ∈ l, ok it.1 = ok' it.1) → (∀ it ∈ l, work it.1 it.2 = work' it.1 it.2) →
      playTiles work ok l tp = playTiles work' ok' l tp := by
  intro l
  induction l with
  | nil => intro tp _ _; rfl
  | cons a l ih =>
    intro tp h1 h2
    obtain ⟨i, t⟩ := a
    rw [playTiles, playTiles, h1 (i, t) (List.mem_cons_self _ _)]
    have hw : work i t = work' i t := h2 (i, t) (List.mem_cons_self _ _)
    rw [hw]
    exact ih _ (fun it hit => h1 it (List.mem_cons_of_mem _ hit))
      (fun it hit => h2 it (List.mem_cons_of_mem _ hit))

theorem drawTiles_multi_eq (env : Collaborators) (r : TiledPictureRenderer) (p : SkPicture)
    (hm : r.fMultiThreaded = true) (hp : r.fPicture = some p) (s : RenderState) :
    drawTiles env r s = some
      { tilePixels := playTiles (workerPlayback env r p) env.threadStart r.fTiles.enum
          s.tilePixels
        canvasPixels := s.canvasPixels
        trace := s.trace ++
          [if r.fUsePipe then RenderEvent.recordPipe
            else RenderEvent.clonePicture r.fTiles.length] ++
          spawnEvents env (!r.fUsePipe) r.fTiles.length ++ joinEvents r.fTiles.length } := by
  unfold drawTiles
  rw [if_pos hm]
  simp only [hp]
  have hj := flatMap_enum_fst
    (fun i => [RenderEvent.join i, RenderEvent.deleteWorker i]) r.fTiles
  cases hu : r.fUsePipe
  · have hs := flatMap_enum_fst (fun i =>
      [RenderEvent.newWorker i i (some i), RenderEvent.start i (env.threadStart i)]) r.fTiles
    simp [joinWorkers_eq, startWorkers_eq, RenderState.log, workerPlayback, hu, spawnEvents,
      joinEvents, List.append_assoc, hj, hs]
  · have hs := flatMap_enum_fst (fun i =>
      [RenderEvent.newWorker i i none, RenderEvent.start i (env.threadStart i)]) r.fTiles
    simp [joinWorkers_eq, startWorkers_eq, RenderState.log, workerPlayback, hu, spawnEvents,
      joinEvents, List.append_assoc, hj, hs]

theorem drawTiles_single_eq (env : Collaborators) (r : TiledPictureRenderer) (p : SkPicture)
    (hm : r.fMultiThreaded = false) (hp : r.fPicture = some p) (s : RenderState) :
    drawTiles env r s = some
      { tilePixels := playTiles (fun _ => env.drawPicture p) (fun _ => true) r.fTiles.enum
          s.tilePixels
        canvasPixels := s.canvasPixels
        trace := s.trace ++ replayEvents r.fTiles.length } := by
  unfold drawTiles
  have hd := flatMap_enum_fst
    (fun i => [RenderEvent.drawPicture i, RenderEvent.flush i]) r.fTiles
  rw [if_neg (by simp [hm]), drawTilesLoop_eq env r p hp]
  simp [replayEvents, hd]

theorem render_eq (debug : Bool) (env : Collaborators) (r : TiledPictureRenderer)
    (p : SkPicture) (c : SkCanvas) (hp : r.fPicture = some p) (hc : r.fCanvas = some c)
    (s s1 : RenderState) (h1 : drawTiles env r s = some s1) :
    render debug env r true s =
        some ((copyTilesLoop env c r.fTiles.enum s1).log [RenderEvent.flushCanvas]) ∧
      render debug env r false s = some s1 := by
  constructor
  · unfold render
    rw [if_neg (by simp [hp, hc]), h1]
    simp [copyTilesToCanvas_eq env r c hc]
  · unfold render
    rw [if_neg (by simp [hp, hc]), h1]
    simp

theorem copyTilesLoop_pixels_congr (env : Collaborators) (c : SkCanvas) :
    ∀ (l : List (Nat × SkCanvas)) (sa sb : RenderState),
      sa.tilePixels = sb.tilePixels → sa.canvasPixels = sb.canvasPixels →
      (copyTilesLoop env c l sa).canvasPixels = (copyTilesLoop env c l sb).canvasPixels := by
  intro l
  induction l with
  | nil => intro sa sb _ h; exact h
  | cons a l ih =>
    intro sa sb ht hcv
    obtain ⟨i, t⟩ := a
    rw [copyTilesLoop, copyTilesLoop]
    apply ih
    · exact ht
    · simp only [copyTile, ht, hcv]

theorem log2_eq_of_bounds (x : ℚ) (e : Int) (hx : 0 < x) (h1 : (2 : ℚ) ^ e ≤ x)
    (h2 : x < (2 : ℚ) ^ (e + 1)) : Int.log 2 x = e := by
  have ha : e ≤ Int.log 2 x := by
    have := (Int.zpow_le_iff_le_log (b := 2) (by norm_num) (x := e) hx).mp (by exact_mod_cast h1)
    exact this
  have hb : Int.log 2 x < e + 1 := by
    have := (Int.lt_zpow_iff_log_lt (b := 2) (by norm_num) (x := e + 1) hx).mp
      (by exact_mod_cast h2)
    exact this
  omega

theorem roundHalfEven_intCast (n : Int) : roundHalfEven (n : ℚ) = n := by
  unfold roundHalfEven
  simp

theorem roundBinary_of_bounds (p : Nat) (emin : Int) (x : ℚ) (e : Int) (hx : x ≠ 0)
    (hmin : emin ≤ e) (h1 : (2 : ℚ) ^ e ≤ |x|) (h2 : |x| < (2 : ℚ) ^ (e + 1)) :
    roundBinary p emin x =
      (roundHalfEven (x / (2 : ℚ) ^ (e - (p : Int) + 1)) : ℚ) * (2 : ℚ) ^ (e - (p : Int) + 1) := by
  unfold roundBinary
  rw [if_neg hx, log2_eq_of_bounds |x| e (abs_pos.mpr hx) h1 h2, max_eq_left hmin]

theorem roundHalfEven_mul_zpow (n s : Int) (d : Nat) :
    (roundHalfEven ((n : ℚ) * (2 : ℚ) ^ (s + (d : Int)) / (2 : ℚ) ^ s) : ℚ) * (2 : ℚ) ^ s =
      (n : ℚ) * (2 : ℚ) ^ (s + (d : Int)) := by
  have h2 : (2 : ℚ) ^ s ≠ 0 := zpow_ne_zero s (by norm_num)
  have hq : (n : ℚ) * (2 : ℚ) ^ (s + (d : Int)) / (2 : ℚ) ^ s = ((n * 2 ^ d : Int) : ℚ) := by
    rw [zpow_add₀ (by norm_num : (2 : ℚ) ≠ 0), zpow_natCast]
    push_cast
    field_simp
    ring
  rw [hq, roundHalfEven_intCast, zpow_add₀ (by norm_num : (2 : ℚ) ≠ 0), zpow_natCast]
  push_cast
  ring

theorem roundBinary_of_representable (p : Nat) (emin : Int) (x : ℚ)
    (h : representable p emin x) : roundBinary p emin x = x := by
  obtain ⟨n, k, hn, hk, rfl⟩ := h
  unfold roundBinary
  by_cases hx : (n : ℚ) * (2 : ℚ) ^ k = 0
  · rw [if_pos hx, hx]
  · rw [if_neg hx]
    have h2pos : ∀ z : Int, (0 : ℚ) < (2 : ℚ) ^ z := fun z => zpow_pos (by norm_num) z
    have habs : |(n : ℚ) * (2 : ℚ) ^ k| < (2 : ℚ) ^ ((p : Int) + k) := by
      rw [abs_mul, abs_of_pos (h2pos k), zpow_add₀ (by norm_num : (2 : ℚ) ≠ 0)]
      apply mul_lt_mul_of_pos_right _ (h2pos k)
      have : ((|n| : Int) : ℚ) < ((2 ^ p : Int) : ℚ) := by exact_mod_cast hn
      rw [zpow_natCast]
      push_cast at this
      simpa using this
    have hlog : Int.log 2 |(n : ℚ) * (2 : ℚ) ^ k| < (p : Int) + k :=
      (Int.lt_zpow_iff_log_lt (b := 2) (by norm_num) (abs_pos.mpr hx)).mp
        (by exact_mod_cast habs)
    have hs : max (Int.log 2 |(n : ℚ) * (2 : ℚ) ^ k|) emin - (p : Int) + 1 ≤ k := by
      rcases max_cases (Int.log 2 |(n : ℚ) * (2 : ℚ) ^ k|) emin with ⟨h, _⟩ | ⟨h, _⟩ <;>
        rw [h] <;> omega
    generalize max (Int.log 2 |(n : ℚ) * (2 : ℚ) ^ k|) emin - (p : Int) + 1 = s at hs ⊢
    obtain ⟨d, rfl⟩ : ∃ d : Nat, k = s + (d : Int) := ⟨(k - s).toNat, by omega⟩
    exact roundHalfEven_mul_zpow n s d

theorem representable_float_double (x : ℚ) (h : representable 24 (-126) x) :
    representable 53 (-1022) x := by
  obtain ⟨n, k, hn, hk, rfl⟩ := h
  refine ⟨n, k, lt_of_lt_of_le hn (by norm_num), ?_, rfl⟩
  push_cast at hk ⊢
  omega

theorem percentOfSize_exact (percent : ℚ) (size : Int)
    (hprod : representable 53 (-1022) (percent * (size : ℚ)))
    (hquot : representable 24 (-126) (percent * (size : ℚ) / 100)) :
    percentOfSize percent size = percent * (size : ℚ) / 100 := by
  unfold percentOfSize toFloat toDouble
  rw [roundBinary_of_representable _ _ _ hprod,
    roundBinary_of_representable _ _ _ (representable_float_double _ hquot),
    roundBinary_of_representable _ _ _ hquot]

theorem percentOfSize_100_16777217 : percentOfSize 100 16777217 = 16777216 := by
  have h1 : toDouble ((100 : ℚ) * ((16777217 : Int) : ℚ)) = 1677721700 := by
    have hr : representable 53 (-1022) ((100 : ℚ) * ((16777217 : Int) : ℚ)) :=
      ⟨1677721700, 0, by norm_num, by norm_num, by norm_num⟩
    unfold toDouble
    rw [roundBinary_of_representable _ _ _ hr]
    norm_num
  have h2 : toDouble ((1677721700 : ℚ) / 100) = 16777217 := by
    have hr : representable 53 (-1022) ((1677721700 : ℚ) / 100) :=
      ⟨16777217, 0, by norm_num, by norm_num, by norm_num⟩
    unfold toDouble
    rw [roundBinary_of_representable _ _ _ hr]
    norm_num
  have hf : ⌊((16777217 : ℚ) / 2)⌋ = 8388608 := by
    rw [Int.floor_eq_iff]
    norm_num
  have hh : roundHalfEven ((16777217 : ℚ) / 2) = 8388608 := by
    unfold roundHalfEven
    rw [hf]
    norm_num
  have h3 : toFloat (16777217 : ℚ) = 16777216 := by
    unfold toFloat
    rw [roundBinary_of_bounds 24 (-126) 16777217 24 (by norm_num) (by norm_num)
      (by norm_num) (by norm_num)]
    norm_num
    rw [hh]
    norm_num
  unfold percentOfSize
  rw [h1, h2, h3]

/-! ## Tile size and the end of a render pass -/

theorem init_idle_eq (debug : Bool) (fuel : Nat) (r : TiledPictureRenderer) (pict : SkPicture)
    (hP : r.fPicture = none) (hC : r.fCanvas = none) (hT : r.fTiles = []) :
    init debug fuel r (some pict) = planTiles fuel (r.sized pict) := by
  have h1 : PictureRenderer.init debug r (some pict) = some { r with
      fPicture := some pict, fCanvas := some (setupCanvas pict.width pict.height) } := by
    simp [PictureRenderer.init, hP, hC]
  unfold init
  rw [if_neg (by simp [hT]), h1]
  unfold TiledPictureRenderer.sized
  by_cases hw : r.fTileWidthPercentage > 0 <;> by_cases hh : r.fTileHeightPercentage > 0 <;>
    simp [applyTileWidthPercentage, applyTileHeightPercentage, percentOfSize, hw, hh]

theorem percentOfSize_50_601 : percentOfSize 50 601 = 601 / 2 := by
  rw [percentOfSize_exact 50 601 ⟨30050, 0, by norm_num, by norm_num, by norm_num⟩
    ⟨601, -1, by norm_num, by norm_num, by norm_num⟩]
  norm_num

/-- C21, counterexample: a fresh renderer with the width percentage 100 and a picture of
width 16777217.  The product `100 * 16777217` and the quotient `16777217` are exact in
`double`, but `float(16777217)` is `16777216`, the nearest single-precision value, so
`init` plans with the tile width 16777216, which is below `p * W / 100 = 16777217`, and
emits two tiles per row where the smallest integer not below `p * W / 100` would give
one. -/
theorem init_tile_size_float_rounding :
    percentOfSize 100 16777217 = 16777216 ∧
    (TiledPictureRenderer.sized { TiledPictureRenderer.create with fTileWidthPercentage := 100 }
      ⟨16777217, 1⟩).fTileWidth = 16777216 ∧
    ¬ ((100 : ℚ) * ((16777217 : Int) : ℚ) / 100 ≤ ((16777216 : Int) : ℚ)) ∧
    (init true 4 { TiledPictureRenderer.create with fTileWidthPercentage := 100 }
      (some ⟨16777217, 1⟩)).map (fun r => r.fTiles.map SkCanvas.rect) =
      some [⟨0, 0, 16777216, 256⟩, ⟨16777216, 0, 16777216, 256⟩] := by
  have hw : (TiledPictureRenderer.sized
      { TiledPictureRenderer.create with fTileWidthPercentage := 100 }
      ⟨16777217, 1⟩).fTileWidth = 16777216 := by
    show (if (100 : ℚ) > 0 then sk_float_ceil2int (percentOfSize 100 16777217)
      else kDefaultTileWidth) = 16777216
    rw [if_pos (by norm_num), percentOfSize_100_16777217]
    unfold sk_float_ceil2int
    norm_num
  have hs : TiledPictureRenderer.sized
      { TiledPictureRenderer.create with fTileWidthPercentage := 100 } ⟨16777217, 1⟩ =
      { planningState 16777217 1 16777216 256 0 with fTileWidthPercentage := 100 } := by
    have hh : (TiledPictureRenderer.sized
        { TiledPictureRenderer.create with fTileWidthPercentage := 100 }
        ⟨16777217, 1⟩).fTileHeight = 256 := by
      show (if (0 : ℚ) > 0 then sk_float_ceil2int (percentOfSize 0 1)
        else kDefaultTileHeight) = 256
      rw [if_neg (by norm_num)]
      rfl
    unfold TiledPictureRenderer.sized at hw hh ⊢
    simp only [planningState, TiledPictureRenderer.create] at hw hh ⊢
    rw [hw, hh]
  refine ⟨percentOfSize_100_16777217, hw, by norm_num, ?_⟩
  rw [init_idle_eq true 4 _ ⟨16777217, 1⟩ rfl rfl rfl, hs]
  decide

/-- C21, amended: tile size selection in `init`.  A freshly constructed renderer has the
tile size 256 by 256 and plans with it.  On an idle renderer `init` with a picture plans
with the state `r.sized pict`.  When the width percentage `p` is positive and the
rounded-up value is in the range of `int`, the tile width of that state is the smallest
integer not below the single-precision value of `p * W / 100` (the product and the
quotient computed in `double`, the quotient converted to `float`); it is the smallest
integer not below `p * W / 100` itself when the product is a `double` and the quotient is
a `float`.  The same holds for the tile height with the height percentage `q` and
`q * H / 100`.  A percentage that is not positive leaves the tile dimension as it was. -/
theorem init_tile_size (debug : Bool) (fuel : Nat) (r : TiledPictureRenderer)
    (pict : SkPicture) (hP : r.fPicture = none) (hC : r.fCanvas = none) (hT : r.fTiles = []) :
    (TiledPictureRenderer.create.fTileWidth = 256 ∧
      TiledPictureRenderer.create.fTileHeight = 256 ∧
      (TiledPictureRenderer.create.sized pict).fTileWidth = 256 ∧
      (TiledPictureRenderer.create.sized pict).fTileHeight = 256) ∧
    init debug fuel r (some pict) = planTiles fuel (r.sized pict) ∧
    (0 < r.fTileWidthPercentage →
      -2147483648 ≤ ⌈percentOfSize r.fTileWidthPercentage pict.width⌉ →
      ⌈percentOfSize r.fTileWidthPercentage pict.width⌉ ≤ INT_MAX →
      (percentOfSize r.fTileWidthPercentage pict.width ≤ ((r.sized pict).fTileWidth : ℚ) ∧
        ∀ z : Int, percentOfSize r.fTileWidthPercentage pict.width ≤ (z : ℚ) →
          (r.sized pict).fTileWidth ≤ z) ∧
      (representable 53 (-1022) (r.fTileWidthPercentage * (pict.width : ℚ)) →
        representable 24 (-126) (r.fTileWidthPercentage * (pict.width : ℚ) / 100) →
        r.fTileWidthPercentage * (pict.width : ℚ) / 100 ≤ ((r.sized pict).fTileWidth : ℚ) ∧
        ∀ z : Int, r.fTileWidthPercentage * (pict.width : ℚ) / 100 ≤ (z : ℚ) →
          (r.sized pict).fTileWidth ≤ z)) ∧
    (0 < r.fTileHeightPercentage →
      -2147483648 ≤ ⌈percentOfSize r.fTileHeightPercentage pict.height⌉ →
      ⌈percentOfSize r.fTileHeightPercentage pict.height⌉ ≤ INT_MAX →
      (percentOfSize r.fTileHeightPercentage pict.height ≤ ((r.sized pict).fTileHeight : ℚ) ∧
        ∀ z : Int, percentOfSize r.fTileHeightPercentage pict.height ≤ (z : ℚ) →
          (r.sized pict).fTileHeight ≤ z) ∧
      (representable 53 (-1022) (r.fTileHeightPercentage * (pict.height : ℚ)) →
        representable 24 (-126) (r.fTileHeightPercentage * (pict.height : ℚ) / 100) →
        r.fTileHeightPercentage * (pict.height : ℚ) / 100 ≤ ((r.sized pict).fTileHeight : ℚ) ∧
        ∀ z : Int, r.fTileHeightPercentage * (pict.height : ℚ) / 100 ≤ (z : ℚ) →
          (r.sized pict).fTileHeight ≤ z)) ∧
    (r.fTileWidthPercentage ≤ 0 → (r.sized pict).fTileWidth = r.fTileWidth) ∧
    (r.fTileHeightPercentage ≤ 0 → (r.sized pict).fTileHeight = r.fTileHeight) := by
  refine ⟨⟨rfl, rfl, ?_, ?_⟩, init_idle_eq debug fuel r pict hP hC hT, ?_, ?_, ?_, ?_⟩
  · simp [TiledPictureRenderer.sized, TiledPictureRenderer.create, kDefaultTileWidth]
  · simp [TiledPictureRenderer.sized, TiledPictureRenderer.create, kDefaultTileHeight]
  · intro h _ _
    have hw : r.fTileWidthPercentage > 0 := h
    simp only [TiledPictureRenderer.sized, hw, if_true, sk_float_ceil2int]
    refine ⟨⟨Int.le_ceil _, fun z hz => Int.ceil_le.mpr hz⟩, ?_⟩
    intro h1 h2
    rw [percentOfSize_exact _ _ h1 h2]
    exact ⟨Int.le_ceil _, fun z hz => Int.ceil_le.mpr hz⟩
  · intro h _ _
    have hh : r.fTileHeightPercentage > 0 := h
    simp only [TiledPictureRenderer.sized, hh, if_true, sk_float_ceil2int]
    refine ⟨⟨Int.le_ceil _, fun z hz => Int.ceil_le.mpr hz⟩, ?_⟩
    intro h1 h2
    rw [percentOfSize_exact _ _ h1 h2]
    exact ⟨Int.le_ceil _, fun z hz => Int.ceil_le.mpr hz⟩
  · intro h
    have hw : ¬ r.fTileWidthPercentage > 0 := not_lt.mpr h
    simp only [TiledPictureRenderer.sized, hw, if_false]
  · intro h
    have hh : ¬ r.fTileHeightPercentage > 0 := not_lt.mpr h
    simp only [TiledPictureRenderer.sized, hh, if_false]

theorem init_tile_size_witness :
    init true 8 { TiledPictureRenderer.create with fTileWidthPercentage := 50 }
        (some ⟨601, 500⟩) =
      planTiles 8 (TiledPictureRenderer.sized
        { TiledPictureRenderer.create with fTileWidthPercentage := 50 } ⟨601, 500⟩) ∧
    ((50 : ℚ) * ((601 : Int) : ℚ) / 100 ≤ (((TiledPictureRenderer.sized
        { TiledPictureRenderer.create with fTileWidthPercentage := 50 }
        ⟨601, 500⟩).fTileWidth : Int) : ℚ) ∧
      ∀ z : Int, (50 : ℚ) * ((601 : Int) : ℚ) / 100 ≤ (z : ℚ) →
        (TiledPictureRenderer.sized
          { TiledPictureRenderer.create with fTileWidthPercentage := 50 }
          ⟨601, 500⟩).fTileWidth ≤ z) ∧
    (TiledPictureRenderer.sized { TiledPictureRenderer.create with fTileWidthPercentage := 50 }
      ⟨601, 500⟩).fTileHeight = 256 :=
  have h := init_tile_size true 8
    { TiledPictureRenderer.create with fTileWidthPercentage := 50 } ⟨601, 500⟩ rfl rfl rfl
  have hc : ⌈percentOfSize 50 601⌉ = 301 := by
    rw [percentOfSize_50_601, Int.ceil_eq_iff]
    norm_num
  ⟨h.2.1,
    (h.2.2.1 (by decide) (by rw [hc]; decide) (by rw [hc]; decide)).2
      ⟨30050, 0, by norm_num, by norm_num, by norm_num⟩
      ⟨601, -1, by norm_num, by norm_num, by norm_num⟩,
    h.2.2.2.2.2 (by decide)⟩

theorem end_fields (r : TiledPictureRenderer) :
    (TiledPictureRenderer.end r).fTiles = [] ∧ (TiledPictureRenderer.end r).fPicture = none ∧
    (TiledPictureRenderer.end r).fCanvas = none ∧
    (TiledPictureRenderer.end r).fTileWidth = r.fTileWidth ∧
    (TiledPictureRenderer.end r).fTileHeight = r.fTileHeight ∧
    (TiledPictureRenderer.end r).fTileMinPowerOf2Width = r.fTileMinPowerOf2Width ∧
    (TiledPictureRenderer.end r).fTileWidthPercentage = r.fTileWidthPercentage ∧
    (TiledPictureRenderer.end r).fTileHeightPercentage = r.fTileHeightPercentage :=
  ⟨rfl, rfl, rfl, rfl, rfl, rfl, rfl, rfl⟩

end sk_tools

namespace skia

/-! ## Two-point radial gradient: degenerate configurations -/

theorem init_eq {K : Type} [LinearOrderedField K] (g : SkTwoPointRadialGradient K) :
    g.init = some g.derived := by
  unfold SkTwoPointRadialGradient.init SkTwoPointRadialGradient.derived guardedInvert
  by_cases h : g.fRadius2 - g.fRadius1 = 0
  · simp [SkScalarInvert, h]
  · simp only [SkScalarInvert, h, if_false, ne_eq, not_false_eq_true, if_true]
    split_ifs <;> simp_all

theorem create_eq {K : Type} [LinearOrderedField K] (base : SkGradientShaderBase K)
    (start : SkPoint K) (startRadius : K) (finish : SkPoint K) (endRadius : K) :
    ∃ g, SkTwoPointRadialGradient.create base start startRadius finish endRadius = some g ∧
      g.base = base ∧ g.fCenter1 = start ∧ g.fCenter2 = finish ∧
      g.fRadius1 = startRadius ∧ g.fRadius2 = endRadius ∧
      g.fDiffRadius = endRadius - startRadius :=
  ⟨_, init_eq _, rfl, rfl, rfl, rfl, rfl, rfl⟩

/-- C23: for a gradient whose radii are equal, that is whose `fDiffRadius` is zero,
`shadeSpan` writes the value 0 to each of the `count` destination pixels, for every `x`,
`y` and `count > 0`, in a debug build as in a release build, whatever the library, the
base class (colours, tile mode, matrix) and the other members of the gradient are: the
branch returns before the coefficients of the quadratic are formed. -/
theorem shadeSpan_equal_radii {K : Type} [LinearOrderedField K] (debug : Bool)
    (lib : Library K) (g : SkTwoPointRadialGradient K) (x y count : Int)
    (hr : g.fDiffRadius = 0) (hc : 0 < count) :
    g.shadeSpan debug lib x y count = some (List.replicate count.toNat 0) ∧
    (List.replicate count.toNat (0 : SkPMColor)).length = count.toNat ∧
    ((count.toNat : Nat) : Int) = count := by
  refine ⟨?_, List.length_replicate _ _, Int.toNat_of_nonneg (le_of_lt hc)⟩
  unfold SkTwoPointRadialGradient.shadeSpan
  rw [if_neg (by simp [hc]), if_pos hr, if_neg (not_lt.mpr (le_of_lt hc))]

theorem shadeSpan_equal_radii_witness :
    (exampleGradient ⟨0, 0⟩ 5 ⟨3, 4⟩ 5).shadeSpan true exampleLibrary 3 7 4 =
      some (List.replicate (4 : Int).toNat 0) ∧
    (List.replicate (4 : Int).toNat (0 : SkPMColor)).length = (4 : Int).toNat ∧
    (((4 : Int).toNat : Nat) : Int) = 4 :=
  shadeSpan_equal_radii true exampleLibrary (exampleGradient ⟨0, 0⟩ 5 ⟨3, 4⟩ 5) 3 7 4
    (sub_self (5 : ℚ)) (by decide)

theorem two_point_radial_eq_none_iff {K : Type} [LinearOrderedField K] (lib : Library K)
    (b fx fy sr2d2 foura oneOverTwoA : K) (posRoot : Bool) :
    two_point_radial lib b fx fy sr2d2 foura oneOverTwoA posRoot = none ↔
      foura = 0 ∧ b = 0 := by
  unfold two_point_radial two_point_radial_scalar SkScalarDiv
  by_cases ha : 0 = foura
  · by_cases hb : b = 0
    · simp [ha.symm, hb]
    · simp [ha.symm, hb]
  · have ha' : foura ≠ 0 := fun h => ha h.symm
    cases posRoot <;> simp [ha, ha']

theorem asABitmap_isSome {K : Type} [LinearOrderedField K] (lib : Library K)
    (g : SkTwoPointRadialGradient K) (matrix : Option (SkMatrix K)) (xy : Bool) :
    (g.asABitmap lib matrix xy).isSome = true := by
  unfold SkTwoPointRadialGradient.asABitmap SkScalarInvert
  cases matrix with
  | none => rfl
  | some m =>
    by_cases h : lib.SkScalarSqrt (g.fDiff.fX * g.fDiff.fX + g.fDiff.fY * g.fDiff.fY) = 0
    · simp [h]
    · simp [h]

/-- C24, failing input: the gradient from the circle of centre `(1/2, 1/2)` and radius 0
to the circle of centre `(3/2, 1/2)` and radius 1, drawn with the identity as device
matrix.  The constructor returns it, its radii differ and its quadratic coefficient `fA`
is zero.  The centre of the pixel `(0, 0)` maps to the point `(0, 0)` of gradient space,
where the linear coefficient `b` is zero as well, so `two_point_radial` takes the branch
`0 == foura` and evaluates `SkScalarDiv(-c, b)` with the divisor zero: `shadeSpan` has no
result for the span of that single pixel, in a debug build and in a release build. -/
theorem two_point_radial_zero_divisor :
    SkTwoPointRadialGradient.create tangentGradient.base ⟨1 / 2, 1 / 2⟩ 0 ⟨3 / 2, 1 / 2⟩ 1 =
      some tangentGradient ∧
    tangentGradient.base.fDstToIndex = tangentGradient.fPtsToUnit ∧
    tangentGradient.fDiffRadius = 1 ∧ tangentGradient.fA = 0 ∧
    tangentGradient.spanStart 0 0 = ⟨0, 0⟩ ∧ tangentGradient.spanB 0 0 = 0 ∧
    two_point_radial exampleLibrary (tangentGradient.spanB 0 0) 0 0 tangentGradient.fSr2D2
      (tangentGradient.fA * 4) tangentGradient.fOneOverTwoA
      (decide (tangentGradient.fDiffRadius < 0)) = none ∧
    tangentGradient.shadeSpan true exampleLibrary 0 0 1 = none ∧
    tangentGradient.shadeSpan false exampleLibrary 0 0 1 = none := by
  have hD : tangentGradient.fDiffRadius = 1 := by
    norm_num [tangentGradient, exampleGradient, SkTwoPointRadialGradient.derived]
  have hA : tangentGradient.fA = 0 := by
    norm_num [tangentGradient, exampleGradient, SkTwoPointRadialGradient.derived,
      guardedInvert]
  have hS : tangentGradient.spanStart 0 0 = ⟨0, 0⟩ := by
    norm_num [tangentGradient, exampleGradient, SkTwoPointRadialGradient.derived,
      guardedInvert, SkTwoPointRadialGradient.spanStart, exampleBase, SkMatrix.mapXY,
      SkMatrix.postScale, SkMatrix.setTranslate]
  have hB : tangentGradient.spanB 0 0 = 0 := by
    norm_num [tangentGradient, exampleGradient, SkTwoPointRadialGradient.derived,
      guardedInvert, SkTwoPointRadialGradient.spanB]
  have hT : two_point_radial exampleLibrary (tangentGradient.spanB 0 0) 0 0
      tangentGradient.fSr2D2 (tangentGradient.fA * 4) tangentGradient.fOneOverTwoA
      (decide (tangentGradient.fDiffRadius < 0)) = none :=
    (two_point_radial_eq_none_iff _ _ _ _ _ _ _ _).mpr ⟨by rw [hA]; norm_num, hB⟩
  have hspan : ∀ debug : Bool, tangentGradient.shadeSpan debug exampleLibrary 0 0 1 = none := by
    intro debug
    have hstart : tangentGradient.base.fDstToIndexProc tangentGradient.base.fDstToIndex
        (((0 : Int) : ℚ) + 1 / 2) (((0 : Int) : ℚ) + 1 / 2) = ⟨0, 0⟩ := hS
    have hmode : tangentGradient.base.fTileMode = TileMode.kClamp_TileMode := rfl
    have hclass : tangentGradient.base.fDstToIndexClass = MatrixClass.kLinear_MatrixClass := rfl
    unfold SkTwoPointRadialGradient.shadeSpan
    rw [if_neg (by simp), if_neg (by rw [hD]; norm_num)]
    simp only [hclass, hmode, hstart, ne_eq, reduceCtorEq, not_false_eq_true, if_true, if_false]
    unfold shadeSpan_twopoint_clamp
    have h1 : (1 : Int).toNat = 0 + 1 := rfl
    rw [h1]
    unfold shadeSpan_twopoint shadePixel
    rw [hT]
  refine ⟨?_, ?_, hD, hA, hS, hB, hT, hspan true, hspan false⟩
  · exact init_eq _
  · norm_num [tangentGradient, exampleGradient, SkTwoPointRadialGradient.derived, exampleBase]

/-! ## Two-point radial gradient: the quadratic -/

theorem two_point_radial_scalar_quadratic {K : Type} [LinearOrderedField K] (sqrt : K → K)
    (a b fx fy sr2d2 : K) (posRoot : Bool) (ha : a ≠ 0)
    (hd : 0 ≤ b * b - 4 * a * (fx * fx + fy * fy - sr2d2))
    (hs : sqrt (b * b - 4 * a * (fx * fx + fy * fy - sr2d2)) *
      sqrt (b * b - 4 * a * (fx * fx + fy * fy - sr2d2)) =
      b * b - 4 * a * (fx * fx + fy * fy - sr2d2)) :
    two_point_radial_scalar sqrt b fx fy sr2d2 (4 * a) (1 / (2 * a)) posRoot =
      some (if posRoot then
        (-b + sqrt (b * b - 4 * a * (fx * fx + fy * fy - sr2d2))) / (2 * a)
        else (-b - sqrt (b * b - 4 * a * (fx * fx + fy * fy - sr2d2))) / (2 * a)) ∧
    a * (if posRoot then
        (-b + sqrt (b * b - 4 * a * (fx * fx + fy * fy - sr2d2))) / (2 * a)
        else (-b - sqrt (b * b - 4 * a * (fx * fx + fy * fy - sr2d2))) / (2 * a)) ^ 2 +
      b * (if posRoot then
        (-b + sqrt (b * b - 4 * a * (fx * fx + fy * fy - sr2d2))) / (2 * a)
        else (-b - sqrt (b * b - 4 * a * (fx * fx + fy * fy - sr2d2))) / (2 * a)) +
      (fx * fx + fy * fy - sr2d2) = 0 := by
  have h4 : (0 : K) ≠ 4 * a := fun h => ha (by
    have : (4 : K) * a = 0 := h.symm
    rcases mul_eq_zero.mp this with h' | h'
    · exact absurd h' (by norm_num)
    · exact h')
  have hnd : ¬ b * b - 4 * a * (fx * fx + fy * fy - sr2d2) < 0 := not_lt.mpr hd
  constructor
  · unfold two_point_radial_scalar
    simp only [if_neg h4, if_neg hnd]
    cases posRoot <;> simp [div_eq_mul_inv]
  · set s := sqrt (b * b - 4 * a * (fx * fx + fy * fy - sr2d2)) with hsdef
    cases posRoot
    · simp only [Bool.false_eq_true, if_false]
      have key : a * ((-b - s) / (2 * a)) ^ 2 + b * ((-b - s) / (2 * a)) +
          (fx * fx + fy * fy - sr2d2) =
          (s * s - (b * b - 4 * a * (fx * fx + fy * fy - sr2d2))) / (4 * a) := by
        field_simp
        ring
      rw [key, hs, sub_self, zero_div]
    · simp only [if_true]
      have key : a * ((-b + s) / (2 * a)) ^ 2 + b * ((-b + s) / (2 * a)) +
          (fx * fx + fy * fy - sr2d2) =
          (s * s - (b * b - 4 * a * (fx * fx + fy * fy - sr2d2))) / (4 * a) := by
        field_simp
        ring
      rw [key, hs, sub_self, zero_div]

/-- C25: over exact real arithmetic, with the real square root, the value that
`two_point_radial` computes before the fixed-point conversion is a root of the quadratic.
With `c = fx ^ 2 + fy ^ 2 - sr2d2`: for `a ≠ 0`, `foura = 4 * a`, `oneOverTwoA = 1 / (2 *
a)` and `b ^ 2 - 4 * a * c ≥ 0` the function returns, its value `t` is `(-b + sqrt (b ^ 2
- 4 * a * c)) / (2 * a)` when `posRoot` is true and `(-b - sqrt (b ^ 2 - 4 * a * c)) / (2
* a)` when it is false, and `a * t ^ 2 + b * t + c = 0`; for `foura = 0` and `b ≠ 0` the
function returns, its value is `t = -c / b`, and `b * t + c = 0`.  In both cases
`two_point_radial` returns `SkScalarToFixed` of that value. -/
theorem two_point_radial_root (a b fx fy sr2d2 o : ℝ) (posRoot : Bool) (lib : Library ℝ)
    (hlib : lib.SkScalarSqrt = Real.sqrt) :
    (a ≠ 0 → 0 ≤ b ^ 2 - 4 * a * (fx ^ 2 + fy ^ 2 - sr2d2) →
      ∃ t : ℝ, two_point_radial_scalar Real.sqrt b fx fy sr2d2 (4 * a) (1 / (2 * a)) posRoot =
          some t ∧
        two_point_radial lib b fx fy sr2d2 (4 * a) (1 / (2 * a)) posRoot =
          some (lib.SkScalarToFixed t) ∧
        t = (if posRoot then
          (-b + Real.sqrt (b ^ 2 - 4 * a * (fx ^ 2 + fy ^ 2 - sr2d2))) / (2 * a)
          else (-b - Real.sqrt (b ^ 2 - 4 * a * (fx ^ 2 + fy ^ 2 - sr2d2))) / (2 * a)) ∧
        a * t ^ 2 + b * t + (fx ^ 2 + fy ^ 2 - sr2d2) = 0) ∧
    (b ≠ 0 →
      two_point_radial_scalar Real.sqrt b fx fy sr2d2 0 o posRoot =
          some (-(fx ^ 2 + fy ^ 2 - sr2d2) / b) ∧
        two_point_radial lib b fx fy sr2d2 0 o posRoot =
          some (lib.SkScalarToFixed (-(fx ^ 2 + fy ^ 2 - sr2d2) / b)) ∧
        b * (-(fx ^ 2 + fy ^ 2 - sr2d2) / b) + (fx ^ 2 + fy ^ 2 - sr2d2) = 0) := by
  have hx : fx ^ 2 = fx * fx := sq fx
  have hy : fy ^ 2 = fy * fy := sq fy
  have hb2 : b ^ 2 = b * b := sq b
  constructor
  · intro ha hd
    rw [hx, hy, hb2] at hd ⊢
    have h := two_point_radial_scalar_quadratic Real.sqrt a b fx fy sr2d2 posRoot ha hd
      (Real.mul_self_sqrt hd)
    refine ⟨_, h.1, ?_, rfl, h.2⟩
    unfold two_point_radial
    rw [hlib, h.1]
    rfl
  · intro hb
    rw [hx, hy]
    have h1 : two_point_radial_scalar Real.sqrt b fx fy sr2d2 0 o posRoot =
        some (-(fx * fx + fy * fy - sr2d2) / b) := by
      unfold two_point_radial_scalar SkScalarDiv
      simp [hb]
    refine ⟨h1, ?_, ?_⟩
    · unfold two_point_radial
      rw [hlib, h1]
      rfl
    · field_simp

theorem two_point_radial_root_witness :
    (∃ t : ℝ, two_point_radial_scalar Real.sqrt 0 1 0 2 (4 * 1) (1 / (2 * 1)) true = some t ∧
        two_point_radial (K := ℝ) ⟨Real.sqrt, fun _ => 0, fun _ => 0, fun v _ => v,
          fun v => v, fun v => v, 8, fun _ _ => (0, 0)⟩ 0 1 0 2 (4 * 1) (1 / (2 * 1)) true =
          some 0 ∧
        t = (if true = true then
          (-0 + Real.sqrt (0 ^ 2 - 4 * 1 * (1 ^ 2 + 0 ^ 2 - 2))) / (2 * 1)
          else (-0 - Real.sqrt (0 ^ 2 - 4 * 1 * (1 ^ 2 + 0 ^ 2 - 2))) / (2 * 1)) ∧
        1 * t ^ 2 + 0 * t + (1 ^ 2 + 0 ^ 2 - 2) = 0) ∧
    (two_point_radial_scalar Real.sqrt 2 1 0 2 0 7 true = some (-(1 ^ 2 + 0 ^ 2 - 2) / 2) ∧
      (2 : ℝ) * (-(1 ^ 2 + 0 ^ 2 - 2) / 2) + (1 ^ 2 + 0 ^ 2 - 2) = 0) :=
  ⟨(two_point_radial_root 1 0 1 0 2 7 true ⟨Real.sqrt, fun _ => 0, fun _ => 0, fun v _ => v,
      fun v => v, fun v => v, 8, fun _ _ => (0, 0)⟩ rfl).1 (by norm_num) (by norm_num),
   have h := (two_point_radial_root 1 2 1 0 2 7 true ⟨Real.sqrt, fun _ => 0, fun _ => 0,
      fun v _ => v, fun v => v, fun v => v, 8, fun _ _ => (0, 0)⟩ rfl).2 (by norm_num)
   ⟨h.1, h.2.2⟩⟩

theorem guardedInvert_of_ne {K : Type} [LinearOrderedField K] (x : K) (h : x ≠ 0) :
    guardedInvert x = 1 / x := by
  unfold guardedInvert
  rw [if_neg h]

/-- C26: the normalised coefficients describe the interpolated circle through the point.
For a start circle of centre `S = fCenter1` and radius `Sr = fRadius1` and an end circle of
centre `E = fCenter2` and radius `Er = fRadius2` with `Dr = Er - Sr ≠ 0`, `init` returns,
`fPtsToUnit` maps `(x, y)` to `x' = (x - Sx) / Dr`, `y' = (y - Sy) / Dr`, and with `A =
fA`, `B` the value `shadeSpan` assigns to `b` at `(x', y')` and `C = x' ^ 2 + y' ^ 2 -
fSr2D2`, a scalar `t` satisfies `A * t ^ 2 + B * t + C = 0` exactly when `(x, y)` lies on
the circle of centre `(1 - t) * S + t * E` and radius `(1 - t) * Sr + t * Er`.  The
scalars are those of any linearly ordered field, in particular the reals. -/
theorem init_quadratic_iff_on_circle {K : Type} [LinearOrderedField K]
    (g0 : SkTwoPointRadialGradient K) (x y t : K)
    (hDr : g0.fRadius2 - g0.fRadius1 ≠ 0) :
    ∃ g, g0.init = some g ∧
      g.fPtsToUnit.mapXY x y = ⟨(x - g0.fCenter1.fX) / (g0.fRadius2 - g0.fRadius1),
        (y - g0.fCenter1.fY) / (g0.fRadius2 - g0.fRadius1)⟩ ∧
      (g.fA * t ^ 2 + g.spanB (g.fPtsToUnit.mapXY x y).fX (g.fPtsToUnit.mapXY x y).fY * t +
          ((g.fPtsToUnit.mapXY x y).fX ^ 2 + (g.fPtsToUnit.mapXY x y).fY ^ 2 - g.fSr2D2) = 0 ↔
        (x - ((1 - t) * g0.fCenter1.fX + t * g0.fCenter2.fX)) ^ 2 +
          (y - ((1 - t) * g0.fCenter1.fY + t * g0.fCenter2.fY)) ^ 2 =
          ((1 - t) * g0.fRadius1 + t * g0.fRadius2) ^ 2) := by
  have hmap : g0.derived.fPtsToUnit.mapXY x y =
      ⟨(x - g0.fCenter1.fX) / (g0.fRadius2 - g0.fRadius1),
        (y - g0.fCenter1.fY) / (g0.fRadius2 - g0.fRadius1)⟩ := by
    simp only [SkTwoPointRadialGradient.derived, SkMatrix.mapXY, SkMatrix.postScale,
      SkMatrix.setTranslate, guardedInvert_of_ne _ hDr]
    congr 1
    · field_simp
      ring
    · field_simp
      ring
  refine ⟨g0.derived, init_eq g0, hmap, ?_⟩
  rw [hmap]
  simp only [SkTwoPointRadialGradient.derived, SkTwoPointRadialGradient.spanB,
    guardedInvert_of_ne _ hDr]
  have key : ((g0.fCenter1.fX - g0.fCenter2.fX) * (1 / (g0.fRadius2 - g0.fRadius1)) *
        ((g0.fCenter1.fX - g0.fCenter2.fX) * (1 / (g0.fRadius2 - g0.fRadius1))) +
      (g0.fCenter1.fY - g0.fCenter2.fY) * (1 / (g0.fRadius2 - g0.fRadius1)) *
        ((g0.fCenter1.fY - g0.fCenter2.fY) * (1 / (g0.fRadius2 - g0.fRadius1))) - 1) * t ^ 2 +
      ((g0.fCenter1.fX - g0.fCenter2.fX) * (1 / (g0.fRadius2 - g0.fRadius1)) *
          ((x - g0.fCenter1.fX) / (g0.fRadius2 - g0.fRadius1)) +
        (g0.fCenter1.fY - g0.fCenter2.fY) * (1 / (g0.fRadius2 - g0.fRadius1)) *
          ((y - g0.fCenter1.fY) / (g0.fRadius2 - g0.fRadius1)) -
        g0.fRadius1 * (1 / (g0.fRadius2 - g0.fRadius1))) * 2 * t +
      (((x - g0.fCenter1.fX) / (g0.fRadius2 - g0.fRadius1)) ^ 2 +
        ((y - g0.fCenter1.fY) / (g0.fRadius2 - g0.fRadius1)) ^ 2 -
        g0.fRadius1 * (1 / (g0.fRadius2 - g0.fRadius1)) *
          (g0.fRadius1 * (1 / (g0.fRadius2 - g0.fRadius1)))) =
      ((x - ((1 - t) * g0.fCenter1.fX + t * g0.fCenter2.fX)) ^ 2 +
          (y - ((1 - t) * g0.fCenter1.fY + t * g0.fCenter2.fY)) ^ 2 -
          ((1 - t) * g0.fRadius1 + t * g0.fRadius2) ^ 2) /
        (g0.fRadius2 - g0.fRadius1) ^ 2 := by
    field_simp
    ring
  rw [key, div_eq_zero_iff, sub_eq_zero]
  constructor
  · intro h
    rcases h with h | h
    · exact h
    · exact absurd (pow_eq_zero_iff (two_ne_zero) |>.mp h) hDr
  · intro h
    exact Or.inl h

theorem init_quadratic_iff_on_circle_witness :
    ∃ g, (exampleGradient ⟨0, 0⟩ 1 ⟨3, 0⟩ 2).init = some g ∧
      g.fPtsToUnit.mapXY 1 0 = ⟨(1 - 0) / (2 - 1), (0 - 0) / (2 - 1)⟩ ∧
      (g.fA * 0 ^ 2 + g.spanB (g.fPtsToUnit.mapXY 1 0).fX (g.fPtsToUnit.mapXY 1 0).fY * 0 +
          ((g.fPtsToUnit.mapXY 1 0).fX ^ 2 + (g.fPtsToUnit.mapXY 1 0).fY ^ 2 - g.fSr2D2) = 0 ↔
        ((1 : ℚ) - ((1 - 0) * 0 + 0 * 3)) ^ 2 + (0 - ((1 - 0) * 0 + 0 * 0)) ^ 2 =
          ((1 - 0) * 1 + 0 * 2) ^ 2) :=
  init_quadratic_iff_on_circle (exampleGradient ⟨0, 0⟩ 1 ⟨3, 0⟩ 2) 1 0 0
    (by norm_num [exampleGradient, SkTwoPointRadialGradient.derived])

/-! ## Two-point radial gradient: spans -/

theorem shadeSpan_twopoint_eq_spanFrom {K : Type} [LinearOrderedField K] (debug : Bool)
    (lib : Library K) (tile : SkFixed → SkFixed) (dx dy db fSr2D2 foura fOneOverTwoA : K)
    (posRoot : Bool) (cache : Int → SkPMColor) (fx fy b : K) :
    ∀ (n k : Nat),
      shadeSpan_twopoint debug lib tile dx dy db fSr2D2 foura fOneOverTwoA posRoot cache
        (fx + (k : K) * dx) (fy + (k : K) * dy) (b + (k : K) * db) n =
      spanFrom (fun (i : Nat) => shadePixel debug lib tile cache (fx + (i : K) * dx)
        (fy + (i : K) * dy) (b + (i : K) * db) fSr2D2 foura fOneOverTwoA posRoot) k n := by
  intro n
  induction n with
  | zero => intro k; rfl
  | succ n ih =>
    intro k
    have hx : fx + (k : K) * dx + dx = fx + ((k + 1 : Nat) : K) * dx := by push_cast; ring
    have hy : fy + (k : K) * dy + dy = fy + ((k + 1 : Nat) : K) * dy := by push_cast; ring
    have hb : b + (k : K) * db + db = b + ((k + 1 : Nat) : K) * db := by push_cast; ring
    unfold shadeSpan_twopoint spanFrom
    rw [hx, hy, hb, ih (k + 1)]

theorem shadeSpan_twopoint_eq_spanFrom_zero {K : Type} [LinearOrderedField K] (debug : Bool)
    (lib : Library K) (tile : SkFixed → SkFixed) (dx dy db fSr2D2 foura fOneOverTwoA : K)
    (posRoot : Bool) (cache : Int → SkPMColor) (fx fy b : K) (n : Nat) :
    shadeSpan_twopoint debug lib tile dx dy db fSr2D2 foura fOneOverTwoA posRoot cache
        fx fy b n =
      spanFrom (fun (i : Nat) => shadePixel debug lib tile cache (fx + (i : K) * dx)
        (fy + (i : K) * dy) (b + (i : K) * db) fSr2D2 foura fOneOverTwoA posRoot) 0 n := by
  have h := shadeSpan_twopoint_eq_spanFrom debug lib tile dx dy db fSr2D2 foura fOneOverTwoA
    posRoot cache fx fy b n 0
  simpa using h

/-- C27: incremental and direct evaluation agree in the path of `shadeSpan` without
perspective.  For a gradient with different radii and a span of `count > 0` pixels that
starts at the point `(fx0, fy0)` of gradient space with the step `(dx, dy)`, `b0` the
linear coefficient at the start and `db = 2 * (fDiff.fX * dx + fDiff.fY * dy)`: the span
that `shadeSpan` computes with `shadeSpan_twopoint_clamp`, `_mirror` or `_repeat` is, pixel
by pixel, the one obtained by handing `fx0 + i * dx`, `fy0 + i * dy` and `b0 + i * db` to
`two_point_radial` at step `i`; `b0 + i * db` equals `2 * (fDiff.fX * (fx0 + i * dx) +
fDiff.fY * (fy0 + i * dy) - fStartRadius)`; and so the span equals the span evaluated
directly at every pixel. -/
theorem shadeSpan_incremental_eq_direct {K : Type} [LinearOrderedField K] (debug : Bool)
    (lib : Library K) (g : SkTwoPointRadialGradient K) (x y count : Int)
    (hr : g.fDiffRadius ≠ 0) (hc : 0 < count)
    (hclass : g.base.fDstToIndexClass ≠ MatrixClass.kPerspective_MatrixClass) :
    g.shadeSpan debug lib x y count =
      spanFrom (fun (i : Nat) => shadePixel debug lib (lib.tileFor g.base.fTileMode)
        g.base.getCache32
        ((g.spanStart x y).fX + (i : K) * (g.spanStep lib y).fX)
        ((g.spanStart x y).fY + (i : K) * (g.spanStep lib y).fY)
        (g.spanB (g.spanStart x y).fX (g.spanStart x y).fY +
          (i : K) * ((g.fDiff.fX * (g.spanStep lib y).fX +
            g.fDiff.fY * (g.spanStep lib y).fY) * 2))
        g.fSr2D2 (g.fA * 4) g.fOneOverTwoA (decide (g.fDiffRadius < 0))) 0 count.toNat ∧
    (∀ i : Nat, g.spanB (g.spanStart x y).fX (g.spanStart x y).fY +
        (i : K) * ((g.fDiff.fX * (g.spanStep lib y).fX +
          g.fDiff.fY * (g.spanStep lib y).fY) * 2) =
      2 * (g.fDiff.fX * ((g.spanStart x y).fX + (i : K) * (g.spanStep lib y).fX) +
        g.fDiff.fY * ((g.spanStart x y).fY + (i : K) * (g.spanStep lib y).fY) -
        g.fStartRadius)) ∧
    g.shadeSpan debug lib x y count = spanFrom (g.directPixel debug lib x y) 0 count.toNat := by
  have hb : ∀ i : Nat, g.spanB (g.spanStart x y).fX (g.spanStart x y).fY +
        (i : K) * ((g.fDiff.fX * (g.spanStep lib y).fX +
          g.fDiff.fY * (g.spanStep lib y).fY) * 2) =
      g.spanB ((g.spanStart x y).fX + (i : K) * (g.spanStep lib y).fX)
        ((g.spanStart x y).fY + (i : K) * (g.spanStep lib y).fY) := by
    intro i
    unfold SkTwoPointRadialGradient.spanB
    ring
  have hspan : g.shadeSpan debug lib x y count =
      spanFrom (fun (i : Nat) => shadePixel debug lib (lib.tileFor g.base.fTileMode)
        g.base.getCache32
        ((g.spanStart x y).fX + (i : K) * (g.spanStep lib y).fX)
        ((g.spanStart x y).fY + (i : K) * (g.spanStep lib y).fY)
        (g.spanB (g.spanStart x y).fX (g.spanStart x y).fY +
          (i : K) * ((g.fDiff.fX * (g.spanStep lib y).fX +
            g.fDiff.fY * (g.spanStep lib y).fY) * 2))
        g.fSr2D2 (g.fA * 4) g.fOneOverTwoA (decide (g.fDiffRadius < 0))) 0 count.toNat := by
    have hdx : (if g.base.fDstToIndexClass = MatrixClass.kFixedStepInX_MatrixClass then
        lib.SkFixedToScalar (lib.fixedStepInX g.base.fDstToIndex (y : K)).1
        else g.base.fDstToIndex.getScaleX) = (g.spanStep lib y).fX := by
      unfold SkTwoPointRadialGradient.spanStep
      split_ifs <;> rfl
    have hdy : (if g.base.fDstToIndexClass = MatrixClass.kFixedStepInX_MatrixClass then
        lib.SkFixedToScalar (lib.fixedStepInX g.base.fDstToIndex (y : K)).2
        else g.base.fDstToIndex.getSkewY) = (g.spanStep lib y).fY := by
      unfold SkTwoPointRadialGradient.spanStep
      split_ifs <;> rfl
    unfold SkTwoPointRadialGradient.shadeSpan
    rw [if_neg (by simp [hc]), if_neg hr]
    simp only [if_pos hclass, hdx, hdy]
    cases hm : g.base.fTileMode with
    | kClamp_TileMode =>
      exact shadeSpan_twopoint_eq_spanFrom_zero debug lib _ _ _ _ _ _ _ _ _ _ _ _ _
    | kRepeat_TileMode =>
      exact shadeSpan_twopoint_eq_spanFrom_zero debug lib _ _ _ _ _ _ _ _ _ _ _ _ _
    | kMirror_TileMode =>
      exact shadeSpan_twopoint_eq_spanFrom_zero debug lib _ _ _ _ _ _ _ _ _ _ _ _ _
  refine ⟨hspan, ?_, ?_⟩
  · intro i
    rw [hb i]
    unfold SkTwoPointRadialGradient.spanB
    ring
  · rw [hspan]
    congr 1
    funext i
    unfold SkTwoPointRadialGradient.directPixel
    rw [hb i]

theorem shadeSpan_incremental_eq_direct_witness :
    (exampleGradient ⟨0, 0⟩ 1 ⟨3, 0⟩ 2).shadeSpan true exampleLibrary 0 0 3 =
      spanFrom ((exampleGradient ⟨0, 0⟩ 1 ⟨3, 0⟩ 2).directPixel true exampleLibrary 0 0) 0
        (3 : Int).toNat :=
  (shadeSpan_incremental_eq_direct true exampleLibrary (exampleGradient ⟨0, 0⟩ 1 ⟨3, 0⟩ 2)
    0 0 3 (by norm_num [exampleGradient, SkTwoPointRadialGradient.derived]) (by decide)
    (by decide)).2.2

/-! ## Two-point radial gradient: flattening -/

/-- C28: round trip of the members the gradient flattens itself.  Let `g` be a gradient
left by `init`, flattened into an empty buffer, and let the base class read back its own
part of the buffer (whatever comes after it is left in the buffer).  The constructor
from the buffer then returns a gradient and an empty buffer: the two centres and the two
radii are read in the order they were written, so `fCenter1`, `fCenter2`, `fRadius1` and
`fRadius2` are those of `g`, and since this constructor runs `init` as well, `fDiff`,
`fDiffRadius`, `fStartRadius`, `fSr2D2`, `fA`, `fOneOverTwoA` and `fPtsToUnit` are those
of `g`. -/
theorem unflatten_flatten {K : Type} [LinearOrderedField K]
    (inheritedFlatten : SkGradientShaderBase K → SkFlattenableBuffer K → SkFlattenableBuffer K)
    (inheritedRead : SkFlattenableBuffer K →
      Option (SkGradientShaderBase K × SkFlattenableBuffer K))
    (g g0 : SkTwoPointRadialGradient K) (base : SkGradientShaderBase K)
    (hg : g0.init = some g)
    (hbase : ∀ rest, inheritedRead (inheritedFlatten g.base [] ++ rest) = some (base, rest)) :
    ∃ g1, SkTwoPointRadialGradient.unflatten inheritedRead (g.flatten inheritedFlatten []) =
        some (g1, []) ∧
      g1.base = base ∧
      g1.fCenter1 = g.fCenter1 ∧ g1.fCenter2 = g.fCenter2 ∧
      g1.fRadius1 = g.fRadius1 ∧ g1.fRadius2 = g.fRadius2 ∧
      g1.fDiff = g.fDiff ∧ g1.fDiffRadius = g.fDiffRadius ∧
      g1.fStartRadius = g.fStartRadius ∧ g1.fSr2D2 = g.fSr2D2 ∧ g1.fA = g.fA ∧
      g1.fOneOverTwoA = g.fOneOverTwoA ∧ g1.fPtsToUnit = g.fPtsToUnit := by
  rw [init_eq] at hg
  have hg' : g = g0.derived := (Option.some.inj hg).symm
  have hbuf : g.flatten inheritedFlatten [] =
      inheritedFlatten g.base [] ++
        [g.fCenter1.fX, g.fCenter1.fY, g.fCenter2.fX, g.fCenter2.fY, g.fRadius1, g.fRadius2] := by
    simp [SkTwoPointRadialGradient.flatten, writeScalar, writePoint]
  refine ⟨SkTwoPointRadialGradient.derived
    { base := base
      fCenter1 := g.fCenter1
      fCenter2 := g.fCenter2
      fRadius1 := g.fRadius1
      fRadius2 := g.fRadius2
      fDiff := ⟨0, 0⟩
      fDiffRadius := 0
      fStartRadius := 0
      fSr2D2 := 0
      fA := 0
      fOneOverTwoA := 0
      fPtsToUnit := SkMatrix.reset }, ?_, rfl, rfl, rfl, rfl, rfl, ?_⟩
  · rw [hbuf]
    unfold SkTwoPointRadialGradient.unflatten
    rw [hbase]
    simp only [readPoint, readScalar, SkTwoPointRadialGradient.create, init_eq]
  · subst hg'
    exact ⟨rfl, rfl, rfl, rfl, rfl, rfl, rfl⟩

theorem unflatten_flatten_witness :
    ∃ g1, SkTwoPointRadialGradient.unflatten
        (fun buffer => match buffer with
          | [] => none
          | _ :: rest => some (exampleBase SkMatrix.reset, rest))
        ((exampleGradient ⟨0, 0⟩ 1 ⟨3, 0⟩ 2).flatten (fun _ buffer => buffer ++ [7]) []) =
        some (g1, []) ∧
      g1.base = exampleBase SkMatrix.reset ∧
      g1.fCenter1 = (exampleGradient ⟨0, 0⟩ 1 ⟨3, 0⟩ 2).fCenter1 ∧
      g1.fCenter2 = (exampleGradient ⟨0, 0⟩ 1 ⟨3, 0⟩ 2).fCenter2 ∧
      g1.fRadius1 = (exampleGradient ⟨0, 0⟩ 1 ⟨3, 0⟩ 2).fRadius1 ∧
      g1.fRadius2 = (exampleGradient ⟨0, 0⟩ 1 ⟨3, 0⟩ 2).fRadius2 ∧
      g1.fDiff = (exampleGradient ⟨0, 0⟩ 1 ⟨3, 0⟩ 2).fDiff ∧
      g1.fDiffRadius = (exampleGradient ⟨0, 0⟩ 1 ⟨3, 0⟩ 2).fDiffRadius ∧
      g1.fStartRadius = (exampleGradient ⟨0, 0⟩ 1 ⟨3, 0⟩ 2).fStartRadius ∧
      g1.fSr2D2 = (exampleGradient ⟨0, 0⟩ 1 ⟨3, 0⟩ 2).fSr2D2 ∧
      g1.fA = (exampleGradient ⟨0, 0⟩ 1 ⟨3, 0⟩ 2).fA ∧
      g1.fOneOverTwoA = (exampleGradient ⟨0, 0⟩ 1 ⟨3, 0⟩ 2).fOneOverTwoA ∧
      g1.fPtsToUnit = (exampleGradient ⟨0, 0⟩ 1 ⟨3, 0⟩ 2).fPtsToUnit :=
  unflatten_flatten (fun _ buffer => buffer ++ [7])
    (fun buffer => match buffer with
      | [] => none
      | _ :: rest => some (exampleBase SkMatrix.reset, rest))
    (exampleGradient ⟨0, 0⟩ 1 ⟨3, 0⟩ 2) _ (exampleBase SkMatrix.reset) (init_eq _)
    (fun _ => rfl)

end skia

namespace skiagm

/-! ## Sampler stress test -/

theorem stripePixel_eq (P : SkColor → SkPMColor) (xSize : Nat) (addr : Nat → SkPMColor)
    (y x : Nat) :
    stripePixel P xSize addr y x = Function.update addr (y * xSize + x)
      (if x % 7 = 0 then P SK_ColorGREEN
        else if y % 5 = 0 then P SK_ColorRED else P SK_ColorBLACK) := by
  unfold stripePixel
  by_cases hx : x % 7 = 0 <;> by_cases hy : y % 5 = 0 <;> simp [hx, hy]

theorem foldl_update_of_not_mem {ι : Type} (idx : ι → Nat) (val : ι → SkPMColor) (j : Nat) :
    ∀ (l : List ι) (a : Nat → SkPMColor), (∀ i ∈ l, idx i ≠ j) →
      (l.foldl (fun a i => Function.update a (idx i) (val i)) a) j = a j := by
  intro l
  induction l with
  | nil => intro a _; rfl
  | cons h t ih =>
    intro a hne
    rw [List.foldl_cons, ih _ (fun i hi => hne i (List.mem_cons_of_mem _ hi))]
    exact Function.update_noteq (Ne.symm (hne h (List.mem_cons_self _ _))) _ _

theorem foldl_update_of_mem {ι : Type} (idx : ι → Nat) (val : ι → SkPMColor) :
    ∀ (l : List ι) (a : Nat → SkPMColor) (i : ι), i ∈ l →
      (∀ k ∈ l, idx k = idx i → k = i) →
      (l.foldl (fun a i => Function.update a (idx i) (val i)) a) (idx i) = val i := by
  intro l
  induction l with
  | nil => intro a i hi; exact absurd hi (List.not_mem_nil _)
  | cons h t ih =>
    intro a i hi hinj
    rw [List.foldl_cons]
    by_cases hit : i ∈ t
    · exact ih _ i hit (fun k hk => hinj k (List.mem_cons_of_mem _ hk))
    · have hih : i = h := by
        rcases List.mem_cons.mp hi with h1 | h1
        · exact h1
        · exact absurd h1 hit
      subst hih
      rw [foldl_update_of_not_mem idx val (idx i) t _ (fun k hk hidx =>
        hit (hinj k (List.mem_cons_of_mem _ hk) hidx ▸ hk))]
      exact Function.update_same _ _ _

theorem foldl_rows_eq_foldl_pairs (g : (Nat → SkPMColor) → Nat → Nat → (Nat → SkPMColor))
    (xs : List Nat) :
    ∀ (ys : List Nat) (a : Nat → SkPMColor),
      ys.foldl (fun a y => xs.foldl (fun a x => g a y x) a) a =
        (ys.flatMap (fun y => xs.map (fun x => (y, x)))).foldl (fun a p => g a p.1 p.2) a := by
  intro ys
  induction ys with
  | nil => intro a; rfl
  | cons y t ih =>
    intro a
    rw [List.foldl_cons, ih, List.flatMap_cons, List.foldl_append, List.foldl_map]

/-- C29: `createTexture` on a test whose texture is not created yet makes a texture of 16
by 16 pixels in which, for every `x < 16` and `y < 16`, the pixel `(x, y)` is green when
`x % 7 = 0`, otherwise red when `y % 5 = 0`, otherwise black, whatever the new pixel
memory held; and a second call leaves the test as the first call left it. -/
theorem createTexture_stripes (SkPreMultiplyColor : SkColor → SkPMColor)
    (allocated again : Nat → SkPMColor) (gm : SamplerStressGM)
    (hnew : gm.fTextureCreated = false) :
    (gm.createTexture SkPreMultiplyColor allocated).fTexture.fWidth = 16 ∧
    (gm.createTexture SkPreMultiplyColor allocated).fTexture.fHeight = 16 ∧
    (∀ x y : Nat, x < 16 → y < 16 →
      (gm.createTexture SkPreMultiplyColor allocated).fTexture.pixel x y =
        if x % 7 = 0 then SkPreMultiplyColor SK_ColorGREEN
        else if y % 5 = 0 then SkPreMultiplyColor SK_ColorRED
        else SkPreMultiplyColor SK_ColorBLACK) ∧
    (gm.createTexture SkPreMultiplyColor allocated).createTexture SkPreMultiplyColor again =
      gm.createTexture SkPreMultiplyColor allocated := by
  unfold SamplerStressGM.createTexture
  simp only [hnew, Bool.false_eq_true, if_false, if_true]
  refine ⟨trivial, trivial, ?_, trivial⟩
  intro x y hx hy
  have hfun : (fun (addr : Nat → SkPMColor) (y : Nat) => List.foldl
      (fun addr x => stripePixel SkPreMultiplyColor 16 addr y x) addr (List.range 16)) =
      (fun addr y => List.foldl (fun addr x => Function.update addr (y * 16 + x)
        (if x % 7 = 0 then SkPreMultiplyColor SK_ColorGREEN
          else if y % 5 = 0 then SkPreMultiplyColor SK_ColorRED
          else SkPreMultiplyColor SK_ColorBLACK)) addr (List.range 16)) := by
    funext addr y
    congr 1
    funext addr x
    exact stripePixel_eq _ _ _ _ _
  have hrows := foldl_rows_eq_foldl_pairs (fun addr y x => Function.update addr (y * 16 + x)
      (if x % 7 = 0 then SkPreMultiplyColor SK_ColorGREEN
        else if y % 5 = 0 then SkPreMultiplyColor SK_ColorRED
        else SkPreMultiplyColor SK_ColorBLACK)) (List.range 16) (List.range 16) allocated
  have hmem : (y, x) ∈ (List.range 16).flatMap (fun y => (List.range 16).map (fun x => (y, x))) := by
    rw [List.mem_flatMap]
    exact ⟨y, List.mem_range.mpr hy, List.mem_map.mpr ⟨x, List.mem_range.mpr hx, rfl⟩⟩
  have hinj : ∀ k ∈ (List.range 16).flatMap (fun y => (List.range 16).map (fun x => (y, x))),
      k.1 * 16 + k.2 = y * 16 + x → k = (y, x) := by
    intro k hk hidx
    rw [List.mem_flatMap] at hk
    obtain ⟨y1, hy1, hk⟩ := hk
    obtain ⟨x1, hx1, hk⟩ := List.mem_map.mp hk
    subst hk
    have h1 := List.mem_range.mp hx1
    have h2 : y1 = y ∧ x1 = x := by
      simp only at hidx
      omega
    rw [h2.1, h2.2]
  have hpix := foldl_update_of_mem (fun (p : Nat × Nat) => p.1 * 16 + p.2)
    (fun (p : Nat × Nat) => if p.2 % 7 = 0 then SkPreMultiplyColor SK_ColorGREEN
      else if p.1 % 5 = 0 then SkPreMultiplyColor SK_ColorRED
      else SkPreMultiplyColor SK_ColorBLACK)
    _ allocated (y, x) hmem hinj
  unfold SkBitmap.pixel
  simp only [hfun]
  rw [hrows]
  exact hpix

theorem createTexture_stripes_witness :
    (SamplerStressGM.create.createTexture id (fun _ => 7)).fTexture.fWidth = 16 ∧
    (SamplerStressGM.create.createTexture id (fun _ => 7)).fTexture.fHeight = 16 ∧
    (∀ x y : Nat, x < 16 → y < 16 →
      (SamplerStressGM.create.createTexture id (fun _ => 7)).fTexture.pixel x y =
        if x % 7 = 0 then id SK_ColorGREEN
        else if y % 5 = 0 then id SK_ColorRED
        else id SK_ColorBLACK) ∧
    (SamplerStressGM.create.createTexture id (fun _ => 7)).createTexture id (fun _ => 9) =
      SamplerStressGM.create.createTexture id (fun _ => 7) :=
  createTexture_stripes id (fun _ => 7) (fun _ => 9) SamplerStressGM.create rfl

end skiagm
